import Mathlib

/-! # Pintos file system: inode byte streams and directories

A shallow embedding of `filesys/inode.c` and `filesys/directory.c`.

* `off_t` and `int` values are integers (`Int`); cluster, sector and byte values are
  naturals.  Signed overflow is undefined behaviour in C and is outside the model.
* Memory buffers and device sectors are functions from a byte index to a byte value.
* Pointers to `struct inode` are addresses (`Nat`, the null pointer is `0`) into a heap that is
  part of the file-system state, so that two pointers to the same handle alias.
* The block device, the cluster allocator (`filesys/fat.c`) and `malloc` are not among the
  sources.  The device is a table of sectors, the allocator is a chain table whose choice of
  a free cluster, chain release and cluster/sector conversion are parameters (`Env`), and the
  outcome of every `malloc` call is a parameter too.
-/

namespace Pintos

/-! ## Constants and the environment -/

/-- Size of a device sector in bytes.  `struct inode_disk` has 4 + 4 + 4 + 124 * 4 + 4 = 512
bytes and `inode_create` asserts `sizeof *disk_inode == DISK_SECTOR_SIZE`. -/
abbrev DISK_SECTOR_SIZE : Int := 512

/-- Modelled from the spec: `NAME_MAX` is defined in `filesys/directory.h`, which is not among
the sources; the spec only says that names are of bounded length.  The value is the one of the
Pintos headers. -/
abbrev NAME_MAX : Nat := 14

/-- Value of `sizeof (struct dir_entry)`: a 4-byte `inode_sector`, `NAME_MAX + 1` bytes of
`name` and one byte of `in_use`. -/
abbrev DIR_ENTRY_SIZE : Int := 20

/-- What the code takes from its surroundings: the allocator's choice of a free cluster
(`0` when there is none), its chain release, the conversions between clusters and sectors,
the end-of-chain marker, and the outcome of the `k`-th call of `malloc`. -/
structure Env where
  pick : (Nat → Nat) → Nat
  remove_chain : (Nat → Nat) → Nat → Nat → (Nat → Nat)
  cluster_to_sector : Nat → Nat
  sector_to_cluster : Nat → Nat
  EOChain : Nat
  malloc_ok : Nat → Bool

/-! ## Data model -/

/-- On-disk inode (`struct inode_disk`), as cached in memory. -/
structure inode_disk where
  start : Nat
  length : Int
  magic : Nat
  unused : Nat → Nat
  is_dir : Nat

/-- In-memory inode (`struct inode`); the list element is the membership of its address in
`FS.open_inodes`. -/
structure inode where
  sector : Nat
  open_cnt : Int
  removed : Bool
  deny_write_cnt : Int
  data : inode_disk

/-- State of the file system: device sectors, the allocator's chain table, the heap of
in-memory inodes, the list `open_inodes` (addresses, front first) and the number of `malloc`
calls made so far. -/
structure FS where
  disk : Nat → Nat → Nat
  fat : Nat → Nat
  heap : Nat → inode
  open_inodes : List Nat
  mallocs : Nat

/-! ## Memory, device and allocator primitives -/

/-- Copy `n` bytes from `src + so` to `dst + d` (`memcpy (dst + d, src + so, n)`). -/
def memcpy (dst : Nat → Nat) (d : Nat) (src : Nat → Nat) (so : Nat) (n : Nat) : Nat → Nat :=
  fun i => if d ≤ i ∧ i < d + n then src (so + (i - d)) else dst i

/-- Fill a buffer with `n` bytes of value `v` (`memset (dst, v, n)`). -/
def memset (dst : Nat → Nat) (v : Nat) (n : Nat) : Nat → Nat :=
  fun i => if i < n then v else dst i

/-- Modelled from the spec: `disk_write` of the device driver, which is not among the sources.
Sector `sec` receives the `DISK_SECTOR_SIZE` bytes at `src + so`. -/
def disk_write (disk : Nat → Nat → Nat) (sec : Nat) (src : Nat → Nat) (so : Nat) :
    Nat → Nat → Nat :=
  fun t => if t = sec then (fun i => if i < 512 then src (so + i) else disk t i) else disk t

/-- Modelled from the spec: `disk_read` of the device driver, which is not among the sources.
The `DISK_SECTOR_SIZE` bytes of sector `sec` are stored at `dst + d`. -/
def disk_read (disk : Nat → Nat → Nat) (sec : Nat) (dst : Nat → Nat) (d : Nat) : Nat → Nat :=
  memcpy dst d (disk sec) 0 512

/-- Modelled from the spec: `fat_get` of `filesys/fat.c`, which is not among the sources: the
next link of a cluster in the chain table. -/
def fat_get (fat : Nat → Nat) (clst : Nat) : Nat := fat clst

/-- Modelled from the spec: `fat_create_chain` of `filesys/fat.c`, which is not among the
sources.  A free cluster chosen by the allocator becomes an end of chain and, when `clst` is
not `0`, the successor of `clst`; the result is the new cluster, or `0` with the table
unchanged when there is no free cluster. -/
def fat_create_chain (E : Env) (fat : Nat → Nat) (clst : Nat) : (Nat → Nat) × Nat :=
  if E.pick fat = 0 then (fat, 0)
  else
    (fun c => if clst ≠ 0 ∧ c = clst then E.pick fat
              else if c = E.pick fat then E.EOChain else fat c,
     E.pick fat)

/-- A call of `malloc` (or `calloc`): the state that has counted the call and the address of
the new block, which is the number of the call, or the null pointer `0` when the call fails.
Addresses are not reused. -/
def malloc (E : Env) (s : FS) : FS × Nat :=
  ({ s with mallocs := s.mallocs + 1 }, if E.malloc_ok s.mallocs then s.mallocs + 1 else 0)

/-- Store the `struct inode` value `v` at address `ip`. -/
def set_inode (s : FS) (ip : Nat) (v : inode) : FS :=
  { s with heap := fun a => if a = ip then v else s.heap a }

/-! ## `filesys/inode.c` -/

/-- Loop of `byte_to_sector`: while `pos >= DISK_SECTOR_SIZE`, extend the chain when the
current cluster is its end, step to the next cluster and subtract a sector from `pos`. -/
def byte_to_sector_loop (E : Env) : Nat → (Nat → Nat) → Nat → Int → (Nat → Nat) × Nat
  | 0, fat, start_clust, _ => (fat, start_clust)
  | fuel + 1, fat, start_clust, pos =>
    if pos ≥ DISK_SECTOR_SIZE then
      let fat1 := if fat_get fat start_clust = E.EOChain
                  then (fat_create_chain E fat start_clust).1 else fat
      byte_to_sector_loop E fuel fat1 (fat_get fat1 start_clust) (pos - DISK_SECTOR_SIZE)
    else (fat, start_clust)

/-- The function `byte_to_sector`: the sector that holds byte `pos` of the inode at address
`ip`, together with the state whose chain table the walk may have extended.  The loop runs
`pos / DISK_SECTOR_SIZE` times, which is the fuel it is given. -/
def byte_to_sector (E : Env) (s : FS) (ip : Nat) (pos : Int) : FS × Nat :=
  let r := byte_to_sector_loop E (pos / DISK_SECTOR_SIZE).toNat s.fat
    (E.sector_to_cluster (s.heap ip).data.start) pos
  ({ s with fat := r.1 }, E.cluster_to_sector r.2)

/-- The function `inode_length`. -/
def inode_length (s : FS) (ip : Nat) : Int := (s.heap ip).data.length

/-- The function `inode_get_inumber`. -/
def inode_get_inumber (s : FS) (ip : Nat) : Nat := (s.heap ip).sector

/-- Loop of `inode_read_at`.  `bounce` is the address of the staging buffer (`0` while it is
not allocated); its contents are always overwritten by a whole sector before they are used.
The result is the final state, the caller's buffer and `bytes_read`. -/
def inode_read_loop (E : Env) (ip : Nat) :
    Nat → FS → (Nat → Nat) → Int → Int → Int → Nat → FS × (Nat → Nat) × Int
  | 0, s, buffer, _, _, bytes_read, _ => (s, buffer, bytes_read)
  | fuel + 1, s, buffer, size, offset, bytes_read, bounce =>
    if size > 0 then
      let r := byte_to_sector E s ip offset
      let sector_ofs := offset.tmod DISK_SECTOR_SIZE
      let inode_left := inode_length r.1 ip - offset
      let sector_left := DISK_SECTOR_SIZE - sector_ofs
      let min_left := if inode_left < sector_left then inode_left else sector_left
      let chunk_size := if size < min_left then size else min_left
      if chunk_size ≤ 0 then (r.1, buffer, bytes_read)
      else if sector_ofs = 0 ∧ chunk_size = DISK_SECTOR_SIZE then
        inode_read_loop E ip fuel r.1
          (disk_read r.1.disk r.2 buffer bytes_read.toNat)
          (size - chunk_size) (offset + chunk_size) (bytes_read + chunk_size) bounce
      else
        let m := if bounce = 0 then malloc E r.1 else (r.1, bounce)
        if m.2 = 0 then (m.1, buffer, bytes_read)
        else
          inode_read_loop E ip fuel m.1
            (memcpy buffer bytes_read.toNat (disk_read m.1.disk r.2 (fun _ => 0) 0)
              sector_ofs.toNat chunk_size.toNat)
            (size - chunk_size) (offset + chunk_size) (bytes_read + chunk_size) m.2
    else (s, buffer, bytes_read)

/-- The function `inode_read_at`: reads `size` bytes at `offset` from the inode at address
`ip` into `buffer`.  Every iteration of the loop copies at least one byte, so `size`
iterations are enough fuel. -/
def inode_read_at (E : Env) (s : FS) (ip : Nat) (buffer : Nat → Nat) (size offset : Int) :
    FS × (Nat → Nat) × Int :=
  inode_read_loop E ip size.toNat s buffer size offset 0 0

/-- Loop of `inode_write_at`; the result is the final state and `bytes_written`. -/
def inode_write_loop (E : Env) (ip : Nat) (buffer : Nat → Nat) :
    Nat → FS → Int → Int → Int → Nat → FS × Int
  | 0, s, _, _, bytes_written, _ => (s, bytes_written)
  | fuel + 1, s, size, offset, bytes_written, bounce =>
    if size > 0 then
      let r := byte_to_sector E s ip offset
      let sector_ofs := offset.tmod DISK_SECTOR_SIZE
      let inode_left := inode_length r.1 ip - offset
      let sector_left := DISK_SECTOR_SIZE - sector_ofs
      let min_left := if inode_left < sector_left then inode_left else sector_left
      let chunk_size := if size < min_left then size else min_left
      if chunk_size ≤ 0 then (r.1, bytes_written)
      else if sector_ofs = 0 ∧ chunk_size = DISK_SECTOR_SIZE then
        inode_write_loop E ip buffer fuel
          { r.1 with disk := disk_write r.1.disk r.2 buffer bytes_written.toNat }
          (size - chunk_size) (offset + chunk_size) (bytes_written + chunk_size) bounce
      else
        let m := if bounce = 0 then malloc E r.1 else (r.1, bounce)
        if m.2 = 0 then (m.1, bytes_written)
        else
          let bounce0 :=
            if sector_ofs > 0 ∨ chunk_size < sector_left
            then disk_read m.1.disk r.2 (fun _ => 0) 0
            else memset (fun _ => 0) 0 512
          let bounce1 := memcpy bounce0 sector_ofs.toNat buffer bytes_written.toNat
            chunk_size.toNat
          inode_write_loop E ip buffer fuel
            { m.1 with disk := disk_write m.1.disk r.2 bounce1 0 }
            (size - chunk_size) (offset + chunk_size) (bytes_written + chunk_size) m.2
    else (s, bytes_written)

/-- Store `v` in `inode->data.length` of the inode at address `ip`. -/
def set_length (s : FS) (ip : Nat) (v : Int) : FS :=
  set_inode s ip { s.heap ip with data := { (s.heap ip).data with length := v } }

/-- The function `inode_write_at`: writes `size` bytes of `buffer` at `offset` into the inode
at address `ip`; the result is the final state and the number of bytes written. -/
def inode_write_at (E : Env) (s : FS) (ip : Nat) (buffer : Nat → Nat) (size offset : Int) :
    FS × Int :=
  if (s.heap ip).deny_write_cnt ≠ 0 then (s, 0)
  else
    let s1 := if offset + size > (s.heap ip).data.length
              then set_length s ip (offset + size) else s
    inode_write_loop E ip buffer size.toNat s1 size offset 0 0

/-- Byte `i` of the little-endian representation of `v`. -/
def le_byte (v : Nat) (i : Nat) : Nat := (v / 256 ^ i) % 256

/-- The unsigned 32-bit little-endian value stored in the four bytes at `b + o`. -/
def le32 (b : Nat → Nat) (o : Nat) : Nat :=
  (b o + 256 * b (o + 1) + 65536 * b (o + 2) + 16777216 * b (o + 3)) % 4294967296

/-- The 32-bit two's complement value (`off_t`) of an unsigned 32-bit value. -/
def to_signed (v : Nat) : Int := if v < 2147483648 then (v : Int) else (v : Int) - 4294967296

/-- The `struct inode_disk` that a sector's bytes hold: `start` at byte 0, `length` at 4,
`magic` at 8, `unused` at 12 and `is_dir` at 508. -/
def inode_disk_of_bytes (b : Nat → Nat) : inode_disk :=
  { start := le32 b 0,
    length := to_signed (le32 b 4),
    magic := le32 b 8,
    unused := fun i => b (12 + i),
    is_dir := le32 b 508 }

/-- The bytes of a `struct inode_disk`. -/
def bytes_of_inode_disk (d : inode_disk) : Nat → Nat :=
  fun i =>
    if i < 4 then le_byte d.start i
    else if i < 8 then le_byte (d.length % 4294967296).toNat (i - 4)
    else if i < 12 then le_byte d.magic (i - 8)
    else if i < 508 then d.unused (i - 12)
    else le_byte d.is_dir (i - 508)

/-- The macro `INODE_MAGIC`. -/
abbrev INODE_MAGIC : Nat := 0x494e4f44

/-- The function `bytes_to_sectors`: `DIV_ROUND_UP (size, DISK_SECTOR_SIZE)`, an `int`
quotient that truncates towards zero, converted to the 64-bit `size_t` of the result, so that
a negative quotient wraps around. -/
def bytes_to_sectors (size : Int) : Nat :=
  (((size + DISK_SECTOR_SIZE - 1).tdiv DISK_SECTOR_SIZE) % 18446744073709551616).toNat

/-- First loop of `inode_create`: link `n` more clusters behind `clst`.  The result is the
chain table, which keeps every cluster linked before a failure, and whether the allocator
served every call. -/
def inode_create_chain (E : Env) : Nat → (Nat → Nat) → Nat → (Nat → Nat) × Bool
  | 0, fat, _ => (fat, true)
  | n + 1, fat, clst =>
    let r := fat_create_chain E fat clst
    if r.2 = 0 then (r.1, false) else inode_create_chain E n r.1 r.2

/-- Second loop of `inode_create`: `n` writes of a sector of zeros, all of them to
`old_disk_sector`, which the loop body does not advance. -/
def inode_create_zero : Nat → (Nat → Nat → Nat) → Nat → (Nat → Nat → Nat)
  | 0, disk, _ => disk
  | n + 1, disk, old_disk_sector =>
    inode_create_zero n (disk_write disk old_disk_sector (fun _ => 0) 0) old_disk_sector

/-- The function `inode_create`; `none` when its assertion `length >= 0` fails.  On a
failure of the allocator the chain table keeps the clusters linked before it, and the record
written to `sector` stays. -/
def inode_create (E : Env) (s : FS) (sector : Nat) (length : Int) (is_dir : Nat) :
    Option (FS × Bool) :=
  if length < 0 then none
  else
    let m := malloc E s
    if m.2 = 0 then some (m.1, false)
    else
      let sectors := bytes_to_sectors length
      let r := fat_create_chain E m.1.fat 0
      if r.2 = 0 then some ({ m.1 with fat := r.1 }, false)
      else
        let disk_inode : inode_disk :=
          { start := E.cluster_to_sector r.2, length := length, magic := INODE_MAGIC,
            unused := fun _ => 0, is_dir := is_dir }
        let disk1 := disk_write m.1.disk sector (bytes_of_inode_disk disk_inode) 0
        if sectors > 0 then
          let c := inode_create_chain E (sectors - 1) r.1
            (E.sector_to_cluster disk_inode.start)
          if c.2 = false then some ({ m.1 with fat := c.1, disk := disk1 }, false)
          else
            some ({ m.1 with
                      fat := c.1,
                      disk := inode_create_zero sectors disk1 disk_inode.start },
                  true)
        else some ({ m.1 with fat := r.1, disk := disk1 }, true)

/-- The function `inode_reopen`. -/
def inode_reopen (s : FS) (ip : Nat) : FS × Nat :=
  if ip ≠ 0 then
    (set_inode s ip { s.heap ip with open_cnt := (s.heap ip).open_cnt + 1 }, ip)
  else (s, ip)

/-- The function `inode_open`. -/
def inode_open (E : Env) (s : FS) (sector : Nat) : FS × Nat :=
  match s.open_inodes.find? (fun a => decide ((s.heap a).sector = sector)) with
  | some a => inode_reopen s a
  | none =>
    let m := malloc E s
    if m.2 = 0 then (m.1, 0)
    else
      let s1 : FS := { m.1 with open_inodes := m.2 :: m.1.open_inodes }
      (set_inode s1 m.2
        { sector := sector, open_cnt := 1, deny_write_cnt := 0, removed := false,
          data := inode_disk_of_bytes (s1.disk sector) },
       m.2)

/-- The function `inode_close`. -/
def inode_close (E : Env) (s : FS) (ip : Nat) : FS :=
  if ip = 0 then s
  else
    let s1 := set_inode s ip { s.heap ip with open_cnt := (s.heap ip).open_cnt - 1 }
    if (s1.heap ip).open_cnt = 0 then
      let s2 : FS := { s1 with open_inodes := s1.open_inodes.erase ip }
      let fat1 :=
        if (s2.heap ip).removed then
          E.remove_chain
            (E.remove_chain s2.fat (E.sector_to_cluster (s2.heap ip).sector) 0)
            (E.sector_to_cluster (s2.heap ip).data.start) 0
        else s2.fat
      { s2 with
          fat := fat1,
          disk := disk_write s2.disk (s2.heap ip).sector
            (bytes_of_inode_disk (s2.heap ip).data) 0 }
    else s1

/-- The function `inode_remove`. -/
def inode_remove (s : FS) (ip : Nat) : FS :=
  set_inode s ip { s.heap ip with removed := true }

/-- The function `inode_deny_write`; `none` when its assertion fails. -/
def inode_deny_write (s : FS) (ip : Nat) : Option FS :=
  let s1 := set_inode s ip { s.heap ip with deny_write_cnt := (s.heap ip).deny_write_cnt + 1 }
  if (s1.heap ip).deny_write_cnt ≤ (s1.heap ip).open_cnt then some s1 else none

/-- The function `inode_allow_write`; `none` when one of its assertions fails. -/
def inode_allow_write (s : FS) (ip : Nat) : Option FS :=
  if (s.heap ip).deny_write_cnt > 0 ∧ (s.heap ip).deny_write_cnt ≤ (s.heap ip).open_cnt then
    some (set_inode s ip { s.heap ip with deny_write_cnt := (s.heap ip).deny_write_cnt - 1 })
  else none

/-- The function `inode_is_dir`; the record buffer comes from `calloc`, whose result the code
does not check. -/
def inode_is_dir (E : Env) (s : FS) (ip : Nat) : FS × Bool :=
  let m := malloc E s
  let disk_inode := inode_disk_of_bytes (m.1.disk (E.cluster_to_sector (m.1.heap ip).sector))
  (m.1, decide (disk_inode.is_dir ≠ 0))

/-! ## `filesys/directory.c` -/

/-- A directory (`struct dir`). -/
structure dir where
  inode : Nat
  pos : Int
  deriving DecidableEq

/-- The field `inode_sector` of the `struct dir_entry` held in the 20 bytes of `e`. -/
def e_inode_sector (e : Nat → Nat) : Nat := le32 e 0

/-- The field `in_use` of the `struct dir_entry` held in the 20 bytes of `e`. -/
def e_in_use (e : Nat → Nat) : Bool := decide (e 19 ≠ 0)

/-- Whether `strcmp (name, mem + base)` is zero, for a string `name` given by its characters
before the terminator. -/
def str_eq : List Nat → (Nat → Nat) → Nat → Bool
  | [], mem, base => decide (mem base = 0)
  | c :: cs, mem, base => decide (mem base = c) && str_eq cs mem (base + 1)

/-- The string found at `mem + base`, cut after `max` characters. -/
def str_at (mem : Nat → Nat) : Nat → Nat → List Nat
  | _, 0 => []
  | base, max + 1 => if mem base = 0 then [] else mem base :: str_at mem (base + 1) max

/-- The assignment `e.in_use = v`. -/
def set_in_use (e : Nat → Nat) (v : Bool) : Nat → Nat :=
  fun i => if i = 19 then (if v then 1 else 0) else e i

/-- The assignment `e.inode_sector = sector`. -/
def set_inode_sector (e : Nat → Nat) (sector : Nat) : Nat → Nat :=
  fun i => if i < 4 then le_byte sector i else e i

/-- The call `strlcpy (e.name, name, sizeof e.name)`: at most `NAME_MAX` characters and a
terminator are stored from byte 4 on. -/
def set_name (e : Nat → Nat) (name : List Nat) : Nat → Nat :=
  fun i =>
    if 4 ≤ i ∧ i < 4 + min name.length NAME_MAX then name.getD (i - 4) 0
    else if i = 4 + min name.length NAME_MAX then 0
    else e i

/-- The function `dir_create`.  The `size_t` product `entry_cnt * sizeof (struct dir_entry)`
is converted to the 32-bit `off_t` parameter of `inode_create`: its low 32 bits, read as a
two's complement value. -/
def dir_create (E : Env) (s : FS) (sector : Nat) (entry_cnt : Nat) : Option (FS × Bool) :=
  inode_create E s sector (to_signed ((entry_cnt * 20) % 4294967296)) 1

/-- The function `dir_open`; `none` is the null pointer. -/
def dir_open (E : Env) (s : FS) (ip : Nat) : FS × Option dir :=
  let m := malloc E s
  if ip ≠ 0 ∧ m.2 ≠ 0 then (m.1, some { inode := ip, pos := 0 })
  else (inode_close E m.1 ip, none)

/-- The function `dir_reopen`. -/
def dir_reopen (E : Env) (s : FS) (d : dir) : FS × Option dir :=
  let r := inode_reopen s d.inode
  dir_open E r.1 r.2

/-- The function `dir_close`. -/
def dir_close (E : Env) (s : FS) (d : Option dir) : FS :=
  match d with
  | some d => inode_close E s d.inode
  | none => s

/-- The function `dir_get_inode`. -/
def dir_get_inode (d : dir) : Nat := d.inode

/-- Loop of `lookup`, at offset `ofs`; the result is the state, whether an entry was found, the
entry and its offset. -/
def lookup_loop (E : Env) (ip : Nat) (name : List Nat) :
    Nat → FS → (Nat → Nat) → Int → FS × Bool × (Nat → Nat) × Int
  | 0, s, e, ofs => (s, false, e, ofs)
  | fuel + 1, s, e, ofs =>
    let r := inode_read_at E s ip e DIR_ENTRY_SIZE ofs
    if r.2.2 = DIR_ENTRY_SIZE then
      if e_in_use r.2.1 = true ∧ str_eq name r.2.1 4 = true then (r.1, true, r.2.1, ofs)
      else lookup_loop E ip name fuel r.1 r.2.1 (ofs + DIR_ENTRY_SIZE)
    else (r.1, false, r.2.1, ofs)

/-- The function `lookup`.  A read of a whole entry needs the entry to end within the length
of the inode, so one iteration more than the number of entries in that length is enough fuel.
The local `e` starts as zeros: it is used only after a read has filled all of it. -/
def lookup (E : Env) (s : FS) (d : dir) (name : List Nat) : FS × Bool × (Nat → Nat) × Int :=
  lookup_loop E d.inode name ((inode_length s d.inode / DIR_ENTRY_SIZE).toNat + 1) s
    (fun _ => 0) 0

/-- The function `dir_lookup`; the result is the state, the return value and `*inode`. -/
def dir_lookup (E : Env) (s : FS) (d : dir) (name : List Nat) : FS × Bool × Nat :=
  let l := lookup E s d name
  if l.2.1 = true then
    let o := inode_open E l.1 (e_inode_sector l.2.2.1)
    (o.1, decide (o.2 ≠ 0), o.2)
  else (l.1, false, 0)

/-- Loop of `dir_add` that looks for a free slot; the result is the state, the local `e` and
`ofs`. -/
def dir_add_loop (E : Env) (ip : Nat) :
    Nat → FS → (Nat → Nat) → Int → FS × (Nat → Nat) × Int
  | 0, s, e, ofs => (s, e, ofs)
  | fuel + 1, s, e, ofs =>
    let r := inode_read_at E s ip e DIR_ENTRY_SIZE ofs
    if r.2.2 = DIR_ENTRY_SIZE then
      if e_in_use r.2.1 = false then (r.1, r.2.1, ofs)
      else dir_add_loop E ip fuel r.1 r.2.1 (ofs + DIR_ENTRY_SIZE)
    else (r.1, r.2.1, ofs)

/-- The function `dir_add`.  `e0` is the indeterminate initial contents of the local `e`. -/
def dir_add (E : Env) (s : FS) (d : dir) (name : List Nat) (inode_sector : Nat)
    (e0 : Nat → Nat) : FS × Bool :=
  if name = [] ∨ name.length > NAME_MAX then (s, false)
  else
    let l := lookup E s d name
    if l.2.1 = true then (l.1, false)
    else
      let sc := dir_add_loop E d.inode ((inode_length l.1 d.inode / DIR_ENTRY_SIZE).toNat + 1)
        l.1 e0 0
      let e := set_inode_sector (set_name (set_in_use sc.2.1 true) name) inode_sector
      let w := inode_write_at E sc.1 d.inode e DIR_ENTRY_SIZE sc.2.2
      (w.1, decide (w.2 = DIR_ENTRY_SIZE))

/-- The part of `dir_remove` before its label `done`: the state, `success` and `inode`. -/
def dir_remove_body (E : Env) (s : FS) (d : dir) (name : List Nat) : FS × Bool × Nat :=
  let l := lookup E s d name
  if l.2.1 = false then (l.1, false, 0)
  else
    let o := inode_open E l.1 (e_inode_sector l.2.2.1)
    if o.2 = 0 then (o.1, false, 0)
    else
      let w := inode_write_at E o.1 d.inode (set_in_use l.2.2.1 false) DIR_ENTRY_SIZE l.2.2.2
      if w.2 ≠ DIR_ENTRY_SIZE then (w.1, false, o.2)
      else (inode_remove w.1 o.2, true, o.2)

/-- The function `dir_remove`: at the label `done` it closes `inode` and returns `success`. -/
def dir_remove (E : Env) (s : FS) (d : dir) (name : List Nat) : FS × Bool :=
  let b := dir_remove_body E s d name
  (inode_close E b.1 b.2.2, b.2.1)

/-- Loop of `dir_readdir`; the result is the state, the directory with its new position, and
the name read, if any. -/
def dir_readdir_loop (E : Env) :
    Nat → FS → dir → (Nat → Nat) → FS × dir × Option (List Nat)
  | 0, s, d, _ => (s, d, none)
  | fuel + 1, s, d, e =>
    let r := inode_read_at E s d.inode e DIR_ENTRY_SIZE d.pos
    if r.2.2 = DIR_ENTRY_SIZE then
      let d1 : dir := { d with pos := d.pos + DIR_ENTRY_SIZE }
      if e_in_use r.2.1 = true then (r.1, d1, some (str_at r.2.1 4 NAME_MAX))
      else dir_readdir_loop E fuel r.1 d1 r.2.1
    else (r.1, d, none)

/-- The function `dir_readdir`: `some name` when it returns true with `name` stored, `none`
when it returns false. -/
def dir_readdir (E : Env) (s : FS) (d : dir) : FS × dir × Option (List Nat) :=
  dir_readdir_loop E (((inode_length s d.inode - d.pos) / DIR_ENTRY_SIZE).toNat + 1) s d
    (fun _ => 0)

/-! ## Notions used in the statements -/

/-- The chunk size that an iteration of the read and write loops computes from the length of
the inode, the remaining size and the offset. -/
def chunk_of (len size offset : Int) : Int :=
  let sector_ofs := offset.tmod DISK_SECTOR_SIZE
  let inode_left := len - offset
  let sector_left := DISK_SECTOR_SIZE - sector_ofs
  let min_left := if inode_left < sector_left then inode_left else sector_left
  if size < min_left then size else min_left

/-- The staging buffer of the read and write loops at the point where it is needed: it is
allocated when `bounce` is still the null pointer. -/
def stage (E : Env) (s : FS) (bounce : Nat) : FS × Nat :=
  if bounce = 0 then malloc E s else (s, bounce)

/-- The cluster reached from `c0` after `i` links of the chain table. -/
def nth_cluster (fat : Nat → Nat) (c0 : Nat) (i : Nat) : Nat := fat^[i] c0

/-- The chain anchored at `c0` is well formed and has `L` clusters: the first `L` clusters are
neither `0` nor the end marker, and the last of them is linked to the end marker. -/
def chain_wf (E : Env) (fat : Nat → Nat) (c0 : Nat) (L : Nat) : Prop :=
  0 < L ∧ (∀ i, i < L → nth_cluster fat c0 i ≠ 0 ∧ nth_cluster fat c0 i ≠ E.EOChain) ∧
    nth_cluster fat c0 L = E.EOChain

/-- The allocator hands out free clusters only: the end marker is not `0` (the mark of a free
cluster), and a cluster it picks is free and is not the end marker. -/
def pick_sound (E : Env) : Prop :=
  E.EOChain ≠ 0 ∧ ∀ fat, E.pick fat ≠ 0 → fat (E.pick fat) = 0 ∧ E.pick fat ≠ E.EOChain

/-- The walk of `byte_to_sector` over `n` links. -/
def walk (E : Env) : Nat → (Nat → Nat) → Nat → (Nat → Nat) × Nat
  | 0, fat, c => (fat, c)
  | n + 1, fat, c =>
    let fat1 := if fat_get fat c = E.EOChain then (fat_create_chain E fat c).1 else fat
    walk E n fat1 (fat_get fat1 c)

/-- The cluster that anchors the data chain of the inode at address `ip`. -/
def chain_start (E : Env) (s : FS) (ip : Nat) : Nat :=
  E.sector_to_cluster (s.heap ip).data.start

/-- The sector of the `i`-th cluster of the chain anchored at `c0`. -/
def sector_at (E : Env) (fat : Nat → Nat) (c0 : Nat) (i : Nat) : Nat :=
  E.cluster_to_sector (nth_cluster fat c0 i)

/-- The byte that the device holds for position `q` of the stream whose chain is anchored at
`c0`. -/
def stream_byte (E : Env) (disk : Nat → Nat → Nat) (fat : Nat → Nat) (c0 : Nat) (q : Int) :
    Nat :=
  disk (sector_at E fat c0 (q / 512).toNat) (q % 512).toNat

/-- The first `L` positions of the chain anchored at `c0` have distinct sectors. -/
def chain_inj (E : Env) (fat : Nat → Nat) (c0 : Nat) (L : Nat) : Prop :=
  ∀ i j, i < L → j < L → sector_at E fat c0 i = sector_at E fat c0 j → i = j

/-- Every call of `malloc` from state `s` on succeeds. -/
def mem_ok (E : Env) (s : FS) : Prop := ∀ k, s.mallocs ≤ k → E.malloc_ok k = true

/-- What a run of the write loop achieves, from device `d0` and chain table `f0` with a chain
of `L` clusters, for `size` bytes at `offset` taken from `buffer + bw`: the byte count, the
chain is extended only at its end, and, when the final chain covers the range, the device
changes only at the bytes of the range, which hold the data when the sectors are distinct. -/
def write_post (E : Env) (c0 : Nat) (buffer : Nat → Nat) (d0 : Nat → Nat → Nat)
    (f0 : Nat → Nat) (size offset bw : Int) (L : Nat) (r : FS × Int) : Prop :=
  r.2 = bw + size ∧
  (∃ L1, chain_wf E r.1.fat c0 L1 ∧ L ≤ L1 ∧
    ∀ j, j < L → nth_cluster r.1.fat c0 j = nth_cluster f0 c0 j) ∧
  (∀ L', chain_wf E r.1.fat c0 L' → offset + size ≤ 512 * L' →
    (∀ t i, (∀ q : Int, offset ≤ q → q < offset + size →
        ¬ (t = sector_at E r.1.fat c0 (q / 512).toNat ∧ i = (q % 512).toNat)) →
      r.1.disk t i = d0 t i) ∧
    (chain_inj E r.1.fat c0 L' → ∀ q : Int, offset ≤ q → q < offset + size →
      r.1.disk (sector_at E r.1.fat c0 (q / 512).toNat) (q % 512).toNat
        = buffer (bw + (q - offset)).toNat))

/-- What a run of the read loop achieves, from device `d0` and chain table `f0` with a chain of
`L` clusters, when it copies `n` bytes from `offset` to `buffer + br`: the caller's buffer,
and the chain is extended only at its end and not at all when `n` is the whole `size`. -/
def read_post (E : Env) (c0 : Nat) (buffer : Nat → Nat) (d0 : Nat → Nat → Nat)
    (f0 : Nat → Nat) (size offset br n : Int) (L : Nat) (r : FS × (Nat → Nat) × Int) : Prop :=
  (∀ i : Nat, r.2.1 i =
    if br ≤ i ∧ (i : Int) < br + n then stream_byte E d0 f0 c0 (offset + (i - br))
    else buffer i) ∧
  (∃ L1, chain_wf E r.1.fat c0 L1 ∧ L ≤ L1 ∧
    ∀ j, j < L → nth_cluster r.1.fat c0 j = nth_cluster f0 c0 j) ∧
  (n = size → r.1.fat = f0)

/-- The byte at position `q` of the stream of the inode at address `ip`, as its chain and the
device give it. -/
def inode_byte (E : Env) (s : FS) (ip : Nat) (q : Int) : Nat :=
  stream_byte E s.disk s.fat (chain_start E s ip) q

/-- The inode at address `ip` is consistent: its chain is well formed with `L` clusters and
backs its length, which is not negative. -/
def dir_wf (E : Env) (s : FS) (ip : Nat) (L : Nat) : Prop :=
  chain_wf E s.fat (chain_start E s ip) L ∧ 0 ≤ inode_length s ip ∧
    inode_length s ip ≤ 512 * L

/-- The number of whole records in the stream of the directory inode at address `ip`. -/
def dir_count (s : FS) (ip : Nat) : Nat := (inode_length s ip / 20).toNat

/-- The record number `k` of the directory inode at address `ip`: the 20 bytes at offset
`20 * k`, followed by zeros. -/
def dir_entry_at (E : Env) (s : FS) (ip : Nat) (k : Nat) : Nat → Nat :=
  fun j => if j < 20 then inode_byte E s ip (20 * (k : Int) + (j : Int)) else 0

/-- The record `e` is in use and carries the name `name`. -/
def entry_match (name : List Nat) (e : Nat → Nat) : Prop :=
  e_in_use e = true ∧ str_eq name e 4 = true

/-- State `s` is state `s0` after reads of the inode at address `ip`, whose chain had `L`
clusters: same heap, device and list of open inodes, and a chain extended at its end only. -/
def scan_rel (E : Env) (ip : Nat) (L : Nat) (s0 s : FS) : Prop :=
  s.heap = s0.heap ∧ s.disk = s0.disk ∧ s.open_inodes = s0.open_inodes ∧
  s0.mallocs ≤ s.mallocs ∧
  ∃ L1, chain_wf E s.fat (chain_start E s0 ip) L1 ∧ L ≤ L1 ∧
    ∀ j, j < L → nth_cluster s.fat (chain_start E s0 ip) j
      = nth_cluster s0.fat (chain_start E s0 ip) j

/-- Repeated calls of `dir_readdir`, at most `n` of them, until one returns false: the names
read, each with the position of the cursor after the call that read it, the position after the
last call, and whether the last call returned false. -/
def dir_enumerate (E : Env) : Nat → FS → dir → List (List Nat × Int) × Int × Bool
  | 0, _, d => ([], d.pos, false)
  | n + 1, s, d =>
    match (dir_readdir E s d).2.2 with
    | some name =>
      ((name, (dir_readdir E s d).2.1.pos) ::
          (dir_enumerate E n (dir_readdir E s d).1 (dir_readdir E s d).2.1).1,
        (dir_enumerate E n (dir_readdir E s d).1 (dir_readdir E s d).2.1).2)
    | none => ([], (dir_readdir E s d).2.1.pos, true)

/-- The names of the records in use among the `m` records from number `k` on of the directory
inode at address `ip`, in ascending order of their offset, each with the offset of the end of
its record. -/
def dir_names_from (E : Env) (s : FS) (ip : Nat) : Nat → Nat → List (List Nat × Int)
  | 0, _ => []
  | m + 1, k =>
    if e_in_use (dir_entry_at E s ip k) = true then
      (str_at (dir_entry_at E s ip k) 4 NAME_MAX, 20 * ((k + 1 : Nat) : Int)) ::
        dir_names_from E s ip m (k + 1)
    else dir_names_from E s ip m (k + 1)

/-- A call on a directory: `dir_add (dir, name, sector)`, with the indeterminate initial
contents of its local `e`, or `dir_remove (dir, name)`. -/
inductive dir_op where
  | add (name : List Nat) (sector : Nat) (e0 : Nat → Nat)
  | remove (name : List Nat)

/-- The state after one call on the directory `d`. -/
def dir_step (E : Env) (s : FS) (d : dir) : dir_op → FS
  | .add n sector e0 => (dir_add E s d n sector e0).1
  | .remove n => (dir_remove E s d n).1

/-- The state after a sequence of calls on the directory `d`. -/
def dir_run (E : Env) (d : dir) : FS → List dir_op → FS
  | s, [] => s
  | s, op :: ops => dir_run E d (dir_step E s d op) ops

/-- The call of `inode_close` that ends `dir_remove (d, name)` in state `s` leaves the records
of the directory as they were before it. -/
def close_quiet (E : Env) (s : FS) (d : dir) (name : List Nat) : Prop :=
  ∀ j, j < dir_count s d.inode → ∀ i, i < 20 →
    dir_entry_at E (dir_remove E s d name).1 d.inode j i
      = dir_entry_at E (dir_remove_body E s d name).1 d.inode j i

/-- The arguments of a call are values of their C types: the name is a string, without a
character `0`, and the sector is a 32-bit value. -/
def op_args_ok : dir_op → Prop
  | .add n sector _ => (∀ c, c ∈ n → c ≠ 0) ∧ sector < 4294967296
  | .remove n => ∀ c, c ∈ n → c ≠ 0

/-- The directory inode at address `ip` maps `name` to `sector`: the first record in use that
carries the name carries the sector. -/
def dir_maps (E : Env) (s : FS) (ip : Nat) (name : List Nat) (sector : Nat) : Prop :=
  ∃ k, k < dir_count s ip ∧ (∀ j, j < k → ¬ entry_match name (dir_entry_at E s ip j)) ∧
    entry_match name (dir_entry_at E s ip k) ∧ e_inode_sector (dir_entry_at E s ip k) = sector

/-- What the calls on a directory rely on in state `s`: the directory inode at address `ip`
is consistent and was allocated, every later allocation succeeds, and the list of open inodes
holds no null pointer. -/
def dir_ready (E : Env) (s : FS) (ip : Nat) : Prop :=
  (∃ L, dir_wf E s ip L) ∧ mem_ok E s ∧ 0 ∉ s.open_inodes ∧ ip ≤ s.mallocs

/-- The call is not `dir_remove (d, name)`, and when it is a `dir_remove` its closing
`inode_close` leaves the records of the directory as they were. -/
def op_keeps (E : Env) (s : FS) (d : dir) (name : List Nat) : dir_op → Prop
  | .add _ _ _ => True
  | .remove n => n ≠ name ∧ close_quiet E s d n

/-- The calls `ops` from state `s` on have arguments of their C types, do not remove `name`,
and each of them leaves the directory inode consistent and its records intact at its close. -/
def run_ok (E : Env) (d : dir) (name : List Nat) : FS → List dir_op → Prop
  | _, [] => True
  | s, op :: ops =>
    op_args_ok op ∧ op_keeps E s d name op ∧ (∃ L, dir_wf E (dir_step E s d op) d.inode L) ∧
      run_ok E d name (dir_step E s d op) ops

/-- A call on the inode module: `inode_open (sector)`, or `inode_reopen`, `inode_close`,
`inode_deny_write` or `inode_allow_write` of the handle at an address. -/
inductive inode_op where
  | open_at (sector : Nat)
  | reopen (a : Nat)
  | close (a : Nat)
  | deny (a : Nat)
  | allow (a : Nat)

/-- The state after one call on the inode module; `none` when an assertion of the call
fails. -/
def inode_step (E : Env) (s : FS) : inode_op → Option FS
  | .open_at sector => some (inode_open E s sector).1
  | .reopen a => some (inode_reopen s a).1
  | .close a => some (inode_close E s a)
  | .deny a => inode_deny_write s a
  | .allow a => inode_allow_write s a

/-- The state after a sequence of calls on the inode module; `none` when an assertion of one
of them fails. -/
def inode_run (E : Env) : FS → List inode_op → Option FS
  | s, [] => some s
  | s, op :: ops =>
    match inode_step E s op with
    | some s1 => inode_run E s1 ops
    | none => none

/-- The call is `inode_open`, `inode_reopen` or `inode_close`. -/
def op_plain : inode_op → Prop
  | .open_at _ => True
  | .reopen _ => True
  | .close _ => True
  | .deny _ => False
  | .allow _ => False

/-- The registry of open inodes is in order: every registered handle is a block allocated
earlier, not the null pointer, with `open_cnt` at least 1; no handle is registered twice and
no two registered handles have the same sector. -/
def registry_ok (s : FS) : Prop :=
  (∀ a, a ∈ s.open_inodes → a ≠ 0 ∧ a ≤ s.mallocs ∧ 1 ≤ (s.heap a).open_cnt) ∧
  s.open_inodes.Nodup ∧
  ∀ a, a ∈ s.open_inodes → ∀ b, b ∈ s.open_inodes →
    (s.heap a).sector = (s.heap b).sector → a = b

/-- Every registered handle satisfies `0 <= deny_write_cnt <= open_cnt`. -/
def deny_ok (s : FS) : Prop :=
  ∀ a, a ∈ s.open_inodes →
    0 ≤ (s.heap a).deny_write_cnt ∧ (s.heap a).deny_write_cnt ≤ (s.heap a).open_cnt

/-- A call of `inode_close` is made by an opener that holds no write denial: the handle has
fewer denials than openers. -/
def close_guard (s : FS) : inode_op → Prop
  | .close a => (s.heap a).deny_write_cnt < (s.heap a).open_cnt
  | _ => True

/-- Every `inode_close` of the sequence of calls from state `s` on is made by an opener that
holds no write denial. -/
def run_guarded (E : Env) : FS → List inode_op → Prop
  | _, [] => True
  | s, op :: ops =>
    close_guard s op ∧
      match inode_step E s op with
      | some s1 => run_guarded E s1 ops
      | none => True

/-- No two records in use of the directory inode at address `ip` carry the same string. -/
def names_unique (E : Env) (s : FS) (ip : Nat) : Prop :=
  ∀ n : List Nat, (∀ c, c ∈ n → c ≠ 0) →
    ∀ i, i < dir_count s ip → ∀ j, j < dir_count s ip →
      entry_match n (dir_entry_at E s ip i) → entry_match n (dir_entry_at E s ip j) → i = j

/-- When the call is a `dir_remove`, its closing `inode_close` leaves the records of the
directory as they were. -/
def op_quiet (E : Env) (s : FS) (d : dir) : dir_op → Prop
  | .add _ _ _ => True
  | .remove n => close_quiet E s d n

/-- The calls `ops` from state `s` on have arguments of their C types, and each of them
leaves the directory inode consistent and its records intact at its close. -/
def run_sane (E : Env) (d : dir) : FS → List dir_op → Prop
  | _, [] => True
  | s, op :: ops =>
    op_args_ok op ∧ op_quiet E s d op ∧ (∃ L, dir_wf E (dir_step E s d op) d.inode L) ∧
      run_sane E d (dir_step E s d op) ops

/-! ## A small file system for the examples -/

/-- The first free cluster among the `n` clusters from `c` on, `0` when there is none. -/
def first_free (fat : Nat → Nat) : Nat → Nat → Nat
  | 0, _ => 0
  | n + 1, c => if fat c = 0 then c else first_free fat n (c + 1)

/-- Release of the chain that starts at `c`, over at most `n` links. -/
def release (eo : Nat) : Nat → (Nat → Nat) → Nat → (Nat → Nat)
  | 0, fat, _ => fat
  | n + 1, fat, c =>
    if c = eo ∨ c = 0 then fat
    else release eo n (fun x => if x = c then 0 else fat x) (fat c)

/-- An environment with seven clusters, in which cluster `c` is sector `c + 100` and every
`malloc` succeeds. -/
def demo_env : Env :=
  { pick := fun fat => first_free fat 7 1,
    remove_chain := fun fat c _ => release 268435455 8 fat c,
    cluster_to_sector := fun c => c + 100,
    sector_to_cluster := fun s => s - 100,
    EOChain := 268435455,
    malloc_ok := fun _ => true }

/-- The same environment with a `malloc` that always fails. -/
def demo_env_oom : Env := { demo_env with malloc_ok := fun _ => false }

/-- The same environment with a `malloc` whose call number `n` fails and whose other calls
succeed. -/
def demo_env_fail (n : Nat) : Env := { demo_env with malloc_ok := fun k => decide (k ≠ n) }

/-- The same environment with a `malloc` that succeeds for the first `n` calls only. -/
def demo_env_until (n : Nat) : Env := { demo_env with malloc_ok := fun k => decide (k < n) }

/-- An inode of length `len` at sector 107 whose data chain starts at cluster 1. -/
def demo_inode (len : Int) (deny : Int) : inode :=
  { sector := 107, open_cnt := 1, removed := false, deny_write_cnt := deny,
    data := { start := 101, length := len, magic := INODE_MAGIC, unused := fun _ => 0,
              is_dir := 0 } }

/-- A state with one open inode, at address 1, whose chain is the single cluster 1, on a
device of zeros. -/
def demo_fs (len : Int) (deny : Int) : FS :=
  { disk := fun _ _ => 0,
    fat := fun c => if c = 1 then 268435455 else 0,
    heap := fun _ => demo_inode len deny,
    open_inodes := [1],
    mallocs := 1 }

/-- The directory handle of the examples: the inode at address 1, cursor at 0. -/
def demo_dir : dir := { inode := 1, pos := 0 }

/-- The example state after `dir_add` of `"a"` for sector 10 to the empty directory. -/
def demo_fs_a : FS := (dir_add demo_env (demo_fs 0 0) demo_dir [97] 10 (fun _ => 0)).1

/-- The example state after a further `dir_add` of `"b"` for sector 11. -/
def demo_fs_ab : FS := (dir_add demo_env demo_fs_a demo_dir [98] 11 (fun _ => 0)).1

/-- The example state after a further `dir_remove` of `"a"`. -/
def demo_fs_b : FS := (dir_remove demo_env demo_fs_ab demo_dir [97]).1

/-- An empty file system in which cluster 1 is taken, for the sector of a directory inode. -/
def demo_fs0 : FS :=
  { disk := fun _ _ => 0,
    fat := fun c => if c = 1 then 268435455 else 0,
    heap := fun _ => demo_inode 0 0,
    open_inodes := [],
    mallocs := 0 }

/-- The state after `dir_create (101, 4)`, a directory with a capacity of 4 entries. -/
def demo_created : FS := ((dir_create demo_env demo_fs0 101 4).getD (demo_fs0, false)).1

/-- The state after `inode_open (101)` and the address of the handle. -/
def demo_opened : FS × Nat := inode_open demo_env demo_created 101

/-- The state after `dir_open` of that handle. -/
def demo_fs4 : FS := (dir_open demo_env demo_opened.1 demo_opened.2).1

/-- The directory that `dir_open` returns. -/
def demo_dir4 : dir := { inode := demo_opened.2, pos := 0 }

/-- The state after `dir_add` of `"a"` for sector 10 to the directory of capacity 4. -/
def demo_fs4_a : FS := (dir_add demo_env demo_fs4 demo_dir4 [97] 10 (fun _ => 0)).1

/-- The state after a further `dir_add` of `"b"` for sector 11. -/
def demo_fs4_ab : FS := (dir_add demo_env demo_fs4_a demo_dir4 [98] 11 (fun _ => 0)).1

/-- The state after a further `dir_remove` of `"a"`. -/
def demo_fs4_b : FS := (dir_remove demo_env demo_fs4_ab demo_dir4 [97]).1

/-- The same environment with an allocator that has no free cluster left. -/
def demo_env_full : Env := { demo_env with pick := fun _ => 0 }

/-- The empty file system on a device whose every byte is 7. -/
def demo_fs_dirty : FS := { demo_fs0 with disk := fun _ _ => 7 }

/-- The example state with one open inode, marked as removed by `inode_remove`. -/
def demo_fs_removed : FS := inode_remove (demo_fs 0 0) 1

/-- The example state after a write of 3 bytes at offset 600 to its open inode, which grows
the length from 0 to 603. -/
def demo_fs_grown : FS := (inode_write_at demo_env (demo_fs 0 0) 1 (fun i => i + 1) 3 600).1

/-- The calls of the example in which the opener that denied writes twice allows them once
before it closes. -/
def demo_ops_allowed : List inode_op :=
  [.open_at 5, .reopen 1, .deny 1, .deny 1, .allow 1, .close 1]

/-- The calls of the example in which a handle opened twice and denied twice is closed
once. -/
def demo_ops_denied : List inode_op := [.open_at 5, .reopen 1, .deny 1, .deny 1, .close 1]

/-- The state after the calls `demo_ops_allowed` from the empty registry. -/
def demo_fs_allowed : FS := (inode_run demo_env demo_fs0 demo_ops_allowed).getD demo_fs0

/-- The state after the calls `demo_ops_denied` from the empty registry. -/
def demo_fs_denied : FS := (inode_run demo_env demo_fs0 demo_ops_denied).getD demo_fs0

/-- The state after `dir_create (101, 0)`, `inode_open (101)` and `dir_open`: a directory
created with capacity 0. -/
def demo_fs_cap0 : FS :=
  (dir_open demo_env
    (inode_open demo_env ((dir_create demo_env demo_fs0 101 0).getD (demo_fs0, false)).1
      101).1
    (inode_open demo_env ((dir_create demo_env demo_fs0 101 0).getD (demo_fs0, false)).1
      101).2).1

/-- The state after `dir_create (101, 128)`, `inode_open (101)` and `dir_open`: a directory
whose 128 records fill the five sectors of its chain. -/
def demo_fs_cap128 : FS :=
  (dir_open demo_env
    (inode_open demo_env ((dir_create demo_env demo_fs0 101 128).getD (demo_fs0, false)).1
      101).1
    (inode_open demo_env ((dir_create demo_env demo_fs0 101 128).getD (demo_fs0, false)).1
      101).2).1

/-- The state after `inode_create (50, 1024, 0)` on the device whose every byte is 7. -/
def demo_fs_made : FS :=
  ((inode_create demo_env demo_fs_dirty 50 1024 0).getD (demo_fs_dirty, false)).1

/-! ## Theorems: the chain walk -/

theorem nth_cluster_succ (f : Nat → Nat) (c0 : Nat) (i : Nat) :
    nth_cluster f c0 (i + 1) = f (nth_cluster f c0 i) := by
  unfold nth_cluster
  exact Function.iterate_succ_apply' f i c0

theorem byte_to_sector_loop_eq_walk (E : Env) :
    ∀ (fuel : Nat) (f : Nat → Nat) (c : Nat) (pos : Int), fuel = (pos / 512).toNat →
      byte_to_sector_loop E fuel f c pos = walk E fuel f c := by
  intro fuel
  induction fuel with
  | zero => intro f c pos _; rfl
  | succ n ih =>
    intro f c pos h
    have hp : pos ≥ 512 := by omega
    rw [byte_to_sector_loop, walk]
    simp only [DISK_SECTOR_SIZE, hp, if_true]
    exact ih _ _ _ (by omega)

theorem walk_stuck (E : Env) (f : Nat → Nat) (h : E.pick f = 0) :
    ∀ (n c : Nat), (walk E n f c).1 = f := by
  intro n
  induction n with
  | zero => intro c; rfl
  | succ n ih =>
    intro c
    rw [walk]
    have : (if fat_get f c = E.EOChain then (fat_create_chain E f c).1 else f) = f := by
      split_ifs
      · simp [fat_create_chain, h]
      · rfl
    simp only [this]
    exact ih _

theorem chain_wf_end (E : Env) (f : Nat → Nat) (c0 L i : Nat) (h : chain_wf E f c0 L)
    (hi : i < L) : f (nth_cluster f c0 i) = E.EOChain ↔ i + 1 = L := by
  rw [← nth_cluster_succ f c0 i]
  constructor
  · intro he
    by_contra hne
    exact (h.2.1 (i + 1) (by omega)).2 he
  · intro he
    rw [he]; exact h.2.2

theorem chain_wf_next_ne_zero (E : Env) (hE : E.EOChain ≠ 0) (f : Nat → Nat) (c0 L i : Nat)
    (h : chain_wf E f c0 L) (hi : i < L) : f (nth_cluster f c0 i) ≠ 0 := by
  rw [← nth_cluster_succ f c0 i]
  by_cases he : i + 1 = L
  · rw [he, h.2.2]; exact hE
  · exact (h.2.1 (i + 1) (by omega)).1

/-- Result of one successful extension at the end of a well-formed chain. -/
theorem extend_wf (E : Env) (hp : pick_sound E) (f : Nat → Nat) (c0 L : Nat)
    (h : chain_wf E f c0 L) (hm : E.pick f ≠ 0) :
    let f1 := (fat_create_chain E f (nth_cluster f c0 (L - 1))).1
    chain_wf E f1 c0 (L + 1) ∧ (∀ j, j < L → nth_cluster f1 c0 j = nth_cluster f c0 j) ∧
      nth_cluster f1 c0 L = E.pick f := by
  intro f1
  have hL := h.1
  obtain ⟨hfree, hne⟩ := hp.2 f hm
  have hc := h.2.1 (L - 1) (by omega)
  have hcend : f (nth_cluster f c0 (L - 1)) = E.EOChain :=
    (chain_wf_end E f c0 L (L - 1) h (by omega)).2 (by omega)
  have hf1 : ∀ x, f1 x = if x = nth_cluster f c0 (L - 1) then E.pick f
      else if x = E.pick f then E.EOChain else f x := by
    intro x
    simp only [f1, fat_create_chain, hm, if_false, hc.1, ne_eq, not_false_eq_true, true_and]
  have hmc : E.pick f ≠ nth_cluster f c0 (L - 1) := by
    intro e
    rw [e, hcend] at hfree
    exact hp.1 hfree
  have hnotm : ∀ j, j < L → nth_cluster f c0 j ≠ E.pick f := by
    intro j hj e
    have := chain_wf_next_ne_zero E hp.1 f c0 L j h hj
    rw [e] at this
    exact this hfree
  have hnotc : ∀ j, j + 1 < L → nth_cluster f c0 j ≠ nth_cluster f c0 (L - 1) := by
    intro j hj e
    have h1 := (chain_wf_end E f c0 L j h (by omega)).1 (by rw [e]; exact hcend)
    omega
  have hpre : ∀ j, j < L → nth_cluster f1 c0 j = nth_cluster f c0 j := by
    intro j
    induction j with
    | zero => intro _; rfl
    | succ j ih =>
      intro hj
      rw [nth_cluster_succ, nth_cluster_succ, ih (by omega), hf1]
      rw [if_neg (hnotc j hj), if_neg (hnotm j (by omega))]
  have hL1 : nth_cluster f1 c0 L = E.pick f := by
    have : L = (L - 1) + 1 := by omega
    rw [this, nth_cluster_succ, hpre (L - 1) (by omega), hf1, if_pos rfl]
  refine ⟨⟨by omega, ?_, ?_⟩, hpre, hL1⟩
  · intro i hi
    by_cases hiL : i < L
    · rw [hpre i hiL]; exact h.2.1 i hiL
    · have : i = L := by omega
      rw [this, hL1]
      exact ⟨hm, hne⟩
  · rw [nth_cluster_succ, hL1, hf1, if_neg hmc, if_pos rfl]


theorem chain_wf_unique (E : Env) (f : Nat → Nat) (c0 L L' : Nat)
    (h : chain_wf E f c0 L) (h' : chain_wf E f c0 L') : L = L' := by
  rcases Nat.lt_trichotomy L L' with hlt | heq | hgt
  · exact absurd h.2.2 (h'.2.1 L hlt).2
  · exact heq
  · exact absurd h'.2.2 (h.2.1 L' hgt).2

theorem walk_spec (E : Env) (hp : pick_sound E) (c0 : Nat) :
    ∀ (n : Nat) (f : Nat → Nat) (L i : Nat), chain_wf E f c0 L → i < L →
      ∃ L1, chain_wf E (walk E n f (nth_cluster f c0 i)).1 c0 L1 ∧ L ≤ L1 ∧
        (∀ j, j < L → nth_cluster (walk E n f (nth_cluster f c0 i)).1 c0 j = nth_cluster f c0 j) ∧
        (i + n < L → (walk E n f (nth_cluster f c0 i)).1 = f) ∧
        ((i + n < L1 ∧ (walk E n f (nth_cluster f c0 i)).2
            = nth_cluster (walk E n f (nth_cluster f c0 i)).1 c0 (i + n)) ∨
         (L1 ≤ i + n ∧ E.pick (walk E n f (nth_cluster f c0 i)).1 = 0)) := by
  intro n
  induction n with
  | zero =>
    intro f L i h hi
    exact ⟨L, h, le_refl _, fun _ _ => rfl, fun _ => rfl, Or.inl ⟨by omega, rfl⟩⟩
  | succ n ih =>
    intro f L i h hi
    rw [walk]
    by_cases hend : fat_get f (nth_cluster f c0 i) = E.EOChain
    · have hiL : i + 1 = L := (chain_wf_end E f c0 L i h hi).1 hend
      have hi' : i = L - 1 := by omega
      simp only [hend, if_true]
      by_cases hm : E.pick f = 0
      · have hf1 : (fat_create_chain E f (nth_cluster f c0 i)).1 = f := by
          simp [fat_create_chain, hm]
        rw [hf1]
        have hs := walk_stuck E f hm n (fat_get f (nth_cluster f c0 i))
        rw [hs]
        exact ⟨L, h, le_refl _, fun _ _ => rfl, fun _ => rfl, Or.inr ⟨by omega, hm⟩⟩
      · have hx := extend_wf E hp f c0 L h hm
        simp only [] at hx
        rw [← hi'] at hx
        obtain ⟨hwf1, hpre1, hL1⟩ := hx
        have hnext : fat_get (fat_create_chain E f (nth_cluster f c0 i)).1 (nth_cluster f c0 i)
            = nth_cluster (fat_create_chain E f (nth_cluster f c0 i)).1 c0 (i + 1) := by
          rw [nth_cluster_succ, hpre1 i hi]; rfl
        rw [hnext]
        obtain ⟨L1, a, b, c, d, e⟩ := ih (fat_create_chain E f (nth_cluster f c0 i)).1 (L + 1) (i + 1)
          hwf1 (by omega)
        refine ⟨L1, a, by omega, ?_, ?_, ?_⟩
        · intro j hj
          rw [c j (by omega), hpre1 j hj]
        · intro hc; omega
        · rw [show i + (n + 1) = i + 1 + n by omega]
          exact e
    · simp only [hend, if_false]
      have hiL : i + 1 < L := by
        by_contra hc
        exact hend ((chain_wf_end E f c0 L i h hi).2 (by omega))
      have hnext : fat_get f (nth_cluster f c0 i) = nth_cluster f c0 (i + 1) := by
        rw [nth_cluster_succ]; rfl
      rw [hnext]
      obtain ⟨L1, a, b, c, d, e⟩ := ih f L (i + 1) h hiL
      refine ⟨L1, a, b, c, ?_, ?_⟩
      · intro hc; exact d (by omega)
      · rw [show i + (n + 1) = i + 1 + n by omega]
        exact e


/-! ## Theorems: the read and write loops -/

theorem chunk_of_eq (len size offset : Int) (ho : 0 ≤ offset) :
    chunk_of len size offset = min size (min (len - offset) (512 - offset % 512)) := by
  unfold chunk_of
  simp only [DISK_SECTOR_SIZE, Int.tmod_eq_emod ho (by norm_num : (0:Int) ≤ 512)]
  split_ifs <;> omega

theorem inode_read_loop_succ (E : Env) (ip : Nat) (fuel : Nat) (s : FS) (buffer : Nat → Nat)
    (size offset br : Int) (bounce : Nat) :
    inode_read_loop E ip (fuel + 1) s buffer size offset br bounce =
    if size > 0 then
      if chunk_of (inode_length s ip) size offset ≤ 0 then
        ((byte_to_sector E s ip offset).1, buffer, br)
      else if offset.tmod 512 = 0 ∧ chunk_of (inode_length s ip) size offset = 512 then
        inode_read_loop E ip fuel (byte_to_sector E s ip offset).1
          (disk_read s.disk (byte_to_sector E s ip offset).2 buffer br.toNat)
          (size - chunk_of (inode_length s ip) size offset)
          (offset + chunk_of (inode_length s ip) size offset)
          (br + chunk_of (inode_length s ip) size offset) bounce
      else
        if (stage E (byte_to_sector E s ip offset).1 bounce).2 = 0 then
          ((stage E (byte_to_sector E s ip offset).1 bounce).1, buffer, br)
        else
          inode_read_loop E ip fuel (stage E (byte_to_sector E s ip offset).1 bounce).1
            (memcpy buffer br.toNat
              (disk_read s.disk (byte_to_sector E s ip offset).2 (fun _ => 0) 0)
              (offset.tmod 512).toNat (chunk_of (inode_length s ip) size offset).toNat)
            (size - chunk_of (inode_length s ip) size offset)
            (offset + chunk_of (inode_length s ip) size offset)
            (br + chunk_of (inode_length s ip) size offset)
            (stage E (byte_to_sector E s ip offset).1 bounce).2
    else (s, buffer, br) := by
  rw [inode_read_loop]
  by_cases hb : bounce = 0 <;> simp [hb, stage, chunk_of, byte_to_sector, inode_length, malloc]

theorem stage_frame (E : Env) (s : FS) (bounce : Nat) :
    (stage E s bounce).1.heap = s.heap ∧ (stage E s bounce).1.disk = s.disk ∧
    (stage E s bounce).1.fat = s.fat ∧
    (stage E s bounce).1.open_inodes = s.open_inodes ∧
    s.mallocs ≤ (stage E s bounce).1.mallocs := by
  unfold stage
  by_cases hb : bounce = 0
  · rw [if_pos hb]; exact ⟨rfl, rfl, rfl, rfl, Nat.le_succ _⟩
  · rw [if_neg hb]; exact ⟨rfl, rfl, rfl, rfl, le_refl _⟩

theorem stage_ok (E : Env) (s : FS) (bounce : Nat)
    (h : bounce ≠ 0 ∨ E.malloc_ok s.mallocs = true) : (stage E s bounce).2 ≠ 0 := by
  unfold stage
  by_cases hb : bounce = 0
  · have : E.malloc_ok s.mallocs = true := by
      rcases h with h | h
      · exact absurd hb h
      · exact h
    simp [hb, malloc, this]
  · simp [hb]

theorem nth_cluster_zero (f : Nat → Nat) (c0 : Nat) : nth_cluster f c0 0 = c0 := rfl

theorem walk_spec0 (E : Env) (hp : pick_sound E) (c0 : Nat) (n : Nat) (f : Nat → Nat) (L : Nat)
    (h : chain_wf E f c0 L) :
    ∃ L1, chain_wf E (walk E n f c0).1 c0 L1 ∧ L ≤ L1 ∧
      (∀ j, j < L → nth_cluster (walk E n f c0).1 c0 j = nth_cluster f c0 j) ∧
      (n < L → (walk E n f c0).1 = f) ∧
      ((n < L1 ∧ (walk E n f c0).2 = nth_cluster (walk E n f c0).1 c0 n) ∨
       (L1 ≤ n ∧ E.pick (walk E n f c0).1 = 0)) := by
  have := walk_spec E hp c0 n f L 0 h h.1
  simp only [nth_cluster_zero, zero_add] at this
  exact this

theorem byte_to_sector_eq (E : Env) (s : FS) (ip : Nat) (pos : Int) :
    byte_to_sector E s ip pos =
      ({ s with fat := (walk E (pos / 512).toNat s.fat (chain_start E s ip)).1 },
       E.cluster_to_sector (walk E (pos / 512).toNat s.fat (chain_start E s ip)).2) := by
  unfold byte_to_sector chain_start
  simp only [DISK_SECTOR_SIZE]
  rw [byte_to_sector_loop_eq_walk E _ _ _ pos rfl]

theorem byte_to_sector_covered (E : Env) (hp : pick_sound E) (s : FS) (ip : Nat) (pos : Int)
    (L : Nat) (h : chain_wf E s.fat (chain_start E s ip) L) (h0 : 0 ≤ pos)
    (hc : pos < 512 * L) :
    byte_to_sector E s ip pos
      = (s, sector_at E s.fat (chain_start E s ip) (pos / 512).toNat) := by
  rw [byte_to_sector_eq]
  obtain ⟨L1, a, b, c, d, e⟩ := walk_spec0 E hp (chain_start E s ip) (pos / 512).toNat s.fat L h
  have hlt : (pos / 512).toNat < L := by omega
  have hfat := d hlt
  have hL1 : L1 = L := chain_wf_unique E _ _ _ _ (by rw [hfat] at a; exact a) h
  rcases e with ⟨_, e2⟩ | ⟨e1, _⟩
  · rw [e2, hfat]
    rfl
  · omega

theorem byte_to_sector_ext (E : Env) (hp : pick_sound E) (s : FS) (ip : Nat) (pos : Int)
    (L : Nat) (h : chain_wf E s.fat (chain_start E s ip) L) :
    ∃ L1, chain_wf E (byte_to_sector E s ip pos).1.fat (chain_start E s ip) L1 ∧ L ≤ L1 ∧
      (∀ j, j < L → nth_cluster (byte_to_sector E s ip pos).1.fat (chain_start E s ip) j
        = nth_cluster s.fat (chain_start E s ip) j) ∧
      (((pos / 512).toNat < L1 ∧ (byte_to_sector E s ip pos).2
          = sector_at E (byte_to_sector E s ip pos).1.fat (chain_start E s ip) (pos / 512).toNat) ∨
        (L1 ≤ (pos / 512).toNat ∧ E.pick (byte_to_sector E s ip pos).1.fat = 0)) := by
  rw [byte_to_sector_eq]
  obtain ⟨L1, a, b, c, d, e⟩ := walk_spec0 E hp (chain_start E s ip) (pos / 512).toNat s.fat L h
  refine ⟨L1, a, b, c, ?_⟩
  rcases e with ⟨e1, e2⟩ | ⟨e1, e2⟩
  · left
    exact ⟨e1, by simp only [sector_at]; rw [e2]⟩
  · right
    exact ⟨e1, e2⟩

theorem inode_read_loop_frame (E : Env) (ip : Nat) :
    ∀ (fuel : Nat) (s : FS) (buffer : Nat → Nat) (size offset br : Int) (bounce : Nat),
      (inode_read_loop E ip fuel s buffer size offset br bounce).1.heap = s.heap ∧
      (inode_read_loop E ip fuel s buffer size offset br bounce).1.disk = s.disk ∧
      (inode_read_loop E ip fuel s buffer size offset br bounce).1.open_inodes
        = s.open_inodes ∧
      s.mallocs ≤ (inode_read_loop E ip fuel s buffer size offset br bounce).1.mallocs := by
  intro fuel
  induction fuel with
  | zero => intro s buffer size offset br bounce; exact ⟨rfl, rfl, rfl, le_refl _⟩
  | succ fuel ih =>
    intro s buffer size offset br bounce
    rw [inode_read_loop_succ]
    obtain ⟨sa, sb, _, sd, se⟩ := stage_frame E (byte_to_sector E s ip offset).1 bounce
    by_cases h1 : size > 0
    · rw [if_pos h1]
      by_cases h2 : chunk_of (inode_length s ip) size offset ≤ 0
      · rw [if_pos h2]; exact ⟨rfl, rfl, rfl, le_refl _⟩
      · rw [if_neg h2]
        by_cases h3 : offset.tmod 512 = 0 ∧ chunk_of (inode_length s ip) size offset = 512
        · rw [if_pos h3]; exact ih _ _ _ _ _ _
        · rw [if_neg h3]
          by_cases h4 : (stage E (byte_to_sector E s ip offset).1 bounce).2 = 0
          · rw [if_pos h4]; exact ⟨sa, sb, sd, se⟩
          · rw [if_neg h4]
            obtain ⟨a, b, c, d⟩ := ih (stage E (byte_to_sector E s ip offset).1 bounce).1
              (memcpy buffer br.toNat
                (disk_read s.disk (byte_to_sector E s ip offset).2 (fun _ => 0) 0)
                (offset.tmod 512).toNat (chunk_of (inode_length s ip) size offset).toNat)
              (size - chunk_of (inode_length s ip) size offset)
              (offset + chunk_of (inode_length s ip) size offset)
              (br + chunk_of (inode_length s ip) size offset)
              (stage E (byte_to_sector E s ip offset).1 bounce).2
            exact ⟨a.trans sa, b.trans sb, c.trans sd, le_trans se d⟩
    · rw [if_neg h1]; exact ⟨rfl, rfl, rfl, le_refl _⟩

theorem inode_read_at_frame (E : Env) (s : FS) (ip : Nat) (buffer : Nat → Nat)
    (size offset : Int) :
    (inode_read_at E s ip buffer size offset).1.heap = s.heap ∧
    (inode_read_at E s ip buffer size offset).1.disk = s.disk ∧
    (inode_read_at E s ip buffer size offset).1.open_inodes = s.open_inodes ∧
    s.mallocs ≤ (inode_read_at E s ip buffer size offset).1.mallocs :=
  inode_read_loop_frame E ip _ s buffer size offset 0 0

theorem inode_read_loop_count (E : Env) (ip : Nat) :
    ∀ (fuel : Nat) (s : FS) (buffer : Nat → Nat) (size offset br : Int) (bounce : Nat),
      size.toNat ≤ fuel → 0 ≤ size → 0 ≤ offset →
      (bounce ≠ 0 ∨ E.malloc_ok s.mallocs = true) →
      (inode_read_loop E ip fuel s buffer size offset br bounce).2.2
        = br + min size (max 0 (inode_length s ip - offset)) := by
  intro fuel
  induction fuel with
  | zero =>
    intro s buffer size offset br bounce hf hs ho hb
    have : size = 0 := by omega
    subst this
    simp [inode_read_loop]
  | succ fuel ih =>
    intro s buffer size offset br bounce hf hs ho hb
    rw [inode_read_loop_succ]
    have hch := chunk_of_eq (inode_length s ip) size offset ho
    generalize chunk_of (inode_length s ip) size offset = c at hch ⊢
    have hm := stage_ok E (byte_to_sector E s ip offset).1 bounce hb
    obtain ⟨sa, _, _, _, _⟩ := stage_frame E (byte_to_sector E s ip offset).1 bounce
    by_cases h1 : size > 0
    · rw [if_pos h1]
      by_cases h2 : c ≤ 0
      · rw [if_pos h2]
        show br = _
        omega
      · rw [if_neg h2]
        by_cases h3 : offset.tmod 512 = 0 ∧ c = 512
        · rw [if_pos h3]
          rw [ih (byte_to_sector E s ip offset).1 _ (size - c) (offset + c) (br + c) bounce
            (by omega) (by omega) (by omega) hb]
          have : inode_length (byte_to_sector E s ip offset).1 ip = inode_length s ip := rfl
          rw [this]
          omega
        · rw [if_neg h3, if_neg hm]
          rw [ih (stage E (byte_to_sector E s ip offset).1 bounce).1 _ (size - c) (offset + c)
            (br + c) _ (by omega) (by omega) (by omega) (Or.inl hm)]
          have : inode_length (stage E (byte_to_sector E s ip offset).1 bounce).1 ip
              = inode_length s ip := by
            unfold inode_length; rw [sa]; rfl
          rw [this]
          omega
    · rw [if_neg h1]
      show br = _
      omega


theorem stage_chain_start (E : Env) (s : FS) (bounce : Nat) (ip : Nat) :
    chain_start E (stage E s bounce).1 ip = chain_start E s ip := by
  unfold chain_start; rw [(stage_frame E s bounce).1]

theorem stage_length (E : Env) (s : FS) (bounce : Nat) (ip : Nat) :
    inode_length (stage E s bounce).1 ip = inode_length s ip := by
  unfold inode_length; rw [(stage_frame E s bounce).1]

theorem read_chunk_full (disk : Nat → Nat → Nat) (sec : Nat) (buffer : Nat → Nat)
    (b so i : Nat) (h : so = 0) :
    disk_read disk sec buffer b i
      = if b ≤ i ∧ i < b + 512 then disk sec (so + (i - b)) else buffer i := by
  subst h
  simp [disk_read, memcpy]

theorem read_chunk_part (disk : Nat → Nat → Nat) (sec : Nat) (buffer : Nat → Nat)
    (b so c i : Nat) (h : so + c ≤ 512) :
    memcpy buffer b (disk_read disk sec (fun _ => 0) 0) so c i
      = if b ≤ i ∧ i < b + c then disk sec (so + (i - b)) else buffer i := by
  unfold memcpy disk_read memcpy
  by_cases hi : b ≤ i ∧ i < b + c
  · rw [if_pos hi, if_pos hi, if_pos (by omega)]
    simp
  · rw [if_neg hi, if_neg hi]

theorem chunk_facts (len size offset c : Int) (hc : c = min size (min (len - offset)
    (512 - offset % 512))) (hpos : ¬ c ≤ 0) :
    c ≤ size ∧ offset + c ≤ len ∧ c ≤ 512 - offset % 512 ∧
    min (size - c) (max 0 (len - (offset + c))) = min size (max 0 (len - offset)) - c ∧
    c ≤ min size (max 0 (len - offset)) ∧
    (¬ (offset % 512 = 0 ∧ c = 512) → c < 512) ∧
    (c < size → c < len - offset → (offset + c) % 512 = 0) := by
  omega

theorem chunk_nonpos (len size offset c : Int) (hc : c = min size (min (len - offset)
    (512 - offset % 512))) (hs : 0 < size) (hpos : c ≤ 0) :
    min size (max 0 (len - offset)) = 0 := by
  omega

theorem pos_in_chunk (offset k c : Int) (ho : 0 ≤ offset) (hk : 0 ≤ k) (hkc : k < c)
    (hc : c ≤ 512 - offset % 512) :
    ((offset + k) / 512).toNat = (offset / 512).toNat ∧
    ((offset + k) % 512).toNat = (offset % 512).toNat + k.toNat := by
  omega

theorem read_combine (E : Env) (disk : Nat → Nat → Nat) (fat : Nat → Nat) (c0 : Nat)
    (buffer : Nat → Nat) (offset br n c : Int) (i w : Nat)
    (ho : 0 ≤ offset) (hbr : 0 ≤ br) (hcn : c ≤ n) (hc : c ≤ 512 - offset % 512)
    (hc0 : 0 < c) (hw : (w : Int) = c) :
    (if br + c ≤ i ∧ (i : Int) < br + c + (n - c)
      then stream_byte E disk fat c0 (offset + c + (i - (br + c)))
      else if br.toNat ≤ i ∧ i < br.toNat + w
        then disk (sector_at E fat c0 (offset / 512).toNat) ((offset % 512).toNat + (i - br.toNat))
        else buffer i)
    = if br ≤ i ∧ (i : Int) < br + n then stream_byte E disk fat c0 (offset + (i - br))
      else buffer i := by
  by_cases hi1 : br + c ≤ i ∧ (i : Int) < br + c + (n - c)
  · have hi : br ≤ i ∧ (i : Int) < br + n := by omega
    rw [if_pos hi1, if_pos hi]
    have e0 : offset + c + ((i : Int) - (br + c)) = offset + ((i : Int) - br) := by omega
    rw [e0]
  · rw [if_neg hi1]
    by_cases hi2 : br.toNat ≤ i ∧ i < br.toNat + w
    · have hi : br ≤ i ∧ (i : Int) < br + n := by omega
      rw [if_pos hi2, if_pos hi]
      unfold stream_byte
      have hk0 : 0 ≤ (i : Int) - br := by omega
      have hkc : (i : Int) - br < c := by omega
      obtain ⟨e1, e2⟩ := pos_in_chunk offset ((i : Int) - br) c ho hk0 hkc hc
      rw [e1, e2]
      have : ((i : Int) - br).toNat = i - br.toNat := by omega
      rw [this]
    · have hi : ¬ (br ≤ i ∧ (i : Int) < br + n) := by omega
      rw [if_neg hi2, if_neg hi]

theorem stage_eq (E : Env) (s : FS) (bounce : Nat) :
    ∃ m p, stage E s bounce = ({ s with mallocs := m }, p) ∧ s.mallocs ≤ m ∧
      ((bounce ≠ 0 ∨ E.malloc_ok s.mallocs = true) → p ≠ 0) := by
  unfold stage
  by_cases hb : bounce = 0
  · rw [if_pos hb]
    refine ⟨s.mallocs + 1, _, rfl, Nat.le_succ _, ?_⟩
    intro h
    have : E.malloc_ok s.mallocs = true := by
      rcases h with h | h
      · exact absurd hb h
      · exact h
    simp [this]
  · rw [if_neg hb]
    exact ⟨s.mallocs, bounce, rfl, le_refl _, fun _ => hb⟩

theorem read_post_zero (E : Env) (c0 : Nat) (buffer : Nat → Nat) (s : FS)
    (size offset br : Int) (L : Nat) (hwf : chain_wf E s.fat c0 L) :
    read_post E c0 buffer s.disk s.fat size offset br 0 L (s, buffer, br) := by
  refine ⟨?_, ⟨L, hwf, le_refl _, fun _ _ => rfl⟩, fun _ => rfl⟩
  intro i
  rw [if_neg (by omega)]

/-- One iteration of the read loop followed by the rest of the run. -/
theorem read_post_step (E : Env) (c0 : Nat) (buffer b1 : Nat → Nat) (d0 : Nat → Nat → Nat)
    (f0 : Nat → Nat) (size offset br n c : Int) (w : Nat) (L : Nat)
    (r : FS × (Nat → Nat) × Int)
    (ho : 0 ≤ offset) (hbr : 0 ≤ br) (hcn : c ≤ n) (hc : c ≤ 512 - offset % 512)
    (hc0 : 0 < c) (hw : (w : Int) = c)
    (hb1 : ∀ i, b1 i = if br.toNat ≤ i ∧ i < br.toNat + w
      then d0 (sector_at E f0 c0 (offset / 512).toNat) ((offset % 512).toNat + (i - br.toNat))
      else buffer i)
    (IH : read_post E c0 b1 d0 f0 (size - c) (offset + c) (br + c) (n - c) L r) :
    read_post E c0 buffer d0 f0 size offset br n L r := by
  obtain ⟨ih1, ih2, ih3⟩ := IH
  refine ⟨?_, ih2, fun hle => ih3 (by omega)⟩
  intro i
  rw [ih1 i, hb1 i]
  exact read_combine E d0 f0 c0 buffer offset br n c i w ho hbr hcn hc hc0 hw

theorem inode_read_loop_spec (E : Env) (hp : pick_sound E) (ip : Nat) (c0 : Nat) (L : Nat) :
    ∀ (fuel : Nat) (s : FS) (buffer : Nat → Nat) (size offset br n : Int) (bounce : Nat),
      chain_start E s ip = c0 →
      size.toNat ≤ fuel → 0 ≤ size → 0 ≤ offset → 0 ≤ br →
      (bounce ≠ 0 ∨ E.malloc_ok s.mallocs = true) →
      chain_wf E s.fat c0 L →
      n = min size (max 0 (inode_length s ip - offset)) →
      offset + n ≤ 512 * L →
      read_post E c0 buffer s.disk s.fat size offset br n L
        (inode_read_loop E ip fuel s buffer size offset br bounce) := by
  intro fuel
  induction fuel with
  | zero =>
    intro s buffer size offset br n bounce hc0 hf hs ho hbr hb hwf hn hcov
    have h0 : n = 0 := by omega
    subst h0
    exact read_post_zero E c0 buffer s size offset br L hwf
  | succ fuel ih =>
    intro s buffer size offset br n bounce hc0 hf hs ho hbr hb hwf hn hcov
    rw [inode_read_loop_succ]
    have hch := chunk_of_eq (inode_length s ip) size offset ho
    have htm : offset.tmod 512 = offset % 512 := Int.tmod_eq_emod ho (by norm_num)
    rw [htm]
    generalize chunk_of (inode_length s ip) size offset = c at hch ⊢
    by_cases h1 : size > 0
    · rw [if_pos h1]
      by_cases h2 : c ≤ 0
      · rw [if_pos h2]
        have h0 : n = 0 := by rw [hn]; exact chunk_nonpos _ _ _ _ hch h1 h2
        subst h0
        refine ⟨?_, ?_, ?_⟩
        · intro i
          rw [if_neg (by omega)]
        · obtain ⟨L1, a, b, c, _⟩ := byte_to_sector_ext E hp s ip offset L (by rw [hc0]; exact hwf)
          rw [hc0] at a c
          exact ⟨L1, a, b, c⟩
        · intro hle; omega
      · rw [if_neg h2]
        obtain ⟨f1, f2, f3, f4, f5, f6, _⟩ := chunk_facts _ _ _ _ hch h2
        rw [← hn] at f4 f5
        clear hch hn
        have hcovd : offset < 512 * L := by omega
        have g1 : (size - c).toNat ≤ fuel := by omega
        have g2 : 0 ≤ size - c := by omega
        have g3 : 0 ≤ offset + c := by omega
        have g4 : 0 ≤ br + c := by omega
        have g5 : offset + c + (n - c) ≤ 512 * L := by omega
        have g8 : 0 < c := by omega
        have hbs := byte_to_sector_covered E hp s ip offset L (by rw [hc0]; exact hwf) ho hcovd
        rw [hbs, hc0]
        by_cases h3 : offset % 512 = 0 ∧ c = 512
        · rw [if_pos h3]
          have hso : (offset % 512).toNat = 0 := by omega
          exact read_post_step E c0 buffer _ s.disk s.fat size offset br n c 512 L _
            ho hbr f5 f3 g8 (by omega)
            (fun i => read_chunk_full _ _ _ _ _ i hso)
            (ih s _ (size - c) (offset + c) (br + c) (n - c) bounce hc0 g1 g2 g3 g4 hb hwf
              f4.symm g5)
        · rw [if_neg h3]
          obtain ⟨m, p, hst, hm, hpne⟩ := stage_eq E s bounce
          rw [hst]
          have hpne' := hpne hb
          rw [if_neg hpne']
          have hso : (offset % 512).toNat + c.toNat ≤ 512 := by omega
          exact read_post_step E c0 buffer _ s.disk s.fat size offset br n c c.toNat L _
            ho hbr f5 f3 g8 (by omega)
            (fun i => read_chunk_part _ _ _ _ _ _ i hso)
            (ih { s with mallocs := m } _ (size - c) (offset + c) (br + c) (n - c) p hc0
              g1 g2 g3 g4 (Or.inl hpne') hwf f4.symm g5)
    · rw [if_neg h1]
      have h0 : n = 0 := by omega
      subst h0
      exact read_post_zero E c0 buffer s size offset br L hwf


theorem inode_write_loop_succ (E : Env) (ip : Nat) (buffer : Nat → Nat) (fuel : Nat) (s : FS)
    (size offset bw : Int) (bounce : Nat) :
    inode_write_loop E ip buffer (fuel + 1) s size offset bw bounce =
    if size > 0 then
      if chunk_of (inode_length s ip) size offset ≤ 0 then
        ((byte_to_sector E s ip offset).1, bw)
      else if offset.tmod 512 = 0 ∧ chunk_of (inode_length s ip) size offset = 512 then
        inode_write_loop E ip buffer fuel
          { (byte_to_sector E s ip offset).1 with
            disk := disk_write s.disk (byte_to_sector E s ip offset).2 buffer bw.toNat }
          (size - chunk_of (inode_length s ip) size offset)
          (offset + chunk_of (inode_length s ip) size offset)
          (bw + chunk_of (inode_length s ip) size offset) bounce
      else
        if (stage E (byte_to_sector E s ip offset).1 bounce).2 = 0 then
          ((stage E (byte_to_sector E s ip offset).1 bounce).1, bw)
        else
          inode_write_loop E ip buffer fuel
            { (stage E (byte_to_sector E s ip offset).1 bounce).1 with
              disk := disk_write s.disk (byte_to_sector E s ip offset).2
                (memcpy
                  (if offset.tmod 512 > 0 ∨
                      chunk_of (inode_length s ip) size offset < 512 - offset.tmod 512
                   then disk_read s.disk (byte_to_sector E s ip offset).2 (fun _ => 0) 0
                   else memset (fun _ => 0) 0 512)
                  (offset.tmod 512).toNat buffer bw.toNat
                  (chunk_of (inode_length s ip) size offset).toNat) 0 }
            (size - chunk_of (inode_length s ip) size offset)
            (offset + chunk_of (inode_length s ip) size offset)
            (bw + chunk_of (inode_length s ip) size offset)
            (stage E (byte_to_sector E s ip offset).1 bounce).2
    else (s, bw) := by
  rw [inode_write_loop]
  by_cases hb : bounce = 0 <;> simp [hb, stage, chunk_of, byte_to_sector, inode_length, malloc]

theorem inode_write_loop_frame (E : Env) (ip : Nat) (buffer : Nat → Nat) :
    ∀ (fuel : Nat) (s : FS) (size offset bw : Int) (bounce : Nat),
      (inode_write_loop E ip buffer fuel s size offset bw bounce).1.heap = s.heap ∧
      (inode_write_loop E ip buffer fuel s size offset bw bounce).1.open_inodes
        = s.open_inodes ∧
      s.mallocs ≤ (inode_write_loop E ip buffer fuel s size offset bw bounce).1.mallocs := by
  intro fuel
  induction fuel with
  | zero => intro s size offset bw bounce; exact ⟨rfl, rfl, le_refl _⟩
  | succ fuel ih =>
    intro s size offset bw bounce
    rw [inode_write_loop_succ]
    obtain ⟨sa, _, _, sd, se⟩ := stage_frame E (byte_to_sector E s ip offset).1 bounce
    by_cases h1 : size > 0
    · rw [if_pos h1]
      by_cases h2 : chunk_of (inode_length s ip) size offset ≤ 0
      · rw [if_pos h2]; exact ⟨rfl, rfl, le_refl _⟩
      · rw [if_neg h2]
        by_cases h3 : offset.tmod 512 = 0 ∧ chunk_of (inode_length s ip) size offset = 512
        · rw [if_pos h3]; exact ih _ _ _ _ _
        · rw [if_neg h3]
          by_cases h4 : (stage E (byte_to_sector E s ip offset).1 bounce).2 = 0
          · rw [if_pos h4]; exact ⟨sa, sd, se⟩
          · rw [if_neg h4]
            obtain ⟨a, c, d⟩ := ih
              { (stage E (byte_to_sector E s ip offset).1 bounce).1 with
                disk := disk_write s.disk (byte_to_sector E s ip offset).2
                  (memcpy
                    (if offset.tmod 512 > 0 ∨
                        chunk_of (inode_length s ip) size offset < 512 - offset.tmod 512
                     then disk_read s.disk (byte_to_sector E s ip offset).2 (fun _ => 0) 0
                     else memset (fun _ => 0) 0 512)
                    (offset.tmod 512).toNat buffer bw.toNat
                    (chunk_of (inode_length s ip) size offset).toNat) 0 }
              (size - chunk_of (inode_length s ip) size offset)
              (offset + chunk_of (inode_length s ip) size offset)
              (bw + chunk_of (inode_length s ip) size offset)
              (stage E (byte_to_sector E s ip offset).1 bounce).2
            exact ⟨a.trans sa, c.trans sd, le_trans se d⟩
    · rw [if_neg h1]; exact ⟨rfl, rfl, le_refl _⟩

theorem inode_write_at_heap (E : Env) (s : FS) (ip : Nat) (buffer : Nat → Nat)
    (size offset : Int) (hd : (s.heap ip).deny_write_cnt = 0) :
    (inode_write_at E s ip buffer size offset).1.heap =
      (if offset + size > (s.heap ip).data.length
        then set_length s ip (offset + size) else s).heap := by
  unfold inode_write_at
  rw [if_neg (by simp [hd])]
  exact (inode_write_loop_frame E ip buffer _ _ _ _ _ _).1


theorem write_chunk_full (disk : Nat → Nat → Nat) (sec : Nat) (buffer : Nat → Nat)
    (b so : Nat) (h : so = 0) (t i : Nat) :
    disk_write disk sec buffer b t i
      = if t = sec ∧ so ≤ i ∧ i < so + 512 then buffer (b + (i - so)) else disk t i := by
  subst h
  unfold disk_write
  by_cases ht : t = sec
  · subst ht
    by_cases hi : i < 512
    · simp [hi]
    · simp [hi]
  · simp [ht]

theorem write_chunk_part (disk : Nat → Nat → Nat) (sec : Nat) (buffer : Nat → Nat)
    (b so c : Nat) (h : so + c ≤ 512) (t i : Nat) :
    disk_write disk sec
        (memcpy (disk_read disk sec (fun _ => 0) 0) so buffer b c) 0 t i
      = if t = sec ∧ so ≤ i ∧ i < so + c then buffer (b + (i - so)) else disk t i := by
  unfold disk_write memcpy disk_read memcpy
  by_cases ht : t = sec
  · subst ht
    by_cases hi : i < 512
    · by_cases hi2 : so ≤ i ∧ i < so + c
      · simp [hi, hi2]
      · simp [hi, hi2]
    · have : ¬ (so ≤ i ∧ i < so + c) := by omega
      simp [hi, this]
  · simp [ht]

theorem write_chunk_cond (offset c : Int) (_ho : 0 ≤ offset) (_hc0 : 0 < c)
    (hc : c ≤ 512 - offset % 512) (h3 : ¬ (offset % 512 = 0 ∧ c = 512)) :
    offset % 512 > 0 ∨ c < 512 - offset % 512 := by
  omega

theorem inode_write_loop_stuck (E : Env) (ip : Nat) (buffer : Nat → Nat) :
    ∀ (fuel : Nat) (s : FS) (size offset bw : Int) (bounce : Nat), E.pick s.fat = 0 →
      (inode_write_loop E ip buffer fuel s size offset bw bounce).1.fat = s.fat := by
  intro fuel
  induction fuel with
  | zero => intro s size offset bw bounce _; rfl
  | succ fuel ih =>
    intro s size offset bw bounce hp
    rw [inode_write_loop_succ]
    have hb : (byte_to_sector E s ip offset).1.fat = s.fat := by
      rw [byte_to_sector_eq]
      exact walk_stuck E s.fat hp _ _
    obtain ⟨_, _, sc, _, _⟩ := stage_frame E (byte_to_sector E s ip offset).1 bounce
    by_cases h1 : size > 0
    · rw [if_pos h1]
      by_cases h2 : chunk_of (inode_length s ip) size offset ≤ 0
      · rw [if_pos h2]; exact hb
      · rw [if_neg h2]
        by_cases h3 : offset.tmod 512 = 0 ∧ chunk_of (inode_length s ip) size offset = 512
        · rw [if_pos h3]
          rw [ih _ _ _ _ _ (by show E.pick (byte_to_sector E s ip offset).1.fat = 0; rw [hb]; exact hp)]
          exact hb
        · rw [if_neg h3]
          by_cases h4 : (stage E (byte_to_sector E s ip offset).1 bounce).2 = 0
          · rw [if_pos h4]; exact sc.trans hb
          · rw [if_neg h4]
            rw [ih _ _ _ _ _ (by
              show E.pick (stage E (byte_to_sector E s ip offset).1 bounce).1.fat = 0
              rw [sc, hb]; exact hp)]
            exact sc.trans hb
    · rw [if_neg h1]

/-- Combination of the effect of the first chunk of a write with that of the rest. -/
theorem write_combine (E : Env) (d0 d1 d2 : Nat → Nat → Nat) (fat : Nat → Nat) (c0 : Nat)
    (buffer : Nat → Nat) (offset size c bw : Int) (t1 : Nat) (L : Nat)
    (ho : 0 ≤ offset) (hbw : 0 ≤ bw) (hc0 : 0 < c) (hcs : c ≤ size)
    (hc : c ≤ 512 - offset % 512) (hal : c < size → (offset + c) % 512 = 0)
    (hcov : offset + size ≤ 512 * L)
    (ht1 : t1 = sector_at E fat c0 (offset / 512).toNat)
    (hchunk : ∀ t i, d1 t i =
      if t = t1 ∧ (offset % 512).toNat ≤ i ∧ i < (offset % 512).toNat + c.toNat
      then buffer (bw.toNat + (i - (offset % 512).toNat)) else d0 t i)
    (hrest : (∀ t i, (∀ q : Int, offset + c ≤ q → q < offset + c + (size - c) →
          ¬ (t = sector_at E fat c0 (q / 512).toNat ∧ i = (q % 512).toNat)) →
          d2 t i = d1 t i) ∧
        (chain_inj E fat c0 L → ∀ q : Int, offset + c ≤ q → q < offset + c + (size - c) →
          d2 (sector_at E fat c0 (q / 512).toNat) (q % 512).toNat
            = buffer ((bw + c) + (q - (offset + c))).toNat)) :
    (∀ t i, (∀ q : Int, offset ≤ q → q < offset + size →
          ¬ (t = sector_at E fat c0 (q / 512).toNat ∧ i = (q % 512).toNat)) →
          d2 t i = d0 t i) ∧
    (chain_inj E fat c0 L → ∀ q : Int, offset ≤ q → q < offset + size →
      d2 (sector_at E fat c0 (q / 512).toNat) (q % 512).toNat
        = buffer (bw + (q - offset)).toNat) := by
  obtain ⟨hr1, hr2⟩ := hrest
  constructor
  · intro t i hq
    rw [hr1 t i (fun q h1 h2 => hq q (by omega) (by omega)), hchunk]
    by_cases hcond : t = t1 ∧ (offset % 512).toNat ≤ i ∧ i < (offset % 512).toNat + c.toNat
    · exfalso
      have hk0 : (0:Int) ≤ (i : Int) - offset % 512 := by omega
      have hkc : (i : Int) - offset % 512 < c := by omega
      obtain ⟨e1, e2⟩ := pos_in_chunk offset ((i : Int) - offset % 512) c ho hk0 hkc hc
      refine hq (offset + ((i : Int) - offset % 512)) (by omega) (by omega) ⟨?_, ?_⟩
      · rw [e1, hcond.1, ht1]
      · rw [e2]; omega
    · rw [if_neg hcond]
  · intro hinj q hq1 hq2
    by_cases hq : offset + c ≤ q
    · rw [hr2 hinj q hq (by omega)]
      congr 1
      omega
    · have hk0 : (0:Int) ≤ q - offset := by omega
      have hkc : q - offset < c := by omega
      obtain ⟨e1, e2⟩ := pos_in_chunk offset (q - offset) c ho hk0 hkc hc
      have eq : offset + (q - offset) = q := by omega
      rw [eq] at e1 e2
      rw [hr1, hchunk, e1, ← ht1, if_pos ⟨rfl, by omega, by omega⟩]
      · congr 1
        omega
      · intro q' h1 h2 hcontra
        have hlt1 : (q / 512).toNat < L := by omega
        have hlt2 : (q' / 512).toNat < L := by omega
        have := hinj _ _ hlt1 hlt2 hcontra.1
        have hlt : c < size := by omega
        have := hal hlt
        omega

theorem chunk_pos_write (len size offset c : Int) (hc : c = min size (min (len - offset)
    (512 - offset % 512))) (hs : 0 < size) (hl : offset + size ≤ len) : ¬ c ≤ 0 := by
  omega

/-- The sector chosen for the first chunk is the one that the final chain gives, when the final
chain covers the range. -/
theorem write_sector_final (E : Env) (f1 f2 : Nat → Nat) (c0 : Nat) (t1 : Nat)
    (offset size : Int) (L1 L' : Nat) (hs : 0 < size) (ho : 0 ≤ offset)
    (hwf1 : chain_wf E f1 c0 L1)
    (halt : ((offset / 512).toNat < L1 ∧ t1 = sector_at E f1 c0 (offset / 512).toNat) ∨
      (L1 ≤ (offset / 512).toNat ∧ E.pick f1 = 0))
    (hstuck : E.pick f1 = 0 → f2 = f1)
    (hpre : ∀ j, j < L1 → nth_cluster f2 c0 j = nth_cluster f1 c0 j)
    (hwf' : chain_wf E f2 c0 L') (hcov : offset + size ≤ 512 * L') :
    t1 = sector_at E f2 c0 (offset / 512).toNat := by
  rcases halt with ⟨h1, h2⟩ | ⟨h1, h2⟩
  · rw [h2]
    unfold sector_at
    rw [hpre _ h1]
  · exfalso
    have := hstuck h2
    rw [this] at hwf'
    have := chain_wf_unique E _ _ _ _ hwf' hwf1
    omega

theorem write_post_zero (E : Env) (c0 : Nat) (buffer : Nat → Nat) (s : FS) (offset bw : Int)
    (L : Nat) (hwf : chain_wf E s.fat c0 L) :
    write_post E c0 buffer s.disk s.fat 0 offset bw L (s, bw) := by
  refine ⟨by simp, ⟨L, hwf, le_refl _, fun _ _ => rfl⟩, ?_⟩
  intro L' _ _
  exact ⟨fun _ _ _ => rfl, fun _ q h1 h2 => by omega⟩

/-- One iteration of the write loop followed by the rest of the run. -/
theorem write_post_step (E : Env) (c0 : Nat) (buffer : Nat → Nat) (d0 d1 : Nat → Nat → Nat)
    (f0 w1 : Nat → Nat) (t1 : Nat) (size offset bw c : Int) (L L1 : Nat) (r : FS × Int)
    (h1 : 0 < size) (ho : 0 ≤ offset) (hbw : 0 ≤ bw) (hc0 : 0 < c) (hcs : c ≤ size)
    (hc : c ≤ 512 - offset % 512) (hal : c < size → (offset + c) % 512 = 0)
    (wf1 : chain_wf E w1 c0 L1) (hL1 : L ≤ L1)
    (pre1 : ∀ j, j < L → nth_cluster w1 c0 j = nth_cluster f0 c0 j)
    (alt1 : ((offset / 512).toNat < L1 ∧ t1 = sector_at E w1 c0 (offset / 512).toNat) ∨
      (L1 ≤ (offset / 512).toNat ∧ E.pick w1 = 0))
    (hchunk : ∀ t i, d1 t i =
      if t = t1 ∧ (offset % 512).toNat ≤ i ∧ i < (offset % 512).toNat + c.toNat
      then buffer (bw.toNat + (i - (offset % 512).toNat)) else d0 t i)
    (hstuck : E.pick w1 = 0 → r.1.fat = w1)
    (IH : write_post E c0 buffer d1 w1 (size - c) (offset + c) (bw + c) L1 r) :
    write_post E c0 buffer d0 f0 size offset bw L r := by
  obtain ⟨ih1, ⟨L2, wf2, hL2, pre2⟩, ih3⟩ := IH
  refine ⟨by rw [ih1]; omega, ⟨L2, wf2, by omega, fun j hj => ?_⟩, ?_⟩
  · rw [pre2 j (by omega)]; exact pre1 j hj
  · intro L' hwf' hcov
    have ht1 := write_sector_final E w1 r.1.fat c0 t1 offset size
      L1 L' h1 ho wf1 alt1 hstuck pre2 hwf' hcov
    exact write_combine E d0 d1 r.1.disk r.1.fat c0 buffer offset size c bw
      t1 L' ho hbw hc0 hcs hc hal hcov ht1 hchunk (ih3 L' hwf' (by omega))

theorem inode_write_loop_spec (E : Env) (hp : pick_sound E) (ip : Nat) (buffer : Nat → Nat)
    (c0 : Nat) :
    ∀ (fuel : Nat) (s : FS) (size offset bw : Int) (bounce : Nat) (L : Nat),
      chain_start E s ip = c0 →
      size.toNat ≤ fuel → 0 ≤ size → 0 ≤ offset → 0 ≤ bw →
      offset + size ≤ inode_length s ip →
      (bounce ≠ 0 ∨ E.malloc_ok s.mallocs = true) →
      chain_wf E s.fat c0 L →
      write_post E c0 buffer s.disk s.fat size offset bw L
        (inode_write_loop E ip buffer fuel s size offset bw bounce) := by
  intro fuel
  induction fuel with
  | zero =>
    intro s size offset bw bounce L hc0 hf hs ho hbw hlen hb hwf
    have h0 : size = 0 := by omega
    subst h0
    exact write_post_zero E c0 buffer s offset bw L hwf
  | succ fuel ih =>
    intro s size offset bw bounce L hc0 hf hs ho hbw hlen hb hwf
    rw [inode_write_loop_succ]
    have hch := chunk_of_eq (inode_length s ip) size offset ho
    have htm : offset.tmod 512 = offset % 512 := Int.tmod_eq_emod ho (by norm_num)
    rw [htm]
    generalize chunk_of (inode_length s ip) size offset = c at hch ⊢
    by_cases h1 : size > 0
    · rw [if_pos h1]
      have h2 : ¬ c ≤ 0 := chunk_pos_write _ _ _ _ hch h1 hlen
      rw [if_neg h2]
      obtain ⟨f1, f2, f3, _, _, f6, f7⟩ := chunk_facts _ _ _ _ hch h2
      have f7' : c < size → (offset + c) % 512 = 0 := fun h => f7 h (by omega)
      clear hch f7
      have g1 : (size - c).toNat ≤ fuel := by omega
      have g2 : 0 ≤ size - c := by omega
      have g3 : 0 ≤ offset + c := by omega
      have g4 : 0 ≤ bw + c := by omega
      have g5 : offset + c + (size - c) ≤ inode_length s ip := by omega
      have g8 : 0 < c := by omega
      have hso2 : (offset % 512).toNat + c.toNat ≤ 512 := by omega
      rw [byte_to_sector_eq, hc0]
      obtain ⟨L1, wf1, hL1, pre1, _, alt1⟩ :=
        walk_spec0 E hp c0 (offset / 512).toNat s.fat L hwf
      revert wf1 pre1 alt1
      generalize walk E (offset / 512).toNat s.fat c0 = w
      intro wf1 pre1 alt1
      have alt1' : ((offset / 512).toNat < L1 ∧
          E.cluster_to_sector w.2 = sector_at E w.1 c0 (offset / 512).toNat) ∨
          (L1 ≤ (offset / 512).toNat ∧ E.pick w.1 = 0) := by
        rcases alt1 with ⟨a, b⟩ | ⟨a, b⟩
        · left; exact ⟨a, by unfold sector_at; rw [b]⟩
        · right; exact ⟨a, b⟩
      clear alt1
      by_cases h3 : offset % 512 = 0 ∧ c = 512
      · rw [if_pos h3]
        have hso : (offset % 512).toNat = 0 := by omega
        have hc512 : c.toNat = 512 := by omega
        have hchunk := write_chunk_full s.disk (E.cluster_to_sector w.2) buffer bw.toNat
          (offset % 512).toNat hso
        rw [← hc512] at hchunk
        exact write_post_step E c0 buffer s.disk _ s.fat w.1 (E.cluster_to_sector w.2)
          size offset bw c L L1 _ h1 ho hbw g8 f1 f3 f7' wf1 hL1 pre1 alt1' hchunk
          (inode_write_loop_stuck E ip buffer fuel
            { disk := disk_write s.disk (E.cluster_to_sector w.2) buffer bw.toNat,
              fat := w.1, heap := s.heap, open_inodes := s.open_inodes, mallocs := s.mallocs }
            (size - c) (offset + c) (bw + c) bounce)
          (ih
            { disk := disk_write s.disk (E.cluster_to_sector w.2) buffer bw.toNat,
              fat := w.1, heap := s.heap, open_inodes := s.open_inodes, mallocs := s.mallocs }
            (size - c) (offset + c) (bw + c) bounce L1 hc0 g1 g2 g3 g4 g5 hb wf1)
      · rw [if_neg h3]
        obtain ⟨m, p, hst, hm, hpne⟩ := stage_eq E
          { disk := s.disk, fat := w.1, heap := s.heap, open_inodes := s.open_inodes,
            mallocs := s.mallocs } bounce
        rw [hst]
        have hpne' := hpne hb
        rw [if_neg hpne', if_pos (write_chunk_cond offset c ho g8 f3 h3)]
        have hchunk := write_chunk_part s.disk (E.cluster_to_sector w.2) buffer bw.toNat
          (offset % 512).toNat c.toNat hso2
        exact write_post_step E c0 buffer s.disk _ s.fat w.1 (E.cluster_to_sector w.2)
          size offset bw c L L1 _ h1 ho hbw g8 f1 f3 f7' wf1 hL1 pre1 alt1' hchunk
          (inode_write_loop_stuck E ip buffer fuel
            { disk := disk_write s.disk (E.cluster_to_sector w.2)
                (memcpy (disk_read s.disk (E.cluster_to_sector w.2) (fun _ => 0) 0)
                  (offset % 512).toNat buffer bw.toNat c.toNat) 0,
              fat := w.1, heap := s.heap, open_inodes := s.open_inodes, mallocs := m }
            (size - c) (offset + c) (bw + c) p)
          (ih
            { disk := disk_write s.disk (E.cluster_to_sector w.2)
                (memcpy (disk_read s.disk (E.cluster_to_sector w.2) (fun _ => 0) 0)
                  (offset % 512).toNat buffer bw.toNat c.toNat) 0,
              fat := w.1, heap := s.heap, open_inodes := s.open_inodes, mallocs := m }
            (size - c) (offset + c) (bw + c) p L1 hc0 g1 g2 g3 g4 g5 (Or.inl hpne') wf1)
    · rw [if_neg h1]
      have h0 : size = 0 := by omega
      subst h0
      exact write_post_zero E c0 buffer s offset bw L hwf


theorem nth_cluster_add (f : Nat → Nat) (c0 : Nat) (i k : Nat) :
    nth_cluster f c0 (i + k) = f^[k] (nth_cluster f c0 i) := by
  unfold nth_cluster
  rw [Nat.add_comm, Function.iterate_add_apply]

theorem chain_wf_distinct (E : Env) (f : Nat → Nat) (c0 L : Nat) (h : chain_wf E f c0 L)
    (i j : Nat) (hi : i < L) (hj : j < L) (he : nth_cluster f c0 i = nth_cluster f c0 j) :
    i = j := by
  by_contra hne
  rcases Nat.lt_or_gt_of_ne hne with hlt | hgt
  · have h1 := nth_cluster_add f c0 i (L - j)
    have h2 := nth_cluster_add f c0 j (L - j)
    rw [he, ← h2, show j + (L - j) = L by omega, h.2.2] at h1
    exact (h.2.1 (i + (L - j)) (by omega)).2 h1
  · have h1 := nth_cluster_add f c0 j (L - i)
    have h2 := nth_cluster_add f c0 i (L - i)
    rw [← he, ← h2, show i + (L - i) = L by omega, h.2.2] at h1
    exact (h.2.1 (j + (L - i)) (by omega)).2 h1

theorem chain_inj_of_wf (E : Env) (hinj : Function.Injective E.cluster_to_sector)
    (f : Nat → Nat) (c0 L : Nat) (h : chain_wf E f c0 L) : chain_inj E f c0 L := by
  intro i j hi hj he
  exact chain_wf_distinct E f c0 L h i j hi hj (hinj he)

theorem set_length_facts (s : FS) (ip : Nat) (v : Int) :
    (set_length s ip v).disk = s.disk ∧ (set_length s ip v).fat = s.fat ∧
    (set_length s ip v).mallocs = s.mallocs ∧
    (set_length s ip v).open_inodes = s.open_inodes ∧
    inode_length (set_length s ip v) ip = v ∧
    (∀ E : Env, chain_start E (set_length s ip v) ip = chain_start E s ip) := by
  refine ⟨rfl, rfl, rfl, rfl, ?_, ?_⟩
  · simp [inode_length, set_length, set_inode]
  · intro E
    simp [chain_start, set_length, set_inode]

/-- The state in which the write loop of `inode_write_at` starts. -/
theorem inode_write_at_eq (E : Env) (s : FS) (ip : Nat) (buffer : Nat → Nat)
    (size offset : Int) (hd : (s.heap ip).deny_write_cnt = 0) :
    inode_write_at E s ip buffer size offset =
      inode_write_loop E ip buffer size.toNat
        (if offset + size > (s.heap ip).data.length
          then set_length s ip (offset + size) else s) size offset 0 0 := by
  unfold inode_write_at
  rw [if_neg (by simp [hd])]

theorem inode_write_at_spec (E : Env) (hp : pick_sound E) (s : FS) (ip : Nat)
    (buffer : Nat → Nat) (size offset : Int) (L : Nat)
    (hd : (s.heap ip).deny_write_cnt = 0) (hs : 0 ≤ size) (ho : 0 ≤ offset)
    (hm : E.malloc_ok s.mallocs = true)
    (hwf : chain_wf E s.fat (chain_start E s ip) L) :
    write_post E (chain_start E s ip) buffer s.disk s.fat size offset 0 L
      (inode_write_at E s ip buffer size offset) := by
  rw [inode_write_at_eq E s ip buffer size offset hd]
  by_cases h : offset + size > (s.heap ip).data.length
  · rw [if_pos h]
    obtain ⟨a, b, c, _, e, f⟩ := set_length_facts s ip (offset + size)
    have := inode_write_loop_spec E hp ip buffer (chain_start E s ip) size.toNat
      (set_length s ip (offset + size)) size offset 0 0 L (f E) (le_refl _) hs ho (le_refl _)
      (by rw [e]) (Or.inr (by rw [c]; exact hm)) (by rw [b]; exact hwf)
    rw [a, b] at this
    exact this
  · rw [if_neg h]
    exact inode_write_loop_spec E hp ip buffer (chain_start E s ip) size.toNat
      s size offset 0 0 L rfl (le_refl _) hs ho (le_refl _)
      (by unfold inode_length; omega) (Or.inr hm) hwf

theorem inode_write_at_frame (E : Env) (s : FS) (ip : Nat) (buffer : Nat → Nat)
    (size offset : Int) :
    (∀ a, a ≠ ip → (inode_write_at E s ip buffer size offset).1.heap a = s.heap a) ∧
    (inode_write_at E s ip buffer size offset).1.heap ip =
      { s.heap ip with data := { (s.heap ip).data with
          length := if (s.heap ip).deny_write_cnt = 0 ∧ offset + size > (s.heap ip).data.length
            then offset + size else (s.heap ip).data.length } } ∧
    (inode_write_at E s ip buffer size offset).1.open_inodes = s.open_inodes ∧
    s.mallocs ≤ (inode_write_at E s ip buffer size offset).1.mallocs := by
  by_cases hd : (s.heap ip).deny_write_cnt = 0
  · rw [inode_write_at_eq E s ip buffer size offset hd]
    obtain ⟨a, b, c⟩ := inode_write_loop_frame E ip buffer size.toNat
      (if offset + size > (s.heap ip).data.length
          then set_length s ip (offset + size) else s) size offset 0 0
    rw [a, b]
    by_cases h : offset + size > (s.heap ip).data.length
    · rw [if_pos h] at c ⊢
      refine ⟨?_, ?_, rfl, c⟩
      · intro x hx; simp [set_length, set_inode, hx]
      · rw [if_pos ⟨hd, h⟩]
        simp [set_length, set_inode]
    · rw [if_neg h] at c ⊢
      refine ⟨fun _ _ => rfl, ?_, rfl, c⟩
      rw [if_neg (fun hh => h hh.2)]
  · unfold inode_write_at
    rw [if_pos hd]
    refine ⟨fun _ _ => rfl, ?_, rfl, le_refl _⟩
    rw [if_neg (fun hh => hd hh.1)]

theorem inode_read_at_spec (E : Env) (hp : pick_sound E) (s : FS) (ip : Nat)
    (buffer : Nat → Nat) (size offset n : Int) (L : Nat)
    (hs : 0 ≤ size) (ho : 0 ≤ offset) (hm : E.malloc_ok s.mallocs = true)
    (hwf : chain_wf E s.fat (chain_start E s ip) L)
    (hn : n = min size (max 0 (inode_length s ip - offset)))
    (hcov : offset + n ≤ 512 * L) :
    read_post E (chain_start E s ip) buffer s.disk s.fat size offset 0 n L
      (inode_read_at E s ip buffer size offset) ∧
    (inode_read_at E s ip buffer size offset).2.2 = n := by
  constructor
  · exact inode_read_loop_spec E hp ip (chain_start E s ip) L size.toNat s buffer size offset 0 n
      0 rfl (le_refl _) hs ho (le_refl _) (Or.inr hm) hwf hn hcov
  · unfold inode_read_at
    rw [inode_read_loop_count E ip size.toNat s buffer size offset 0 0 (le_refl _) hs ho
      (Or.inr hm), hn]
    omega


/-! ## Theorems: the example file system -/

theorem first_free_spec (fat : Nat → Nat) :
    ∀ (n c : Nat), first_free fat n c ≠ 0 →
      fat (first_free fat n c) = 0 ∧ first_free fat n c < c + n := by
  intro n
  induction n with
  | zero => intro c h; exact absurd rfl h
  | succ n ih =>
    intro c h
    rw [first_free] at h ⊢
    by_cases hc : fat c = 0
    · rw [if_pos hc] at h ⊢
      exact ⟨hc, by omega⟩
    · rw [if_neg hc] at h ⊢
      obtain ⟨a, b⟩ := ih (c + 1) h
      exact ⟨a, by omega⟩

theorem demo_pick_sound : pick_sound demo_env := by
  refine ⟨by decide, ?_⟩
  intro fat h
  obtain ⟨a, b⟩ := first_free_spec fat 7 1 h
  refine ⟨a, ?_⟩
  show first_free fat 7 1 ≠ 268435455
  omega

theorem demo_oom_pick_sound : pick_sound demo_env_oom := demo_pick_sound

theorem demo_sectors_injective : Function.Injective demo_env.cluster_to_sector := by
  intro a b h
  have : a + 100 = b + 100 := h
  omega

theorem demo_mem_ok (s : FS) : mem_ok demo_env s := fun _ _ => rfl

/-! ## Theorems: claims about the byte stream of an inode -/

/-- C1: a write followed by a read of the same range returns the written bytes.  For a handle
with `deny_write_cnt = 0`, an offset and a size that are not negative, a well-formed chain and
an allocator that hands out free clusters only: when the staging buffers are allocated, the
chain after the write covers the range (every extension succeeded) and maps distinct positions
to distinct sectors, `inode_write_at` returns `size`, the following `inode_read_at` returns
`size`, and the bytes read are the bytes written. -/
theorem inode_write_then_read (E : Env) (s : FS) (ip : Nat) (buf out : Nat → Nat)
    (size offset : Int) (L L' : Nat)
    (hd : (s.heap ip).deny_write_cnt = 0) (ho : 0 ≤ offset) (hs : 0 ≤ size)
    (hp : pick_sound E) (hwf : chain_wf E s.fat (chain_start E s ip) L)
    (hm : mem_ok E s)
    (hext : chain_wf E (inode_write_at E s ip buf size offset).1.fat (chain_start E s ip) L' ∧
      offset + size ≤ 512 * L')
    (hinj : chain_inj E (inode_write_at E s ip buf size offset).1.fat (chain_start E s ip) L') :
    (inode_write_at E s ip buf size offset).2 = size ∧
    (inode_read_at E (inode_write_at E s ip buf size offset).1 ip out size offset).2.2 = size ∧
    ∀ i : Nat, (i : Int) < size →
      (inode_read_at E (inode_write_at E s ip buf size offset).1 ip out size offset).2.1 i
        = buf i := by
  have W := inode_write_at_spec E hp s ip buf size offset L hd hs ho (hm _ (le_refl _)) hwf
  obtain ⟨fa, fb, fc, fd⟩ := inode_write_at_frame E s ip buf size offset
  revert W fa fb fc fd hext hinj
  generalize inode_write_at E s ip buf size offset = w
  intro hext hinj W fa fb fc fd
  obtain ⟨w1, _, w3⟩ := W
  have hstart : chain_start E w.1 ip = chain_start E s ip := by
    unfold chain_start; rw [fb]
  have hlen : offset + size ≤ inode_length w.1 ip := by
    unfold inode_length; rw [fb]
    show _ ≤ (if _ then _ else _)
    by_cases h : offset + size > (s.heap ip).data.length
    · rw [if_pos ⟨hd, h⟩]
    · rw [if_neg (fun hh => h hh.2)]; omega
  have R := inode_read_at_spec E hp w.1 ip out size offset size L' hs ho
    (hm _ fd) (by rw [hstart]; exact hext.1) (by omega) hext.2
  rw [hstart] at R
  obtain ⟨⟨r1, _, _⟩, r2⟩ := R
  refine ⟨by rw [w1]; omega, r2, ?_⟩
  intro i hi
  rw [r1 i, if_pos ⟨by omega, by omega⟩]
  have := (w3 L' hext.1 hext.2).2 hinj (offset + ((i : Int) - 0)) (by omega) (by omega)
  unfold stream_byte
  rw [this]
  congr 1
  omega

/-- C1, at a concrete input: two bytes written at offset 511, across a sector boundary and
with an extension of the chain. -/
theorem inode_write_then_read_witness :
    (inode_write_at demo_env (demo_fs 0 0) 1 (fun i => i + 1) 2 511).2 = 2 ∧
    (inode_read_at demo_env (inode_write_at demo_env (demo_fs 0 0) 1 (fun i => i + 1) 2 511).1
      1 (fun _ => 0) 2 511).2.2 = 2 ∧
    ∀ i : Nat, (i : Int) < 2 →
      (inode_read_at demo_env
        (inode_write_at demo_env (demo_fs 0 0) 1 (fun i => i + 1) 2 511).1
        1 (fun _ => 0) 2 511).2.1 i = (fun i => i + 1) i :=
  inode_write_then_read demo_env (demo_fs 0 0) 1 (fun i => i + 1) (fun _ => 0) 2 511 1 2
    (by decide) (by decide) (by decide) demo_pick_sound (by unfold chain_wf; decide)
    (demo_mem_ok _) ⟨by unfold chain_wf; decide, by decide⟩
    (chain_inj_of_wf demo_env demo_sectors_injective _ _ _ (by unfold chain_wf; decide))


/-- C7: write-deny gating.  For a handle with `deny_write_cnt > 0`, `inode_write_at` returns 0
whatever the buffer, the size and the offset, and the state is the one before the call: the
cached length, the device contents and the chain table are unchanged. -/
theorem inode_write_at_denied (E : Env) (s : FS) (ip : Nat) (buffer : Nat → Nat)
    (size offset : Int) (h : (s.heap ip).deny_write_cnt > 0) :
    inode_write_at E s ip buffer size offset = (s, 0) ∧
    inode_length (inode_write_at E s ip buffer size offset).1 ip = inode_length s ip ∧
    (inode_write_at E s ip buffer size offset).1.disk = s.disk ∧
    (inode_write_at E s ip buffer size offset).1.fat = s.fat := by
  have e : inode_write_at E s ip buffer size offset = (s, 0) := by
    unfold inode_write_at
    rw [if_pos (by omega)]
  rw [e]
  exact ⟨rfl, rfl, rfl, rfl⟩

/-- C7, at a concrete input: a write of 600 bytes to a handle with `deny_write_cnt = 1`. -/
theorem inode_write_at_denied_witness :
    inode_write_at demo_env (demo_fs 100 1) 1 (fun i => i + 1) 600 50 = (demo_fs 100 1, 0) ∧
    inode_length (inode_write_at demo_env (demo_fs 100 1) 1 (fun i => i + 1) 600 50).1 1
      = inode_length (demo_fs 100 1) 1 ∧
    (inode_write_at demo_env (demo_fs 100 1) 1 (fun i => i + 1) 600 50).1.disk
      = (demo_fs 100 1).disk ∧
    (inode_write_at demo_env (demo_fs 100 1) 1 (fun i => i + 1) 600 50).1.fat
      = (demo_fs 100 1).fat :=
  inode_write_at_denied demo_env (demo_fs 100 1) 1 (fun i => i + 1) 600 50 (by decide)

/-- C8: length extension.  For a handle with `deny_write_cnt = 0`, after `inode_write_at` the
cached length is the larger of the old length and `offset + size`: it is `offset + size` when
that exceeds the old length and the old length otherwise, so a write never shrinks it. -/
theorem inode_write_at_length (E : Env) (s : FS) (ip : Nat) (buffer : Nat → Nat)
    (size offset : Int) (hd : (s.heap ip).deny_write_cnt = 0) :
    inode_length (inode_write_at E s ip buffer size offset).1 ip
      = max (inode_length s ip) (offset + size) ∧
    (offset + size > inode_length s ip →
      inode_length (inode_write_at E s ip buffer size offset).1 ip = offset + size) ∧
    (offset + size ≤ inode_length s ip →
      inode_length (inode_write_at E s ip buffer size offset).1 ip = inode_length s ip) ∧
    inode_length s ip ≤ inode_length (inode_write_at E s ip buffer size offset).1 ip := by
  have e : inode_length (inode_write_at E s ip buffer size offset).1 ip
      = if offset + size > inode_length s ip then offset + size else inode_length s ip := by
    unfold inode_length
    rw [(inode_write_at_frame E s ip buffer size offset).2.1]
    show (if _ then _ else _) = _
    by_cases h : offset + size > (s.heap ip).data.length
    · rw [if_pos ⟨hd, h⟩, if_pos h]
    · rw [if_neg (fun hh => h hh.2), if_neg h]
  rw [e]
  by_cases h : offset + size > inode_length s ip
  · rw [if_pos h]
    exact ⟨by omega, fun _ => rfl, fun h' => by omega, by omega⟩
  · rw [if_neg h]
    exact ⟨by omega, fun h' => absurd h' h, fun _ => rfl, le_refl _⟩

/-- C8, at a concrete input: 600 bytes written at offset 50 of an inode of length 100. -/
theorem inode_write_at_length_witness :
    inode_length (inode_write_at demo_env (demo_fs 100 0) 1 (fun i => i + 1) 600 50).1 1
      = max (inode_length (demo_fs 100 0) 1) (50 + 600) ∧
    (50 + 600 > inode_length (demo_fs 100 0) 1 →
      inode_length (inode_write_at demo_env (demo_fs 100 0) 1 (fun i => i + 1) 600 50).1 1
        = 50 + 600) ∧
    (50 + 600 ≤ inode_length (demo_fs 100 0) 1 →
      inode_length (inode_write_at demo_env (demo_fs 100 0) 1 (fun i => i + 1) 600 50).1 1
        = inode_length (demo_fs 100 0) 1) ∧
    inode_length (demo_fs 100 0) 1
      ≤ inode_length (inode_write_at demo_env (demo_fs 100 0) 1 (fun i => i + 1) 600 50).1 1 :=
  inode_write_at_length demo_env (demo_fs 100 0) 1 (fun i => i + 1) 600 50 (by decide)

/-- C10: byte count of a read.  For sizes and offsets that are not negative, when the staging
buffer is allocated, `inode_read_at` returns `min (size, max (0, inode_length - offset))`; it
returns less than `size` only when the range reaches beyond the end of the stream, and the
cached length is unchanged. -/
theorem inode_read_at_count (E : Env) (s : FS) (ip : Nat) (buffer : Nat → Nat)
    (size offset : Int) (hs : 0 ≤ size) (ho : 0 ≤ offset)
    (hm : E.malloc_ok s.mallocs = true) :
    (inode_read_at E s ip buffer size offset).2.2
      = min size (max 0 (inode_length s ip - offset)) ∧
    ((inode_read_at E s ip buffer size offset).2.2 < size →
      inode_length s ip < offset + size) ∧
    inode_length (inode_read_at E s ip buffer size offset).1 ip = inode_length s ip := by
  have e : (inode_read_at E s ip buffer size offset).2.2
      = min size (max 0 (inode_length s ip - offset)) := by
    unfold inode_read_at
    rw [inode_read_loop_count E ip size.toNat s buffer size offset 0 0 (le_refl _) hs ho
      (Or.inr hm)]
    omega
  refine ⟨e, ?_, ?_⟩
  · rw [e]; omega
  · unfold inode_length
    rw [(inode_read_at_frame E s ip buffer size offset).1]

/-- C10, at a concrete input: 600 bytes asked at offset 50 of an inode of length 100. -/
theorem inode_read_at_count_witness :
    (inode_read_at demo_env (demo_fs 100 0) 1 (fun _ => 0) 600 50).2.2
      = min 600 (max 0 (inode_length (demo_fs 100 0) 1 - 50)) ∧
    ((inode_read_at demo_env (demo_fs 100 0) 1 (fun _ => 0) 600 50).2.2 < 600 →
      inode_length (demo_fs 100 0) 1 < 50 + 600) ∧
    inode_length (inode_read_at demo_env (demo_fs 100 0) 1 (fun _ => 0) 600 50).1 1
      = inode_length (demo_fs 100 0) 1 :=
  inode_read_at_count demo_env (demo_fs 100 0) 1 (fun _ => 0) 600 50 (by decide) (by decide) rfl

theorem scan_rel_refl (E : Env) (ip : Nat) (L : Nat) (s : FS)
    (h : chain_wf E s.fat (chain_start E s ip) L) : scan_rel E ip L s s :=
  ⟨rfl, rfl, rfl, le_refl _, L, h, le_refl _, fun _ _ => rfl⟩

theorem scan_rel_start (E : Env) (ip : Nat) (L : Nat) (s0 s : FS) (h : scan_rel E ip L s0 s) :
    chain_start E s ip = chain_start E s0 ip := by
  unfold chain_start; rw [h.1]

theorem scan_rel_length (E : Env) (ip : Nat) (L : Nat) (s0 s : FS) (h : scan_rel E ip L s0 s) :
    inode_length s ip = inode_length s0 ip := by
  unfold inode_length; rw [h.1]

theorem scan_rel_byte (E : Env) (ip : Nat) (L : Nat) (s0 s : FS) (h : scan_rel E ip L s0 s)
    (q : Int) (h0 : 0 ≤ q) (h1 : q < 512 * L) :
    inode_byte E s ip q = inode_byte E s0 ip q := by
  have hst := scan_rel_start E ip L s0 s h
  obtain ⟨_, hd, _, _, L1, _, _, hpre⟩ := h
  unfold inode_byte stream_byte sector_at
  rw [hst, hd, hpre _ (by omega)]

/-- A read of one record during a scan. -/
theorem scan_read (E : Env) (hp : pick_sound E) (ip : Nat) (L : Nat) (s0 s : FS)
    (e : Nat → Nat) (ofs : Int) (hrel : scan_rel E ip L s0 s) (hwf : dir_wf E s0 ip L)
    (hm : mem_ok E s0) (ho : 0 ≤ ofs) (hol : ofs ≤ inode_length s0 ip) :
    scan_rel E ip L s0 (inode_read_at E s ip e 20 ofs).1 ∧
    (ofs + 20 ≤ inode_length s0 ip →
      (inode_read_at E s ip e 20 ofs).2.2 = 20 ∧
      ∀ i, (inode_read_at E s ip e 20 ofs).2.1 i
        = if i < 20 then inode_byte E s0 ip (ofs + (i : Int)) else e i) ∧
    (inode_length s0 ip < ofs + 20 → (inode_read_at E s ip e 20 ofs).2.2 ≠ 20) := by
  have hstart := scan_rel_start E ip L s0 s hrel
  have hlen := scan_rel_length E ip L s0 s hrel
  have hbyte := scan_rel_byte E ip L s0 s hrel
  obtain ⟨h1, h2, h3, h4, L1, wf1, hL1, pre1⟩ := hrel
  obtain ⟨_, hl0, hl1⟩ := hwf
  obtain ⟨fa, fb, fc, fd⟩ := inode_read_at_frame E s ip e 20 ofs
  have hn : min 20 (max 0 (inode_length s ip - ofs)) = min 20 (max 0 (inode_length s ip - ofs)) :=
    rfl
  have R := inode_read_at_spec E hp s ip e 20 ofs _ L1 (by omega) ho (hm _ h4)
    (by rw [hstart]; exact wf1) hn (by rw [hlen]; omega)
  revert R fa fb fc fd
  generalize inode_read_at E s ip e 20 ofs = r
  intro fa fb fc fd R
  obtain ⟨⟨r1, ⟨L2, wf2, hL2, pre2⟩, _⟩, r2⟩ := R
  rw [hstart] at wf2 pre2
  refine ⟨⟨fa.trans h1, fb.trans h2, fc.trans h3, le_trans h4 fd, L2, wf2, by omega,
    fun j hj => ?_⟩, ?_, ?_⟩
  · rw [pre2 j (by omega), pre1 j hj]
  · intro hfull
    have hn20 : min 20 (max 0 (inode_length s ip - ofs)) = 20 := by rw [hlen]; omega
    rw [hn20] at r1 r2
    refine ⟨r2, fun i => ?_⟩
    rw [r1 i]
    by_cases hi : i < 20
    · rw [if_pos ⟨by omega, by omega⟩, if_pos hi]
      have : ofs + ((i : Int) - 0) = ofs + (i : Int) := by omega
      rw [this]
      exact hbyte _ (by omega) (by omega)
    · rw [if_neg (by omega), if_neg hi]
  · intro hshort
    rw [r2, hlen]
    omega

theorem dir_count_lt (s : FS) (ip : Nat) (k : Nat) (h0 : 0 ≤ inode_length s ip) :
    (k < dir_count s ip ↔ 20 * (k : Int) + 20 ≤ inode_length s ip) ∧
    (k ≤ dir_count s ip ↔ 20 * (k : Int) ≤ inode_length s ip) := by
  unfold dir_count
  omega

theorem entry_of_read (E : Env) (s0 : FS) (ip : Nat) (k : Nat) (e b : Nat → Nat)
    (he : ∀ i, 20 ≤ i → e i = 0)
    (hb : ∀ i, b i = if i < 20 then inode_byte E s0 ip (20 * (k : Int) + (i : Int)) else e i) :
    b = dir_entry_at E s0 ip k := by
  funext i
  rw [hb i]
  unfold dir_entry_at
  by_cases hi : i < 20
  · rw [if_pos hi, if_pos hi]
  · rw [if_neg hi, if_neg hi]
    exact he i (by omega)

theorem dir_entry_at_zero (E : Env) (s0 : FS) (ip : Nat) (k : Nat) (i : Nat) (hi : 20 ≤ i) :
    dir_entry_at E s0 ip k i = 0 := by
  unfold dir_entry_at
  rw [if_neg (by omega)]

theorem lookup_loop_spec (E : Env) (hp : pick_sound E) (ip : Nat) (name : List Nat) (L : Nat)
    (s0 : FS) (hwf : dir_wf E s0 ip L) (hm : mem_ok E s0) :
    ∀ (fuel : Nat) (s : FS) (e : Nat → Nat) (k : Nat) (r : FS × Bool × (Nat → Nat) × Int),
      r = lookup_loop E ip name fuel s e (20 * (k : Int)) →
      scan_rel E ip L s0 s → k ≤ dir_count s0 ip → dir_count s0 ip - k < fuel →
      (∀ i, 20 ≤ i → e i = 0) →
      scan_rel E ip L s0 r.1 ∧
      ((∃ k', k ≤ k' ∧ k' < dir_count s0 ip ∧
          (∀ j, k ≤ j → j < k' → ¬ entry_match name (dir_entry_at E s0 ip j)) ∧
          entry_match name (dir_entry_at E s0 ip k') ∧
          r.2.1 = true ∧ r.2.2.1 = dir_entry_at E s0 ip k' ∧ r.2.2.2 = 20 * (k' : Int)) ∨
       ((∀ j, k ≤ j → j < dir_count s0 ip → ¬ entry_match name (dir_entry_at E s0 ip j)) ∧
          r.2.1 = false)) := by
  intro fuel
  induction fuel with
  | zero => intro s e k r _ _ _ hf; omega
  | succ fuel ih =>
    intro s e k r hr hrel hk hf he
    rw [lookup_loop] at hr
    have hl0 := hwf.2.1
    obtain ⟨c1, c2⟩ := dir_count_lt s0 ip k hl0
    have R := scan_read E hp ip L s0 s e (20 * (k : Int)) hrel hwf hm (by omega) (c2.1 hk)
    revert R hr
    generalize inode_read_at E s ip e DIR_ENTRY_SIZE (20 * (k : Int)) = rd
    intro hr R
    obtain ⟨rel1, rfull, rshort⟩ := R
    by_cases hlt : k < dir_count s0 ip
    · obtain ⟨r20, rbuf⟩ := rfull (c1.1 hlt)
      have hent := entry_of_read E s0 ip k e rd.2.1 he rbuf
      simp only [DIR_ENTRY_SIZE] at hr
      rw [if_pos r20, hent] at hr
      by_cases hmatch : e_in_use (dir_entry_at E s0 ip k) = true ∧
          str_eq name (dir_entry_at E s0 ip k) 4 = true
      · rw [if_pos hmatch] at hr
        subst hr
        exact ⟨rel1, Or.inl ⟨k, le_refl _, hlt, fun j h1 h2 => by omega, hmatch, rfl, rfl, rfl⟩⟩
      · rw [if_neg hmatch] at hr
        have e20 : 20 * (k : Int) + 20 = 20 * ((k + 1 : Nat) : Int) := by push_cast; ring
        rw [e20] at hr
        obtain ⟨rel2, alt⟩ := ih rd.1 (dir_entry_at E s0 ip k) (k + 1) r hr rel1 (by omega)
          (by omega) (fun i hi => dir_entry_at_zero E s0 ip k i hi)
        refine ⟨rel2, ?_⟩
        rcases alt with ⟨k', a1, a2, a3, a4, a5, a6, a7⟩ | ⟨a1, a2⟩
        · left
          refine ⟨k', by omega, a2, fun j h1 h2 => ?_, a4, a5, a6, a7⟩
          by_cases hjk : j = k
          · subst hjk; exact hmatch
          · exact a3 j (by omega) h2
        · right
          refine ⟨fun j h1 h2 => ?_, a2⟩
          by_cases hjk : j = k
          · subst hjk; exact hmatch
          · exact a1 j (by omega) h2
    · have hne := rshort (by omega)
      simp only [DIR_ENTRY_SIZE] at hr
      rw [if_neg hne] at hr
      subst hr
      exact ⟨rel1, Or.inr ⟨fun j h1 h2 => by omega, rfl⟩⟩

theorem in_use_of_read (E : Env) (s0 : FS) (ip : Nat) (k : Nat) (e b : Nat → Nat)
    (hb : ∀ i, b i = if i < 20 then inode_byte E s0 ip (20 * (k : Int) + (i : Int)) else e i) :
    e_in_use b = e_in_use (dir_entry_at E s0 ip k) ∧
    ∀ i, i < 20 → b i = dir_entry_at E s0 ip k i := by
  constructor
  · unfold e_in_use dir_entry_at
    rw [hb 19, if_pos (by omega), if_pos (by omega)]
  · intro i hi
    unfold dir_entry_at
    rw [hb i, if_pos hi, if_pos hi]

theorem dir_add_loop_spec (E : Env) (hp : pick_sound E) (ip : Nat) (L : Nat)
    (s0 : FS) (hwf : dir_wf E s0 ip L) (hm : mem_ok E s0) :
    ∀ (fuel : Nat) (s : FS) (e : Nat → Nat) (k : Nat) (r : FS × (Nat → Nat) × Int),
      r = dir_add_loop E ip fuel s e (20 * (k : Int)) →
      scan_rel E ip L s0 s → k ≤ dir_count s0 ip → dir_count s0 ip - k < fuel →
      scan_rel E ip L s0 r.1 ∧
      ((∃ k', k ≤ k' ∧ k' < dir_count s0 ip ∧
          (∀ j, k ≤ j → j < k' → e_in_use (dir_entry_at E s0 ip j) = true) ∧
          e_in_use (dir_entry_at E s0 ip k') = false ∧ r.2.2 = 20 * (k' : Int)) ∨
       ((∀ j, k ≤ j → j < dir_count s0 ip → e_in_use (dir_entry_at E s0 ip j) = true) ∧
          r.2.2 = 20 * (dir_count s0 ip : Int))) := by
  intro fuel
  induction fuel with
  | zero => intro s e k r _ _ _ hf; omega
  | succ fuel ih =>
    intro s e k r hr hrel hk hf
    rw [dir_add_loop] at hr
    have hl0 := hwf.2.1
    obtain ⟨c1, c2⟩ := dir_count_lt s0 ip k hl0
    have R := scan_read E hp ip L s0 s e (20 * (k : Int)) hrel hwf hm (by omega) (c2.1 hk)
    revert R hr
    generalize inode_read_at E s ip e DIR_ENTRY_SIZE (20 * (k : Int)) = rd
    intro hr R
    obtain ⟨rel1, rfull, rshort⟩ := R
    by_cases hlt : k < dir_count s0 ip
    · obtain ⟨r20, rbuf⟩ := rfull (c1.1 hlt)
      obtain ⟨huse, _⟩ := in_use_of_read E s0 ip k e rd.2.1 rbuf
      simp only [DIR_ENTRY_SIZE] at hr
      rw [if_pos r20, huse] at hr
      by_cases hfree : e_in_use (dir_entry_at E s0 ip k) = false
      · rw [if_pos hfree] at hr
        subst hr
        exact ⟨rel1, Or.inl ⟨k, le_refl _, hlt, fun j h1 h2 => by omega, hfree, rfl⟩⟩
      · rw [if_neg hfree] at hr
        have hused : e_in_use (dir_entry_at E s0 ip k) = true := by
          cases h : e_in_use (dir_entry_at E s0 ip k)
          · exact absurd h hfree
          · rfl
        have e20 : 20 * (k : Int) + 20 = 20 * ((k + 1 : Nat) : Int) := by push_cast; ring
        rw [e20] at hr
        obtain ⟨rel2, alt⟩ := ih rd.1 rd.2.1 (k + 1) r hr rel1 (by omega) (by omega)
        refine ⟨rel2, ?_⟩
        rcases alt with ⟨k', a1, a2, a3, a4, a5⟩ | ⟨a1, a2⟩
        · left
          refine ⟨k', by omega, a2, fun j h1 h2 => ?_, a4, a5⟩
          by_cases hjk : j = k
          · subst hjk; exact hused
          · exact a3 j (by omega) h2
        · right
          refine ⟨fun j h1 h2 => ?_, a2⟩
          by_cases hjk : j = k
          · subst hjk; exact hused
          · exact a1 j (by omega) h2
    · have hne := rshort (by omega)
      simp only [DIR_ENTRY_SIZE] at hr
      rw [if_neg hne] at hr
      subst hr
      have hkK : k = dir_count s0 ip := by omega
      exact ⟨rel1, Or.inr ⟨fun j h1 h2 => by omega, by rw [hkK]⟩⟩

theorem str_at_congr (a b : Nat → Nat) :
    ∀ (max base : Nat), (∀ i, base ≤ i → i < base + max → a i = b i) →
      str_at a base max = str_at b base max := by
  intro max
  induction max with
  | zero => intro base _; rfl
  | succ n ih =>
    intro base h
    rw [str_at, str_at, h base (le_refl _) (by omega)]
    rw [ih (base + 1) (fun i h1 h2 => h i (by omega) (by omega))]

theorem dir_readdir_loop_spec (E : Env) (hp : pick_sound E) (ip : Nat) (L : Nat)
    (s0 : FS) (hwf : dir_wf E s0 ip L) (hm : mem_ok E s0) :
    ∀ (fuel : Nat) (s : FS) (e : Nat → Nat) (k : Nat) (r : FS × dir × Option (List Nat)),
      r = dir_readdir_loop E fuel s { inode := ip, pos := 20 * (k : Int) } e →
      scan_rel E ip L s0 s → k ≤ dir_count s0 ip → dir_count s0 ip - k < fuel →
      scan_rel E ip L s0 r.1 ∧ r.2.1.inode = ip ∧
      ((∃ k', k ≤ k' ∧ k' < dir_count s0 ip ∧
          (∀ j, k ≤ j → j < k' → e_in_use (dir_entry_at E s0 ip j) = false) ∧
          e_in_use (dir_entry_at E s0 ip k') = true ∧
          r.2.1.pos = 20 * ((k' + 1 : Nat) : Int) ∧
          r.2.2 = some (str_at (dir_entry_at E s0 ip k') 4 NAME_MAX)) ∨
       ((∀ j, k ≤ j → j < dir_count s0 ip → e_in_use (dir_entry_at E s0 ip j) = false) ∧
          r.2.1.pos = 20 * (dir_count s0 ip : Int) ∧ r.2.2 = none)) := by
  intro fuel
  induction fuel with
  | zero => intro s e k r _ _ _ hf; omega
  | succ fuel ih =>
    intro s e k r hr hrel hk hf
    rw [dir_readdir_loop] at hr
    simp only [] at hr
    have hl0 := hwf.2.1
    obtain ⟨c1, c2⟩ := dir_count_lt s0 ip k hl0
    have R := scan_read E hp ip L s0 s e (20 * (k : Int)) hrel hwf hm (by omega) (c2.1 hk)
    revert R hr
    generalize inode_read_at E s ip e DIR_ENTRY_SIZE (20 * (k : Int)) = rd
    intro hr R
    obtain ⟨rel1, rfull, rshort⟩ := R
    by_cases hlt : k < dir_count s0 ip
    · obtain ⟨r20, rbuf⟩ := rfull (c1.1 hlt)
      obtain ⟨huse, hbytes⟩ := in_use_of_read E s0 ip k e rd.2.1 rbuf
      simp only [DIR_ENTRY_SIZE] at hr
      rw [if_pos r20, huse] at hr
      have e20 : 20 * (k : Int) + 20 = 20 * ((k + 1 : Nat) : Int) := by push_cast; ring
      rw [e20] at hr
      by_cases hused : e_in_use (dir_entry_at E s0 ip k) = true
      · rw [if_pos hused] at hr
        subst hr
        refine ⟨rel1, rfl, Or.inl ⟨k, le_refl _, hlt, fun j h1 h2 => by omega, hused, rfl, ?_⟩⟩
        show some _ = some _
        rw [str_at_congr rd.2.1 (dir_entry_at E s0 ip k) NAME_MAX 4
          (fun i _ h2 => hbytes i (by simp only [NAME_MAX] at h2; omega))]
      · rw [if_neg hused] at hr
        have hfree : e_in_use (dir_entry_at E s0 ip k) = false := by
          cases h : e_in_use (dir_entry_at E s0 ip k)
          · rfl
          · exact absurd h hused
        obtain ⟨rel2, hin, alt⟩ := ih rd.1 rd.2.1 (k + 1) r hr rel1 (by omega) (by omega)
        refine ⟨rel2, hin, ?_⟩
        rcases alt with ⟨k', a1, a2, a3, a4, a5, a6⟩ | ⟨a1, a2, a3⟩
        · left
          refine ⟨k', by omega, a2, fun j h1 h2 => ?_, a4, a5, a6⟩
          by_cases hjk : j = k
          · subst hjk; exact hfree
          · exact a3 j (by omega) h2
        · right
          refine ⟨fun j h1 h2 => ?_, a2, a3⟩
          by_cases hjk : j = k
          · subst hjk; exact hfree
          · exact a1 j (by omega) h2
    · have hne := rshort (by omega)
      simp only [DIR_ENTRY_SIZE] at hr
      rw [if_neg hne] at hr
      subst hr
      have hkK : k = dir_count s0 ip := by omega
      exact ⟨rel1, rfl, Or.inr ⟨fun j h1 h2 => by omega, by rw [hkK], rfl⟩⟩


theorem dir_readdir_spec (E : Env) (hp : pick_sound E) (ip : Nat) (L : Nat)
    (s0 : FS) (hwf : dir_wf E s0 ip L) (hm : mem_ok E s0) (s : FS) (k : Nat)
    (hrel : scan_rel E ip L s0 s) (hk : k ≤ dir_count s0 ip) :
    scan_rel E ip L s0 (dir_readdir E s { inode := ip, pos := 20 * (k : Int) }).1 ∧
    (dir_readdir E s { inode := ip, pos := 20 * (k : Int) }).2.1.inode = ip ∧
    ((∃ k', k ≤ k' ∧ k' < dir_count s0 ip ∧
        (∀ j, k ≤ j → j < k' → e_in_use (dir_entry_at E s0 ip j) = false) ∧
        e_in_use (dir_entry_at E s0 ip k') = true ∧
        (dir_readdir E s { inode := ip, pos := 20 * (k : Int) }).2.1.pos
          = 20 * ((k' + 1 : Nat) : Int) ∧
        (dir_readdir E s { inode := ip, pos := 20 * (k : Int) }).2.2
          = some (str_at (dir_entry_at E s0 ip k') 4 NAME_MAX)) ∨
     ((∀ j, k ≤ j → j < dir_count s0 ip → e_in_use (dir_entry_at E s0 ip j) = false) ∧
        (dir_readdir E s { inode := ip, pos := 20 * (k : Int) }).2.1.pos
          = 20 * (dir_count s0 ip : Int) ∧
        (dir_readdir E s { inode := ip, pos := 20 * (k : Int) }).2.2 = none)) := by
  have hlen := scan_rel_length E ip L s0 s hrel
  have hl0 := hwf.2.1
  have hfuel : dir_count s0 ip - k
      < ((inode_length s ip - 20 * (k : Int)) / DIR_ENTRY_SIZE).toNat + 1 := by
    rw [hlen]
    unfold dir_count
    simp only [DIR_ENTRY_SIZE]
    omega
  exact dir_readdir_loop_spec E hp ip L s0 hwf hm _ s (fun _ => 0) k _ rfl hrel hk hfuel

theorem dir_names_from_free (E : Env) (s : FS) (ip : Nat) :
    ∀ (m k : Nat), (∀ j, k ≤ j → j < k + m → e_in_use (dir_entry_at E s ip j) = false) →
      dir_names_from E s ip m k = [] := by
  intro m
  induction m with
  | zero => intro k _; rfl
  | succ m ih =>
    intro k h
    rw [dir_names_from, if_neg (by rw [h k (le_refl _) (by omega)]; decide)]
    exact ih (k + 1) (fun j h1 h2 => h j (by omega) (by omega))

theorem dir_names_from_skip (E : Env) (s : FS) (ip : Nat) :
    ∀ (d m k : Nat), (∀ j, k ≤ j → j < k + d → e_in_use (dir_entry_at E s ip j) = false) →
      dir_names_from E s ip (d + m) k = dir_names_from E s ip m (k + d) := by
  intro d
  induction d with
  | zero => intro m k _; simp
  | succ d ih =>
    intro m k h
    rw [show d + 1 + m = (d + m) + 1 by omega, dir_names_from,
      if_neg (by rw [h k (le_refl _) (by omega)]; decide)]
    rw [ih m (k + 1) (fun j h1 h2 => h j (by omega) (by omega))]
    congr 1
    omega

theorem dir_enumerate_spec (E : Env) (hp : pick_sound E) (ip : Nat) (L : Nat)
    (s0 : FS) (hwf : dir_wf E s0 ip L) (hm : mem_ok E s0) :
    ∀ (n : Nat) (s : FS) (k : Nat), scan_rel E ip L s0 s → k ≤ dir_count s0 ip →
      dir_count s0 ip - k < n →
      dir_enumerate E n s { inode := ip, pos := 20 * (k : Int) }
        = (dir_names_from E s0 ip (dir_count s0 ip - k) k, 20 * (dir_count s0 ip : Int), true) := by
  intro n
  induction n with
  | zero => intro s k _ _ hf; omega
  | succ n ih =>
    intro s k hrel hk hf
    rw [dir_enumerate]
    have R := dir_readdir_spec E hp ip L s0 hwf hm s k hrel hk
    revert R
    generalize dir_readdir E s { inode := ip, pos := 20 * (k : Int) } = rd
    intro R
    obtain ⟨rel1, hin, alt⟩ := R
    rcases alt with ⟨k', a1, a2, a3, a4, a5, a6⟩ | ⟨a1, a2, a3⟩
    · have hd : rd.2.1 = { inode := ip, pos := 20 * ((k' + 1 : Nat) : Int) } := by
        cases hdd : rd.2.1 with
        | mk i p =>
          rw [hdd] at hin a5
          simp only at hin a5
          simp [hin, a5]
      rw [a6]
      simp only []
      rw [hd, ih rd.1 (k' + 1) rel1 (by omega) (by omega)]
      have hsplit : dir_count s0 ip - k = (k' - k) + ((dir_count s0 ip - (k' + 1)) + 1) := by
        omega
      rw [hsplit, dir_names_from_skip E s0 ip (k' - k) _ k
        (fun j h1 h2 => a3 j h1 (by omega))]
      rw [show k + (k' - k) = k' by omega, dir_names_from, if_pos a4]
    · rw [a3]
      simp only []
      rw [a2, dir_names_from_free E s0 ip _ k (fun j h1 h2 => a1 j h1 (by omega))]


/-! ## Theorems: writes to a directory -/

theorem pos_split (q : Int) (L : Nat) (h0 : 0 ≤ q) (h1 : q < 512 * L) :
    (q / 512).toNat < L ∧ (q % 512).toNat < 512 ∧
    ((q / 512).toNat : Int) * 512 + ((q % 512).toNat : Int) = q := by
  omega

theorem pos_same (q q' : Int) (h0 : 0 ≤ q) (h0' : 0 ≤ q')
    (h1 : (q / 512).toNat = (q' / 512).toNat) (h2 : (q % 512).toNat = (q' % 512).toNat) :
    q = q' := by
  omega

/-- The stream of an inode after a write that succeeds. -/
theorem inode_write_at_bytes (E : Env) (hp : pick_sound E)
    (hinj : Function.Injective E.cluster_to_sector) (s : FS) (ip : Nat)
    (buffer : Nat → Nat) (size offset : Int) (L L' : Nat)
    (hd : (s.heap ip).deny_write_cnt = 0) (hs : 0 ≤ size) (ho : 0 ≤ offset)
    (hm : E.malloc_ok s.mallocs = true)
    (hwf : chain_wf E s.fat (chain_start E s ip) L)
    (hwf' : chain_wf E (inode_write_at E s ip buffer size offset).1.fat (chain_start E s ip) L')
    (hcov : offset + size ≤ 512 * L') :
    (inode_write_at E s ip buffer size offset).2 = size ∧ L ≤ L' ∧
    (∀ q : Int, offset ≤ q → q < offset + size →
      inode_byte E (inode_write_at E s ip buffer size offset).1 ip q
        = buffer (q - offset).toNat) ∧
    (∀ q : Int, 0 ≤ q → q < 512 * L → ¬ (offset ≤ q ∧ q < offset + size) →
      inode_byte E (inode_write_at E s ip buffer size offset).1 ip q = inode_byte E s ip q) := by
  have W := inode_write_at_spec E hp s ip buffer size offset L hd hs ho hm hwf
  obtain ⟨fa, fb, fc, fd⟩ := inode_write_at_frame E s ip buffer size offset
  revert W fa fb fc fd hwf'
  generalize inode_write_at E s ip buffer size offset = w
  intro hwf' W fa fb fc fd
  obtain ⟨w1, ⟨L1, wf1, hL1, pre1⟩, w3⟩ := W
  have hLL : L1 = L' := chain_wf_unique E _ _ _ _ wf1 hwf'
  subst hLL
  have hstart : chain_start E w.1 ip = chain_start E s ip := by
    unfold chain_start; rw [fb]
  obtain ⟨t1, t2⟩ := w3 L1 hwf' hcov
  have hci := chain_inj_of_wf E hinj _ _ _ hwf'
  refine ⟨by rw [w1]; omega, hL1, fun q hq1 hq2 => ?_, fun q hq0 hq1 hq2 => ?_⟩
  · unfold inode_byte stream_byte
    rw [hstart, t2 hci q hq1 hq2]
    congr 1
    omega
  · unfold inode_byte stream_byte
    rw [hstart]
    obtain ⟨a1, a2, a3⟩ := pos_split q L hq0 hq1
    have hsec : sector_at E w.1.fat (chain_start E s ip) (q / 512).toNat
        = sector_at E s.fat (chain_start E s ip) (q / 512).toNat := by
      unfold sector_at; rw [pre1 _ a1]
    rw [← hsec]
    apply t1
    intro q' h1 h2 hc
    have hi := hci _ _ (by omega) (by omega) hc.1
    exact hq2 (by rw [pos_same q q' hq0 (by omega) hi hc.2]; exact ⟨h1, h2⟩)

theorem le32_le_byte (e : Nat → Nat) (v : Nat) (h : ∀ i, i < 4 → e i = le_byte v i) :
    le32 e 0 = v % 4294967296 := by
  unfold le32
  rw [h 0 (by omega), h 1 (by omega), h 2 (by omega), h 3 (by omega)]
  unfold le_byte
  norm_num
  omega

theorem str_eq_set_name (name : List Nat) :
    ∀ (e : Nat → Nat) (base : Nat),
      (∀ i, i < name.length → e (base + i) = name.getD i 0) → e (base + name.length) = 0 →
      str_eq name e base = true := by
  induction name with
  | nil =>
    intro e base _ h0
    simp only [List.length_nil, Nat.add_zero] at h0
    simp [str_eq, h0]
  | cons c cs ih =>
    intro e base h h0
    rw [str_eq]
    have hc : e base = c := by
      have := h 0 (by simp)
      simpa using this
    rw [hc]
    simp only [decide_True, Bool.true_and]
    apply ih
    · intro i hi
      have := h (i + 1) (by simp; omega)
      rw [show base + (i + 1) = base + 1 + i by omega] at this
      rw [this]
      simp
    · rw [show base + 1 + cs.length = base + (c :: cs).length by simp; omega]
      exact h0

/-- The record that `dir_add` writes. -/
theorem new_record_facts (e : Nat → Nat) (name : List Nat) (sector : Nat)
    (hlen : name.length ≤ NAME_MAX) (hsec : sector < 4294967296) :
    e_in_use (set_inode_sector (set_name (set_in_use e true) name) sector) = true ∧
    str_eq name (set_inode_sector (set_name (set_in_use e true) name) sector) 4 = true ∧
    e_inode_sector (set_inode_sector (set_name (set_in_use e true) name) sector) = sector := by
  simp only [NAME_MAX] at hlen
  have hmin : min name.length NAME_MAX = name.length := by simp only [NAME_MAX]; omega
  refine ⟨?_, ?_, ?_⟩
  · unfold e_in_use set_inode_sector set_name set_in_use
    rw [hmin]
    rw [if_neg (by omega), if_neg (by omega), if_neg (by omega)]
    simp
  · apply str_eq_set_name
    · intro i hi
      unfold set_inode_sector set_name
      rw [hmin, if_neg (by omega), if_pos (by omega)]
      congr 1
      omega
    · unfold set_inode_sector set_name
      rw [hmin, if_neg (by omega), if_neg (by omega), if_pos rfl]
  · unfold e_inode_sector
    rw [le32_le_byte _ sector (fun i hi => by unfold set_inode_sector; rw [if_pos hi])]
    omega

theorem str_eq_inj (n1 : List Nat) :
    ∀ (n2 : List Nat) (e : Nat → Nat) (base : Nat), (∀ c, c ∈ n1 → c ≠ 0) →
      (∀ c, c ∈ n2 → c ≠ 0) → str_eq n1 e base = true → str_eq n2 e base = true → n1 = n2 := by
  induction n1 with
  | nil =>
    intro n2 e base _ h2 a b
    cases n2 with
    | nil => rfl
    | cons c cs =>
      simp [str_eq] at a b
      exact absurd (b.1.symm.trans a) (h2 c (by simp))
  | cons c cs ih =>
    intro n2 e base h1 h2 a b
    cases n2 with
    | nil =>
      simp [str_eq] at a b
      exact absurd (a.1.symm.trans b) (h1 c (by simp))
    | cons c' cs' =>
      simp [str_eq] at a b
      have hc : c = c' := a.1.symm.trans b.1
      rw [hc, ih cs' e (base + 1) (fun x hx => h1 x (by simp [hx]))
        (fun x hx => h2 x (by simp [hx])) a.2 b.2]


theorem dir_len_after (len : Int) (k K : Nat) (_h0 : 0 ≤ len) (hK : K = (len / 20).toNat)
    (hk : k ≤ K) :
    ((max len (20 * (k : Int) + 20)) / 20).toNat = max K (k + 1) ∧
    (k < K → max len (20 * (k : Int) + 20) = len) := by
  omega

/-- A write of one record at slot `k` of a directory. -/
theorem dir_write_entry (E : Env) (hp : pick_sound E)
    (hinj : Function.Injective E.cluster_to_sector) (ip : Nat) (L : Nat) (s0 s : FS)
    (e : Nat → Nat) (k : Nat) (hrel : scan_rel E ip L s0 s) (hwf : dir_wf E s0 ip L)
    (hm : mem_ok E s0) (hd : (s0.heap ip).deny_write_cnt = 0) (hk : k ≤ dir_count s0 ip)
    (hcov : ∀ L', chain_wf E (inode_write_at E s ip e 20 (20 * (k : Int))).1.fat
      (chain_start E s0 ip) L' → 20 * (k : Int) + 20 ≤ 512 * L') :
    (inode_write_at E s ip e 20 (20 * (k : Int))).2 = 20 ∧
    (∃ L', dir_wf E (inode_write_at E s ip e 20 (20 * (k : Int))).1 ip L' ∧ L ≤ L') ∧
    dir_count (inode_write_at E s ip e 20 (20 * (k : Int))).1 ip
      = max (dir_count s0 ip) (k + 1) ∧
    (∀ i, i < 20 → dir_entry_at E (inode_write_at E s ip e 20 (20 * (k : Int))).1 ip k i = e i) ∧
    (∀ j, j < dir_count s0 ip → j ≠ k →
      dir_entry_at E (inode_write_at E s ip e 20 (20 * (k : Int))).1 ip j
        = dir_entry_at E s0 ip j) := by
  have hstart := scan_rel_start E ip L s0 s hrel
  have hlen := scan_rel_length E ip L s0 s hrel
  have hbyte := scan_rel_byte E ip L s0 s hrel
  obtain ⟨h1, h2, h3, h4, L1, wf1, hL1, pre1⟩ := hrel
  obtain ⟨_, hl0, hl1⟩ := hwf
  have hd' : (s.heap ip).deny_write_cnt = 0 := by rw [h1]; exact hd
  have W := inode_write_at_spec E hp s ip e 20 (20 * (k : Int)) L1 hd' (by omega) (by omega)
    (hm _ h4) (by rw [hstart]; exact wf1)
  obtain ⟨fa, fb, fc, fd⟩ := inode_write_at_frame E s ip e 20 (20 * (k : Int))
  have B := inode_write_at_bytes E hp hinj s ip e 20 (20 * (k : Int)) L1
  revert W fa fb fc fd hcov B
  generalize inode_write_at E s ip e 20 (20 * (k : Int)) = w
  intro hcov W fa fb fc fd B
  obtain ⟨_, ⟨L2, wf2, hL2, _⟩, _⟩ := W
  rw [hstart] at wf2
  have hc2 := hcov L2 wf2
  obtain ⟨b1, _, b3, b4⟩ := B L2 hd' (by omega) (by omega) (hm _ h4)
    (by rw [hstart]; exact wf1) (by rw [hstart]; exact wf2) (by omega)
  have hstart2 : chain_start E w.1 ip = chain_start E s0 ip := by
    unfold chain_start; rw [fb, ← h1]
  have hlen2 : inode_length w.1 ip = max (inode_length s0 ip) (20 * (k : Int) + 20) := by
    unfold inode_length; rw [fb]
    show (if _ then _ else _) = _
    have : (s.heap ip).data.length = (s0.heap ip).data.length := by rw [h1]
    rw [this]
    by_cases h : 20 * (k : Int) + 20 > (s0.heap ip).data.length
    · rw [if_pos ⟨hd', h⟩]; omega
    · rw [if_neg (fun hh => h hh.2)]; omega
  obtain ⟨c1, c2⟩ := dir_len_after (inode_length s0 ip) k (dir_count s0 ip) hl0 rfl hk
  refine ⟨b1, ⟨L2, ⟨by rw [hstart2]; exact wf2, by rw [hlen2]; omega, ?_⟩, by omega⟩, ?_, ?_, ?_⟩
  · rw [hlen2]
    by_cases hkK : k < dir_count s0 ip
    · rw [c2 hkK]; omega
    · have : (dir_count s0 ip : Int) = (inode_length s0 ip / 20).toNat := rfl
      omega
  · unfold dir_count; rw [hlen2]; exact c1
  · intro i hi
    unfold dir_entry_at
    rw [if_pos hi, b3 _ (by omega) (by omega)]
    congr 1
    omega
  · intro j hj hjk
    funext i
    unfold dir_entry_at
    by_cases hi : i < 20
    · rw [if_pos hi, if_pos hi]
      have hjK : 20 * (j : Int) + 20 ≤ inode_length s0 ip :=
        ((dir_count_lt s0 ip j hl0).1).1 hj
      rw [b4 _ (by omega) (by omega) (by omega)]
      exact hbyte _ (by omega) (by omega)
    · rw [if_neg hi, if_neg hi]

theorem str_eq_congr (name : List Nat) :
    ∀ (a b : Nat → Nat) (base : Nat), (∀ i, base ≤ i → i ≤ base + name.length → a i = b i) →
      str_eq name a base = str_eq name b base := by
  induction name with
  | nil =>
    intro a b base h
    rw [str_eq, str_eq, h base (le_refl _) (by simp)]
  | cons c cs ih =>
    intro a b base h
    rw [str_eq, str_eq, h base (le_refl _) (by simp)]
    rw [ih a b (base + 1) (fun i h1 h2 => h i (by omega) (by simp at h2 ⊢; omega))]

/-- The fields of a record depend on its 20 bytes only. -/
theorem entry_fields_congr (a b : Nat → Nat) (name : List Nat) (hlen : name.length ≤ NAME_MAX)
    (h : ∀ i, i < 20 → a i = b i) :
    e_in_use a = e_in_use b ∧ str_eq name a 4 = str_eq name b 4 ∧
    e_inode_sector a = e_inode_sector b := by
  simp only [NAME_MAX] at hlen
  refine ⟨?_, ?_, ?_⟩
  · unfold e_in_use; rw [h 19 (by omega)]
  · exact str_eq_congr name a b 4 (fun i h1 h2 => h i (by omega))
  · unfold e_inode_sector le32
    rw [h 0 (by omega), h 1 (by omega), h 2 (by omega), h 3 (by omega)]

theorem lookup_spec (E : Env) (hp : pick_sound E) (ip : Nat) (pos : Int) (name : List Nat)
    (L : Nat) (s0 : FS) (hwf : dir_wf E s0 ip L) (hm : mem_ok E s0) :
    scan_rel E ip L s0 (lookup E s0 { inode := ip, pos := pos } name).1 ∧
    ((∃ k', k' < dir_count s0 ip ∧
        (∀ j, j < k' → ¬ entry_match name (dir_entry_at E s0 ip j)) ∧
        entry_match name (dir_entry_at E s0 ip k') ∧
        (lookup E s0 { inode := ip, pos := pos } name).2.1 = true ∧
        (lookup E s0 { inode := ip, pos := pos } name).2.2.1 = dir_entry_at E s0 ip k' ∧
        (lookup E s0 { inode := ip, pos := pos } name).2.2.2 = 20 * (k' : Int)) ∨
     ((∀ j, j < dir_count s0 ip → ¬ entry_match name (dir_entry_at E s0 ip j)) ∧
        (lookup E s0 { inode := ip, pos := pos } name).2.1 = false)) := by
  have h := lookup_loop_spec E hp ip name L s0 hwf hm
    ((inode_length s0 ip / DIR_ENTRY_SIZE).toNat + 1) s0 (fun _ => 0) 0
    (lookup E s0 { inode := ip, pos := pos } name) (by unfold lookup; simp)
    (scan_rel_refl E ip L s0 hwf.1) (Nat.zero_le _)
    (by unfold dir_count; simp only [DIR_ENTRY_SIZE]; omega) (fun _ _ => rfl)
  obtain ⟨h1, h2⟩ := h
  refine ⟨h1, ?_⟩
  rcases h2 with ⟨k', _, a2, a3, a4, a5, a6, a7⟩ | ⟨a1, a2⟩
  · exact Or.inl ⟨k', a2, fun j hj => a3 j (Nat.zero_le _) hj, a4, a5, a6, a7⟩
  · exact Or.inr ⟨fun j hj => a1 j (Nat.zero_le _) hj, a2⟩

/-- The state that `dir_add` reaches when the name is valid and not present: the record is
written at the first free slot, or at the end when every record is in use. -/
theorem dir_add_spec (E : Env) (hp : pick_sound E)
    (hinj : Function.Injective E.cluster_to_sector) (ip : Nat) (pos : Int) (name : List Nat)
    (sector : Nat) (e0 : Nat → Nat) (L : Nat) (s0 : FS)
    (hwf : dir_wf E s0 ip L) (hm : mem_ok E s0) (hd : (s0.heap ip).deny_write_cnt = 0)
    (hne : name ≠ []) (hlen : name.length ≤ NAME_MAX) (hsec : sector < 4294967296)
    (hnew : ∀ j, j < dir_count s0 ip → ¬ entry_match name (dir_entry_at E s0 ip j))
    (hcov : (∀ j, j < dir_count s0 ip → e_in_use (dir_entry_at E s0 ip j) = true) →
      ∀ L', chain_wf E (dir_add E s0 { inode := ip, pos := pos } name sector e0).1.fat
        (chain_start E s0 ip) L' → 20 * (dir_count s0 ip : Int) + 20 ≤ 512 * L') :
    (dir_add E s0 { inode := ip, pos := pos } name sector e0).2 = true ∧
    ∃ k, k ≤ dir_count s0 ip ∧
      (∀ j, j < k → e_in_use (dir_entry_at E s0 ip j) = true) ∧
      (k < dir_count s0 ip → e_in_use (dir_entry_at E s0 ip k) = false) ∧
      (∃ L', dir_wf E (dir_add E s0 { inode := ip, pos := pos } name sector e0).1 ip L' ∧
        L ≤ L') ∧
      dir_count (dir_add E s0 { inode := ip, pos := pos } name sector e0).1 ip
        = max (dir_count s0 ip) (k + 1) ∧
      entry_match name
        (dir_entry_at E (dir_add E s0 { inode := ip, pos := pos } name sector e0).1 ip k) ∧
      e_inode_sector
        (dir_entry_at E (dir_add E s0 { inode := ip, pos := pos } name sector e0).1 ip k)
          = sector ∧
      (∀ j, j < dir_count s0 ip → j ≠ k →
        dir_entry_at E (dir_add E s0 { inode := ip, pos := pos } name sector e0).1 ip j
          = dir_entry_at E s0 ip j) ∧
      (∀ a, a ≠ ip →
        (dir_add E s0 { inode := ip, pos := pos } name sector e0).1.heap a = s0.heap a) ∧
      ((dir_add E s0 { inode := ip, pos := pos } name sector e0).1.heap ip).deny_write_cnt
        = 0 ∧
      (dir_add E s0 { inode := ip, pos := pos } name sector e0).1.open_inodes
        = s0.open_inodes ∧
      s0.mallocs ≤ (dir_add E s0 { inode := ip, pos := pos } name sector e0).1.mallocs := by
  obtain ⟨lrel, lalt⟩ := lookup_spec E hp ip pos name L s0 hwf hm
  have hdef : dir_add E s0 { inode := ip, pos := pos } name sector e0 =
      ((inode_write_at E
          (dir_add_loop E ip
            ((inode_length (lookup E s0 { inode := ip, pos := pos } name).1 ip
              / DIR_ENTRY_SIZE).toNat + 1)
            (lookup E s0 { inode := ip, pos := pos } name).1 e0 0).1 ip
          (set_inode_sector (set_name (set_in_use
            (dir_add_loop E ip
              ((inode_length (lookup E s0 { inode := ip, pos := pos } name).1 ip
                / DIR_ENTRY_SIZE).toNat + 1)
              (lookup E s0 { inode := ip, pos := pos } name).1 e0 0).2.1 true) name) sector)
          DIR_ENTRY_SIZE
          (dir_add_loop E ip
            ((inode_length (lookup E s0 { inode := ip, pos := pos } name).1 ip
              / DIR_ENTRY_SIZE).toNat + 1)
            (lookup E s0 { inode := ip, pos := pos } name).1 e0 0).2.2).1,
        decide ((inode_write_at E
          (dir_add_loop E ip
            ((inode_length (lookup E s0 { inode := ip, pos := pos } name).1 ip
              / DIR_ENTRY_SIZE).toNat + 1)
            (lookup E s0 { inode := ip, pos := pos } name).1 e0 0).1 ip
          (set_inode_sector (set_name (set_in_use
            (dir_add_loop E ip
              ((inode_length (lookup E s0 { inode := ip, pos := pos } name).1 ip
                / DIR_ENTRY_SIZE).toNat + 1)
              (lookup E s0 { inode := ip, pos := pos } name).1 e0 0).2.1 true) name) sector)
          DIR_ENTRY_SIZE
          (dir_add_loop E ip
            ((inode_length (lookup E s0 { inode := ip, pos := pos } name).1 ip
              / DIR_ENTRY_SIZE).toNat + 1)
            (lookup E s0 { inode := ip, pos := pos } name).1 e0 0).2.2).2 = DIR_ENTRY_SIZE)) := by
    have hfalse : (lookup E s0 { inode := ip, pos := pos } name).2.1 = false := by
      rcases lalt with ⟨k', a2, _, a4, _⟩ | ⟨_, a2⟩
      · exact absurd a4 (hnew k' a2)
      · exact a2
    unfold dir_add
    rw [if_neg (by simp only [not_or, not_lt]; exact ⟨hne, hlen⟩)]
    simp only [hfalse, Bool.false_eq_true, if_false]
  rw [hdef] at hcov ⊢
  clear hdef lalt
  revert lrel hcov
  generalize (lookup E s0 { inode := ip, pos := pos } name).1 = s1
  intro hcov lrel
  have hlen1 := scan_rel_length E ip L s0 s1 lrel
  have hfuel : dir_count s0 ip - 0 < (inode_length s1 ip / DIR_ENTRY_SIZE).toNat + 1 := by
    rw [hlen1]; unfold dir_count; simp only [DIR_ENTRY_SIZE]; omega
  have e0' : (0 : Int) = 20 * ((0 : Nat) : Int) := by simp
  have S := dir_add_loop_spec E hp ip L s0 hwf hm _ s1 e0 0
    (dir_add_loop E ip ((inode_length s1 ip / DIR_ENTRY_SIZE).toNat + 1) s1 e0 0)
    (by rw [← e0']) lrel (Nat.zero_le _) hfuel
  revert S hcov
  generalize dir_add_loop E ip ((inode_length s1 ip / DIR_ENTRY_SIZE).toNat + 1) s1 e0 0 = sc
  intro hcov S
  obtain ⟨srel, salt⟩ := S
  have hk : ∃ k, k ≤ dir_count s0 ip ∧ sc.2.2 = 20 * (k : Int) ∧
      (∀ j, j < k → e_in_use (dir_entry_at E s0 ip j) = true) ∧
      (k < dir_count s0 ip → e_in_use (dir_entry_at E s0 ip k) = false) ∧
      (k = dir_count s0 ip →
        ∀ j, j < dir_count s0 ip → e_in_use (dir_entry_at E s0 ip j) = true) := by
    rcases salt with ⟨k', _, a2, a3, a4, a5⟩ | ⟨a1, a2⟩
    · exact ⟨k', by omega, a5, fun j hj => a3 j (Nat.zero_le _) hj, fun _ => a4,
        fun h => by omega⟩
    · exact ⟨dir_count s0 ip, le_refl _, a2, fun j hj => a1 j (Nat.zero_le _) hj,
        fun h => by omega, fun _ j hj => a1 j (Nat.zero_le _) hj⟩
  obtain ⟨k, hk1, hk2, hk3, hk4, hk5⟩ := hk
  rw [hk2] at hcov ⊢
  simp only [DIR_ENTRY_SIZE] at hcov ⊢
  have hl0 := hwf.2.1
  have hl1 := hwf.2.2
  have hcov' : ∀ L', chain_wf E (inode_write_at E sc.1 ip
      (set_inode_sector (set_name (set_in_use sc.2.1 true) name) sector) 20
      (20 * (k : Int))).1.fat (chain_start E s0 ip) L' → 20 * (k : Int) + 20 ≤ 512 * L' := by
    intro L' hwf'
    by_cases hkK : k < dir_count s0 ip
    · have hd' : (sc.1.heap ip).deny_write_cnt = 0 := by rw [srel.1]; exact hd
      obtain ⟨_, _, _, _, L1, wf1, hL1, _⟩ := srel
      have W := inode_write_at_spec E hp sc.1 ip
        (set_inode_sector (set_name (set_in_use sc.2.1 true) name) sector) 20 (20 * (k : Int))
        L1 hd' (by omega) (by omega) (hm _ (by assumption))
        (by rw [show chain_start E sc.1 ip = chain_start E s0 ip by
              unfold chain_start; rw [show sc.1.heap = s0.heap by assumption]]; exact wf1)
      obtain ⟨_, ⟨L2, wf2, hL2, _⟩, _⟩ := W
      rw [show chain_start E sc.1 ip = chain_start E s0 ip by
              unfold chain_start; rw [show sc.1.heap = s0.heap by assumption]] at wf2
      have := chain_wf_unique E _ _ _ _ wf2 hwf'
      have := ((dir_count_lt s0 ip k hl0).1).1 hkK
      omega
    · have hkK' : k = dir_count s0 ip := by omega
      have := hcov (hk5 hkK') L' hwf'
      rw [hkK']; exact this
  have D := dir_write_entry E hp hinj ip L s0 sc.1
    (set_inode_sector (set_name (set_in_use sc.2.1 true) name) sector) k srel hwf hm hd hk1 hcov'
  obtain ⟨fa, fb, fc, fd⟩ := inode_write_at_frame E sc.1 ip
    (set_inode_sector (set_name (set_in_use sc.2.1 true) name) sector) 20 (20 * (k : Int))
  revert D fa fb fc fd
  generalize inode_write_at E sc.1 ip
    (set_inode_sector (set_name (set_in_use sc.2.1 true) name) sector) 20 (20 * (k : Int)) = w
  intro D fa fb fc fd
  obtain ⟨d1, d2, d3, d4, d5⟩ := D
  obtain ⟨n1, n2, n3⟩ := new_record_facts sc.2.1 name sector hlen hsec
  obtain ⟨g1, g2, g3⟩ := entry_fields_congr (dir_entry_at E w.1 ip k)
    (set_inode_sector (set_name (set_in_use sc.2.1 true) name) sector) name hlen d4
  refine ⟨by simp [d1], k, hk1, hk3, hk4, d2, d3, ⟨by rw [g1]; exact n1, by rw [g2]; exact n2⟩,
    by rw [g3]; exact n3, d5, fun a ha => ?_, ?_, ?_, ?_⟩
  · rw [fa a ha, srel.1]
  · rw [fb]
    show (sc.1.heap ip).deny_write_cnt = 0
    rw [srel.1]; exact hd
  · rw [fc, srel.2.2.1]
  · exact le_trans srel.2.2.2.1 fd


/-! ## Theorems: claims about directories -/

theorem dir_names_from_pos (E : Env) (s : FS) (ip : Nat) :
    ∀ (m k : Nat),
      List.Pairwise (fun a b => a < b) ((dir_names_from E s ip m k).map Prod.snd) ∧
      ∀ p, p ∈ (dir_names_from E s ip m k).map Prod.snd →
        20 * (k : Int) < p ∧ p ≤ 20 * ((k + m : Nat) : Int) := by
  intro m
  induction m with
  | zero =>
    intro k
    exact ⟨List.Pairwise.nil, fun p hp => by simp [dir_names_from] at hp⟩
  | succ m ih =>
    intro k
    obtain ⟨h1, h2⟩ := ih (k + 1)
    rw [dir_names_from]
    by_cases hu : e_in_use (dir_entry_at E s ip k) = true
    · rw [if_pos hu, List.map_cons]
      refine ⟨List.Pairwise.cons (fun b hb => ?_) h1, fun p hp => ?_⟩
      · have := (h2 b hb).1
        show 20 * ((k + 1 : Nat) : Int) < b
        exact this
      · rcases List.mem_cons.1 hp with hp | hp
        · rw [hp]
          show 20 * (k : Int) < 20 * ((k + 1 : Nat) : Int) ∧
            20 * ((k + 1 : Nat) : Int) ≤ 20 * ((k + (m + 1) : Nat) : Int)
          push_cast; omega
        · obtain ⟨a, b⟩ := h2 p hp
          push_cast at a b ⊢; omega
    · rw [if_neg hu]
      refine ⟨h1, fun p hp => ?_⟩
      obtain ⟨a, b⟩ := h2 p hp
      push_cast at a b ⊢; omega

/-- C6 (amended): enumeration of a directory.  For a consistent directory inode whose cursor
is at 0, when every staging buffer is allocated, repeated calls of `dir_readdir` until it
returns false yield exactly the names of the records with `in_use` true, each once, in
ascending order of their offset; the run ends by a call that returns false, with the cursor at
the end of the last whole record, and the cursor positions after the calls increase. -/
theorem dir_readdir_enumerates (E : Env) (s : FS) (ip : Nat) (L : Nat) (n : Nat)
    (hp : pick_sound E) (hwf : dir_wf E s ip L) (hm : mem_ok E s)
    (hn : dir_count s ip < n) :
    dir_enumerate E n s { inode := ip, pos := 0 }
      = (dir_names_from E s ip (dir_count s ip) 0, 20 * (dir_count s ip : Int), true) ∧
    List.Pairwise (fun a b => a < b)
      ((dir_enumerate E n s { inode := ip, pos := 0 }).1.map Prod.snd) ∧
    ∀ p, p ∈ (dir_enumerate E n s { inode := ip, pos := 0 }).1.map Prod.snd →
      0 < p ∧ p ≤ (dir_enumerate E n s { inode := ip, pos := 0 }).2.1 := by
  have h := dir_enumerate_spec E hp ip L s hwf hm n s 0 (scan_rel_refl E ip L s hwf.1)
    (Nat.zero_le _) (by omega)
  have e0 : (20 : Int) * ((0 : Nat) : Int) = 0 := by simp
  rw [e0, Nat.sub_zero] at h
  rw [h]
  obtain ⟨a, b⟩ := dir_names_from_pos E s ip (dir_count s ip) 0
  refine ⟨rfl, a, fun p hp => ?_⟩
  have := b p hp
  simp only [Nat.zero_add] at this
  show 0 < p ∧ p ≤ 20 * (dir_count s ip : Int)
  omega

/-- C6 (amended), at a concrete input: the directory from which `"a"` was removed and which
still holds `"b"`. -/
theorem dir_readdir_enumerates_witness :
    dir_enumerate demo_env 3 demo_fs_b { inode := 1, pos := 0 }
      = (dir_names_from demo_env demo_fs_b 1 (dir_count demo_fs_b 1) 0,
          20 * (dir_count demo_fs_b 1 : Int), true) ∧
    List.Pairwise (fun a b => a < b)
      ((dir_enumerate demo_env 3 demo_fs_b { inode := 1, pos := 0 }).1.map Prod.snd) ∧
    ∀ p, p ∈ (dir_enumerate demo_env 3 demo_fs_b { inode := 1, pos := 0 }).1.map Prod.snd →
      0 < p ∧ p ≤ (dir_enumerate demo_env 3 demo_fs_b { inode := 1, pos := 0 }).2.1 :=
  dir_readdir_enumerates demo_env demo_fs_b 1 1 3 demo_pick_sound
    (by unfold dir_wf chain_wf; decide) (demo_mem_ok _) (by decide)

/-- C6 as stated fails: when the staging buffer cannot be allocated, the first call of
`dir_readdir` returns false although the record of `"b"` is in use, and no name is returned. -/
theorem dir_readdir_enumerates_counterexample :
    e_in_use (dir_entry_at demo_env_oom demo_fs_b 1 1) = true ∧
    dir_names_from demo_env_oom demo_fs_b 1 (dir_count demo_fs_b 1) 0 = [([98], 40)] ∧
    dir_enumerate demo_env_oom 3 demo_fs_b { inode := 1, pos := 0 } = ([], 0, true) := by
  decide

theorem dir_add_invalid (E : Env) (s : FS) (d : dir) (name : List Nat) (sector : Nat)
    (e0 : Nat → Nat) (h : name = [] ∨ name.length > NAME_MAX) :
    dir_add E s d name sector e0 = (s, false) := by
  unfold dir_add
  rw [if_pos h]

theorem dir_add_present (E : Env) (s : FS) (d : dir) (name : List Nat) (sector : Nat)
    (e0 : Nat → Nat) (hv : ¬ (name = [] ∨ name.length > NAME_MAX))
    (h : (lookup E s d name).2.1 = true) :
    dir_add E s d name sector e0 = ((lookup E s d name).1, false) := by
  unfold dir_add
  rw [if_neg hv]
  simp only [h, if_true]

/-- What `dir_add` does for a name it must reject, when the staging buffers of its scan are
allocated.  When the name is empty or longer than `NAME_MAX`, or when it names an in-use
record of a consistent directory and the staging buffers of the scan are allocated, `dir_add`
returns false, and the device, the heap, the recorded length and every byte of the
directory's stream are the same after the call. -/
theorem dir_add_rejects (E : Env) (s : FS) (d : dir) (name : List Nat) (sector : Nat)
    (e0 : Nat → Nat) (L : Nat)
    (h : (name = [] ∨ name.length > NAME_MAX) ∨
      (pick_sound E ∧ dir_wf E s d.inode L ∧ mem_ok E s ∧
        ∃ j, j < dir_count s d.inode ∧ entry_match name (dir_entry_at E s d.inode j))) :
    (dir_add E s d name sector e0).2 = false ∧
    (dir_add E s d name sector e0).1.disk = s.disk ∧
    (dir_add E s d name sector e0).1.heap = s.heap ∧
    inode_length (dir_add E s d name sector e0).1 d.inode = inode_length s d.inode ∧
    ∀ q : Int, 0 ≤ q → q < inode_length s d.inode →
      inode_byte E (dir_add E s d name sector e0).1 d.inode q = inode_byte E s d.inode q := by
  by_cases hv : name = [] ∨ name.length > NAME_MAX
  · rw [dir_add_invalid E s d name sector e0 hv]
    exact ⟨rfl, rfl, rfl, rfl, fun _ _ _ => rfl⟩
  · rcases h with h | ⟨hp, hwf, hm, j, hj, hmatch⟩
    · exact absurd h hv
    · obtain ⟨lrel, lalt⟩ := lookup_spec E hp d.inode d.pos name L s hwf hm
      have hfound : (lookup E s d name).2.1 = true := by
        rcases lalt with ⟨_, _, _, _, a5, _⟩ | ⟨a1, _⟩
        · exact a5
        · exact absurd hmatch (a1 j hj)
      rw [dir_add_present E s d name sector e0 hv hfound]
      have hlen := scan_rel_length E d.inode L s _ lrel
      have hbyte := scan_rel_byte E d.inode L s _ lrel
      refine ⟨rfl, lrel.2.1, lrel.1, hlen, fun q h0 h1 => hbyte q h0 ?_⟩
      have := hwf.2.2
      omega

/-- The rejection at a concrete input: a second `dir_add` of `"a"`, every allocation
succeeding. -/
theorem dir_add_rejects_witness :
    (dir_add demo_env demo_fs_a demo_dir [97] 12 (fun _ => 0)).2 = false ∧
    (dir_add demo_env demo_fs_a demo_dir [97] 12 (fun _ => 0)).1.disk = demo_fs_a.disk ∧
    (dir_add demo_env demo_fs_a demo_dir [97] 12 (fun _ => 0)).1.heap = demo_fs_a.heap ∧
    inode_length (dir_add demo_env demo_fs_a demo_dir [97] 12 (fun _ => 0)).1 demo_dir.inode
      = inode_length demo_fs_a demo_dir.inode ∧
    ∀ q : Int, 0 ≤ q → q < inode_length demo_fs_a demo_dir.inode →
      inode_byte demo_env (dir_add demo_env demo_fs_a demo_dir [97] 12 (fun _ => 0)).1
        demo_dir.inode q = inode_byte demo_env demo_fs_a demo_dir.inode q :=
  dir_add_rejects demo_env demo_fs_a demo_dir [97] 12 (fun _ => 0) 1
    (Or.inr ⟨demo_pick_sound, by unfold dir_wf chain_wf; decide, demo_mem_ok _,
      0, by decide, by unfold entry_match; decide⟩)

/-- C3, the code at the failing input: in the directory whose record at offset 0 is in use
with the name `"a"`, when the staging buffer of the first read of `lookup` cannot be allocated
and the later allocations succeed, `dir_add` of `"a"` for sector 12 returns true and the
directory grows from 20 to 40 bytes by a second record in use with the name `"a"`; when every
allocation fails the same call returns false. -/
theorem dir_add_rejects_counterexample :
    e_in_use (dir_entry_at demo_env demo_fs_a 1 0) = true ∧
    str_eq [97] (dir_entry_at demo_env demo_fs_a 1 0) 4 = true ∧
    0 < dir_count demo_fs_a 1 ∧
    (dir_add (demo_env_fail demo_fs_a.mallocs) demo_fs_a demo_dir [97] 12 (fun _ => 0)).2
      = true ∧
    inode_length demo_fs_a 1 = 20 ∧
    inode_length
      (dir_add (demo_env_fail demo_fs_a.mallocs) demo_fs_a demo_dir [97] 12 (fun _ => 0)).1 1
      = 40 ∧
    e_in_use (dir_entry_at demo_env
      (dir_add (demo_env_fail demo_fs_a.mallocs) demo_fs_a demo_dir [97] 12 (fun _ => 0)).1
      1 0) = true ∧
    str_eq [97] (dir_entry_at demo_env
      (dir_add (demo_env_fail demo_fs_a.mallocs) demo_fs_a demo_dir [97] 12 (fun _ => 0)).1
      1 0) 4 = true ∧
    e_in_use (dir_entry_at demo_env
      (dir_add (demo_env_fail demo_fs_a.mallocs) demo_fs_a demo_dir [97] 12 (fun _ => 0)).1
      1 1) = true ∧
    str_eq [97] (dir_entry_at demo_env
      (dir_add (demo_env_fail demo_fs_a.mallocs) demo_fs_a demo_dir [97] 12 (fun _ => 0)).1
      1 1) 4 = true ∧
    e_inode_sector (dir_entry_at demo_env
      (dir_add (demo_env_fail demo_fs_a.mallocs) demo_fs_a demo_dir [97] 12 (fun _ => 0)).1
      1 1) = 12 ∧
    (dir_add demo_env_oom demo_fs_a demo_dir [97] 12 (fun _ => 0)).2 = false := by
  decide

/-- The scan of `dir_add` for a free slot, when the name is valid and not present: the write
that follows it is at the first free record, or at the end when every record is in use. -/
theorem dir_add_scan (E : Env) (hp : pick_sound E) (ip : Nat) (pos : Int) (name : List Nat)
    (sector : Nat) (e0 : Nat → Nat) (L : Nat) (s0 : FS)
    (hwf : dir_wf E s0 ip L) (hm : mem_ok E s0)
    (hv : ¬ (name = [] ∨ name.length > NAME_MAX))
    (hnew : ∀ j, j < dir_count s0 ip → ¬ entry_match name (dir_entry_at E s0 ip j)) :
    ∃ (sc : FS × (Nat → Nat) × Int) (k : Nat),
      scan_rel E ip L s0 sc.1 ∧ k ≤ dir_count s0 ip ∧
      (∀ j, j < k → e_in_use (dir_entry_at E s0 ip j) = true) ∧
      (k < dir_count s0 ip → e_in_use (dir_entry_at E s0 ip k) = false) ∧
      dir_add E s0 { inode := ip, pos := pos } name sector e0 =
        ((inode_write_at E sc.1 ip
            (set_inode_sector (set_name (set_in_use sc.2.1 true) name) sector) 20
            (20 * (k : Int))).1,
         decide ((inode_write_at E sc.1 ip
            (set_inode_sector (set_name (set_in_use sc.2.1 true) name) sector) 20
            (20 * (k : Int))).2 = 20)) := by
  obtain ⟨lrel, lalt⟩ := lookup_spec E hp ip pos name L s0 hwf hm
  have hfalse : (lookup E s0 { inode := ip, pos := pos } name).2.1 = false := by
    rcases lalt with ⟨k', a2, _, a4, _⟩ | ⟨_, a2⟩
    · exact absurd a4 (hnew k' a2)
    · exact a2
  have hlen1 := scan_rel_length E ip L s0 _ lrel
  have hfuel : dir_count s0 ip - 0 <
      (inode_length (lookup E s0 { inode := ip, pos := pos } name).1 ip
        / DIR_ENTRY_SIZE).toNat + 1 := by
    rw [hlen1]; unfold dir_count; simp only [DIR_ENTRY_SIZE]; omega
  have e0' : (0 : Int) = 20 * ((0 : Nat) : Int) := by simp
  have S := dir_add_loop_spec E hp ip L s0 hwf hm _
    (lookup E s0 { inode := ip, pos := pos } name).1 e0 0
    (dir_add_loop E ip
      ((inode_length (lookup E s0 { inode := ip, pos := pos } name).1 ip
        / DIR_ENTRY_SIZE).toNat + 1)
      (lookup E s0 { inode := ip, pos := pos } name).1 e0 0)
    (by rw [← e0']) lrel (Nat.zero_le _) hfuel
  obtain ⟨srel, salt⟩ := S
  have hk : ∃ k, k ≤ dir_count s0 ip ∧
      (dir_add_loop E ip
        ((inode_length (lookup E s0 { inode := ip, pos := pos } name).1 ip
          / DIR_ENTRY_SIZE).toNat + 1)
        (lookup E s0 { inode := ip, pos := pos } name).1 e0 0).2.2 = 20 * (k : Int) ∧
      (∀ j, j < k → e_in_use (dir_entry_at E s0 ip j) = true) ∧
      (k < dir_count s0 ip → e_in_use (dir_entry_at E s0 ip k) = false) := by
    rcases salt with ⟨k', _, a2, a3, a4, a5⟩ | ⟨a1, a2⟩
    · exact ⟨k', by omega, a5, fun j hj => a3 j (Nat.zero_le _) hj, fun _ => a4⟩
    · exact ⟨dir_count s0 ip, le_refl _, a2, fun j hj => a1 j (Nat.zero_le _) hj,
        fun h => by omega⟩
  obtain ⟨k, hk1, hk2, hk3, hk4⟩ := hk
  refine ⟨_, k, srel, hk1, hk3, hk4, ?_⟩
  rw [← hk2]
  unfold dir_add
  rw [if_neg hv]
  simp only [hfalse, Bool.false_eq_true, if_false, DIR_ENTRY_SIZE]

/-- What a successful `dir_add` tells: the name is valid and not present, and writes to the
directory inode are not denied. -/
theorem dir_add_true (E : Env) (hp : pick_sound E) (ip : Nat) (pos : Int) (name : List Nat)
    (sector : Nat) (e0 : Nat → Nat) (L : Nat) (s0 : FS)
    (hwf : dir_wf E s0 ip L) (hm : mem_ok E s0)
    (hsucc : (dir_add E s0 { inode := ip, pos := pos } name sector e0).2 = true) :
    name ≠ [] ∧ name.length ≤ NAME_MAX ∧
    (∀ j, j < dir_count s0 ip → ¬ entry_match name (dir_entry_at E s0 ip j)) ∧
    (s0.heap ip).deny_write_cnt = 0 := by
  by_cases hv : name = [] ∨ name.length > NAME_MAX
  · rw [dir_add_invalid E s0 _ name sector e0 hv] at hsucc
    exact absurd hsucc (by simp)
  have hnew : ∀ j, j < dir_count s0 ip → ¬ entry_match name (dir_entry_at E s0 ip j) := by
    intro j hj hmatch
    obtain ⟨_, lalt⟩ := lookup_spec E hp ip pos name L s0 hwf hm
    have hfound : (lookup E s0 { inode := ip, pos := pos } name).2.1 = true := by
      rcases lalt with ⟨_, _, _, _, a5, _⟩ | ⟨a1, _⟩
      · exact a5
      · exact absurd hmatch (a1 j hj)
    rw [dir_add_present E s0 _ name sector e0 hv hfound] at hsucc
    exact absurd hsucc (by simp)
  have hv' := hv
  simp only [not_or, not_lt] at hv'
  refine ⟨hv'.1, hv'.2, hnew, ?_⟩
  by_contra hd
  obtain ⟨sc, k, srel, _, _, _, heq⟩ :=
    dir_add_scan E hp ip pos name sector e0 L s0 hwf hm hv hnew
  rw [heq] at hsucc
  have hd' : (sc.1.heap ip).deny_write_cnt ≠ 0 := by rw [srel.1]; exact hd
  have : inode_write_at E sc.1 ip
      (set_inode_sector (set_name (set_in_use sc.2.1 true) name) sector) 20
      (20 * (k : Int)) = (sc.1, 0) := by
    unfold inode_write_at
    rw [if_pos hd']
  rw [this] at hsucc
  simp at hsucc

/-- A directory that is consistent after the `dir_add` of a valid name that is not present
has a chain that covers the record appended when every record was in use. -/
theorem dir_add_cover (E : Env) (hp : pick_sound E) (ip : Nat) (pos : Int) (name : List Nat)
    (sector : Nat) (e0 : Nat → Nat) (L : Nat) (s0 : FS)
    (hwf : dir_wf E s0 ip L) (hm : mem_ok E s0)
    (hv : ¬ (name = [] ∨ name.length > NAME_MAX))
    (hnew : ∀ j, j < dir_count s0 ip → ¬ entry_match name (dir_entry_at E s0 ip j))
    (hd : (s0.heap ip).deny_write_cnt = 0)
    (L'' : Nat)
    (hafter : dir_wf E (dir_add E s0 { inode := ip, pos := pos } name sector e0).1 ip L'') :
    (∀ j, j < dir_count s0 ip → e_in_use (dir_entry_at E s0 ip j) = true) →
      ∀ L', chain_wf E (dir_add E s0 { inode := ip, pos := pos } name sector e0).1.fat
        (chain_start E s0 ip) L' → 20 * (dir_count s0 ip : Int) + 20 ≤ 512 * L' := by
  intro hall L' hwf'
  obtain ⟨sc, k, srel, hk1, _, hk4, heq⟩ :=
    dir_add_scan E hp ip pos name sector e0 L s0 hwf hm hv hnew
  have hkK : k = dir_count s0 ip := by
    by_contra hne'
    have hlt : k < dir_count s0 ip := by omega
    have := hall k hlt
    rw [hk4 hlt] at this
    exact absurd this (by simp)
  rw [heq] at hwf' hafter
  obtain ⟨_, fb, _, _⟩ := inode_write_at_frame E sc.1 ip
    (set_inode_sector (set_name (set_in_use sc.2.1 true) name) sector) 20 (20 * (k : Int))
  revert hwf' hafter fb
  generalize inode_write_at E sc.1 ip
    (set_inode_sector (set_name (set_in_use sc.2.1 true) name) sector) 20 (20 * (k : Int)) = w
  intro hafter hwf' fb
  have hl0 := hwf.2.1
  have hlt := (dir_count_lt s0 ip (dir_count s0 ip) hl0).1
  have hnot : ¬ (20 * (dir_count s0 ip : Int) + 20 ≤ inode_length s0 ip) := by
    intro h; have := hlt.2 h; omega
  have hheap : sc.1.heap ip = s0.heap ip := by rw [srel.1]
  have hlen0 : (s0.heap ip).data.length = inode_length s0 ip := rfl
  rw [hheap, hkK] at fb
  have hstart : chain_start E w.1 ip = chain_start E s0 ip := by
    unfold chain_start; rw [fb]
  have hlenw : inode_length w.1 ip = 20 * (dir_count s0 ip : Int) + 20 := by
    unfold inode_length; rw [fb]
    show (if (s0.heap ip).deny_write_cnt = 0 ∧
        20 * (dir_count s0 ip : Int) + 20 > (s0.heap ip).data.length
      then 20 * (dir_count s0 ip : Int) + 20 else (s0.heap ip).data.length) = _
    rw [if_pos ⟨hd, by rw [hlen0]; omega⟩]
  have a1 : chain_wf E w.1.fat (chain_start E w.1 ip) L'' := hafter.1
  have a3 : inode_length w.1 ip ≤ 512 * L'' := hafter.2.2
  have hwf2 : chain_wf E w.1.fat (chain_start E s0 ip) L' := hwf'
  rw [hstart] at a1
  have := chain_wf_unique E _ _ _ _ a1 hwf2
  rw [hlenw] at a3
  rw [← this]; exact a3

/-- First-fit slot reuse, when the staging buffers are allocated.  On a consistent directory
whose staging buffers are allocated, when `dir_add` returns true and leaves the directory
consistent, the new record, in use with the name and the sector, is at record number `k`, the
lowest one whose record was not in use, and at the number of whole records of the stream (its
logical end) only when every record was in use; every other record is unchanged. -/
theorem dir_add_first_fit (E : Env) (s : FS) (d : dir) (name : List Nat) (sector : Nat)
    (e0 : Nat → Nat) (L L' : Nat)
    (hp : pick_sound E) (hinj : Function.Injective E.cluster_to_sector)
    (hwf : dir_wf E s d.inode L) (hm : mem_ok E s) (hsec : sector < 4294967296)
    (hsucc : (dir_add E s d name sector e0).2 = true)
    (hafter : dir_wf E (dir_add E s d name sector e0).1 d.inode L') :
    ∃ k, k ≤ dir_count s d.inode ∧
      (∀ j, j < k → e_in_use (dir_entry_at E s d.inode j) = true) ∧
      (k < dir_count s d.inode → e_in_use (dir_entry_at E s d.inode k) = false) ∧
      (k = dir_count s d.inode →
        ∀ j, j < dir_count s d.inode → e_in_use (dir_entry_at E s d.inode j) = true) ∧
      entry_match name (dir_entry_at E (dir_add E s d name sector e0).1 d.inode k) ∧
      e_inode_sector (dir_entry_at E (dir_add E s d name sector e0).1 d.inode k) = sector ∧
      (∀ j, j < dir_count s d.inode → j ≠ k →
        dir_entry_at E (dir_add E s d name sector e0).1 d.inode j
          = dir_entry_at E s d.inode j) ∧
      dir_count (dir_add E s d name sector e0).1 d.inode
        = max (dir_count s d.inode) (k + 1) := by
  obtain ⟨hne, hlen, hnew, hd⟩ :=
    dir_add_true E hp d.inode d.pos name sector e0 L s hwf hm hsucc
  have hcov := dir_add_cover E hp d.inode d.pos name sector e0 L s hwf hm
    (by simp only [not_or, not_lt]; exact ⟨hne, hlen⟩) hnew hd L' hafter
  obtain ⟨_, k, h1, h2, h3, _, h5, h6, h7, h8, _⟩ :=
    dir_add_spec E hp hinj d.inode d.pos name sector e0 L s hwf hm hd hne hlen hsec hnew hcov
  exact ⟨k, h1, h2, h3, fun hk j hj => h2 j (by omega), h6, h7, h8, h5⟩

/-- First fit at the scenario of claim C4, every allocation succeeding: in the directory
created with capacity 4, after `"a"` to 10, `"b"` to 11 and the removal of `"a"`, the record
of `"c"` to 12 is stored at offset 0, the offset vacated by `"a"`, and the names in use are
`"c"` and `"b"`. -/
theorem dir_add_first_fit_witness :
    (∃ k, k ≤ dir_count demo_fs4_b demo_dir4.inode ∧
      (∀ j, j < k → e_in_use (dir_entry_at demo_env demo_fs4_b demo_dir4.inode j) = true) ∧
      (k < dir_count demo_fs4_b demo_dir4.inode →
        e_in_use (dir_entry_at demo_env demo_fs4_b demo_dir4.inode k) = false) ∧
      (k = dir_count demo_fs4_b demo_dir4.inode →
        ∀ j, j < dir_count demo_fs4_b demo_dir4.inode →
          e_in_use (dir_entry_at demo_env demo_fs4_b demo_dir4.inode j) = true) ∧
      entry_match [99] (dir_entry_at demo_env
        (dir_add demo_env demo_fs4_b demo_dir4 [99] 12 (fun _ => 7)).1 demo_dir4.inode k) ∧
      e_inode_sector (dir_entry_at demo_env
        (dir_add demo_env demo_fs4_b demo_dir4 [99] 12 (fun _ => 7)).1 demo_dir4.inode k)
          = 12 ∧
      (∀ j, j < dir_count demo_fs4_b demo_dir4.inode → j ≠ k →
        dir_entry_at demo_env
            (dir_add demo_env demo_fs4_b demo_dir4 [99] 12 (fun _ => 7)).1 demo_dir4.inode j
          = dir_entry_at demo_env demo_fs4_b demo_dir4.inode j) ∧
      dir_count (dir_add demo_env demo_fs4_b demo_dir4 [99] 12 (fun _ => 7)).1 demo_dir4.inode
        = max (dir_count demo_fs4_b demo_dir4.inode) (k + 1)) ∧
    (dir_create demo_env demo_fs0 101 4).map Prod.snd = some true ∧
    (dir_add demo_env demo_fs4 demo_dir4 [97] 10 (fun _ => 0)).2 = true ∧
    (dir_add demo_env demo_fs4_a demo_dir4 [98] 11 (fun _ => 0)).2 = true ∧
    (dir_remove demo_env demo_fs4_ab demo_dir4 [97]).2 = true ∧
    e_in_use (dir_entry_at demo_env demo_fs4_b demo_dir4.inode 0) = false ∧
    str_eq [99] (dir_entry_at demo_env
      (dir_add demo_env demo_fs4_b demo_dir4 [99] 12 (fun _ => 7)).1 demo_dir4.inode 0) 4
        = true ∧
    dir_names_from demo_env (dir_add demo_env demo_fs4_b demo_dir4 [99] 12 (fun _ => 7)).1
      demo_dir4.inode 4 0 = [([99], 20), ([98], 40)] :=
  ⟨dir_add_first_fit demo_env demo_fs4_b demo_dir4 [99] 12 (fun _ => 7) 1 1 demo_pick_sound
      demo_sectors_injective (by unfold dir_wf chain_wf; decide) (demo_mem_ok _) (by decide)
      (by decide) (by unfold dir_wf chain_wf; decide),
    by decide, by decide, by decide, by decide, by decide, by decide, by decide⟩

/-- C4, the code at the failing input: in the directory whose records at offsets 0 and 20 are
in use with the names `"a"` and `"b"` and whose record at offset 40 is free, when the staging
buffer of the first read of the scan for a free record cannot be allocated and the other
allocations succeed, `dir_add` of `"c"` returns true with the record written at offset 0, over
the record of `"a"`; the record at offset 40 is still free and the name `"a"` is lost.  When
every allocation fails the same call returns false. -/
theorem dir_add_first_fit_counterexample :
    (dir_add demo_env_oom demo_fs4_ab demo_dir4 [99] 12 (fun _ => 0)).2 = false ∧
    e_in_use (dir_entry_at demo_env demo_fs4_ab 2 0) = true ∧
    str_eq [97] (dir_entry_at demo_env demo_fs4_ab 2 0) 4 = true ∧
    e_in_use (dir_entry_at demo_env demo_fs4_ab 2 2) = false ∧
    (dir_add (demo_env_fail (demo_fs4_ab.mallocs + 4)) demo_fs4_ab demo_dir4 [99] 12
      (fun _ => 0)).2 = true ∧
    str_eq [99] (dir_entry_at demo_env
      (dir_add (demo_env_fail (demo_fs4_ab.mallocs + 4)) demo_fs4_ab demo_dir4 [99] 12
        (fun _ => 0)).1 2 0) 4 = true ∧
    e_in_use (dir_entry_at demo_env
      (dir_add (demo_env_fail (demo_fs4_ab.mallocs + 4)) demo_fs4_ab demo_dir4 [99] 12
        (fun _ => 0)).1 2 2) = false ∧
    dir_names_from demo_env
      (dir_add (demo_env_fail (demo_fs4_ab.mallocs + 4)) demo_fs4_ab demo_dir4 [99] 12
        (fun _ => 0)).1 2 4 0 = [([99], 20), ([98], 40)] := by
  decide

/-- The view of a directory inode depends on the device, the chain table and the on-disk
record held in its `struct inode` only. -/
theorem dir_view_eq (E : Env) (s s' : FS) (ip : Nat) (hd : s'.disk = s.disk)
    (hf : s'.fat = s.fat) (hh : (s'.heap ip).data = (s.heap ip).data) :
    chain_start E s' ip = chain_start E s ip ∧ inode_length s' ip = inode_length s ip ∧
    dir_count s' ip = dir_count s ip ∧
    (∀ j, dir_entry_at E s' ip j = dir_entry_at E s ip j) ∧
    (∀ L, dir_wf E s ip L → dir_wf E s' ip L) := by
  have h1 : chain_start E s' ip = chain_start E s ip := by unfold chain_start; rw [hh]
  have h2 : inode_length s' ip = inode_length s ip := by unfold inode_length; rw [hh]
  refine ⟨h1, h2, ?_, ?_, ?_⟩
  · unfold dir_count; rw [h2]
  · intro j
    unfold dir_entry_at inode_byte
    rw [h1, hd, hf]
  · intro L h
    unfold dir_wf
    rw [h1, h2, hf]
    exact h

theorem scan_rel_entry (E : Env) (ip : Nat) (L : Nat) (s0 s : FS) (h : scan_rel E ip L s0 s)
    (hwf : dir_wf E s0 ip L) (j : Nat) (hj : j < dir_count s0 ip) :
    dir_entry_at E s ip j = dir_entry_at E s0 ip j := by
  funext i
  unfold dir_entry_at
  by_cases hi : i < 20
  · rw [if_pos hi, if_pos hi]
    have h1 := ((dir_count_lt s0 ip j hwf.2.1).1).1 hj
    have h2 := hwf.2.2
    exact scan_rel_byte E ip L s0 s h _ (by omega) (by omega)
  · rw [if_neg hi, if_neg hi]

theorem scan_rel_wf (E : Env) (ip : Nat) (L : Nat) (s0 s : FS) (h : scan_rel E ip L s0 s)
    (hwf : dir_wf E s0 ip L) : ∃ L1, dir_wf E s ip L1 ∧ L ≤ L1 := by
  have hst := scan_rel_start E ip L s0 s h
  have hlen := scan_rel_length E ip L s0 s h
  obtain ⟨_, _, _, _, L1, wf1, hL1, _⟩ := h
  refine ⟨L1, ⟨by rw [hst]; exact wf1, by rw [hlen]; exact hwf.2.1, ?_⟩, hL1⟩
  rw [hlen]
  have := hwf.2.2
  have : (L : Int) ≤ L1 := by exact_mod_cast hL1
  omega

theorem mem_ok_mono (E : Env) (s s' : FS) (h : mem_ok E s) (hle : s.mallocs ≤ s'.mallocs) :
    mem_ok E s' := fun k hk => h k (le_trans hle hk)

/-- What `inode_reopen` leaves alone. -/
theorem inode_reopen_frame (s : FS) (a : Nat) :
    (inode_reopen s a).1.disk = s.disk ∧ (inode_reopen s a).1.fat = s.fat ∧
    (inode_reopen s a).1.mallocs = s.mallocs ∧
    (inode_reopen s a).1.open_inodes = s.open_inodes ∧
    (inode_reopen s a).2 = a ∧
    ∀ b, ((inode_reopen s a).1.heap b).data = (s.heap b).data ∧
      ((inode_reopen s a).1.heap b).deny_write_cnt = (s.heap b).deny_write_cnt ∧
      ((inode_reopen s a).1.heap b).sector = (s.heap b).sector := by
  unfold inode_reopen
  by_cases h : a ≠ 0
  · rw [if_pos h]
    refine ⟨rfl, rfl, rfl, rfl, rfl, fun b => ?_⟩
    unfold set_inode
    by_cases hb : b = a
    · subst hb
      simp
    · simp [hb]
  · rw [if_neg h]
    exact ⟨rfl, rfl, rfl, rfl, rfl, fun b => ⟨rfl, rfl, rfl⟩⟩

/-- What `inode_open` leaves alone: the device, the chain table, and the inodes allocated
before the call. -/
theorem inode_open_frame (E : Env) (s : FS) (sector : Nat) :
    (inode_open E s sector).1.disk = s.disk ∧ (inode_open E s sector).1.fat = s.fat ∧
    s.mallocs ≤ (inode_open E s sector).1.mallocs ∧
    (0 ∉ s.open_inodes → 0 ∉ (inode_open E s sector).1.open_inodes) ∧
    ∀ b, b ≤ s.mallocs →
      ((inode_open E s sector).1.heap b).data = (s.heap b).data ∧
      ((inode_open E s sector).1.heap b).deny_write_cnt = (s.heap b).deny_write_cnt := by
  unfold inode_open
  cases hfind : s.open_inodes.find? (fun a => decide ((s.heap a).sector = sector)) with
  | some a =>
    simp only []
    obtain ⟨a1, a2, a3, a4, _, a6⟩ := inode_reopen_frame s a
    exact ⟨a1, a2, by rw [a3], fun h => by rw [a4]; exact h,
      fun b _ => ⟨(a6 b).1, (a6 b).2.1⟩⟩
  | none =>
    simp only []
    by_cases hm : (malloc E s).2 = 0
    · rw [if_pos hm]
      exact ⟨rfl, rfl, Nat.le_succ _, fun h => h, fun b _ => ⟨rfl, rfl⟩⟩
    · rw [if_neg hm]
      have hv : (malloc E s).2 = s.mallocs + 1 := by
        unfold malloc at hm ⊢
        simp only [] at hm ⊢
        by_cases hk : E.malloc_ok s.mallocs = true
        · rw [if_pos hk]
        · rw [if_neg hk] at hm; exact absurd rfl hm
      refine ⟨rfl, rfl, Nat.le_succ _, fun h => ?_, fun b hb => ?_⟩
      · show 0 ∉ (malloc E s).2 :: s.open_inodes
        simp only [List.mem_cons, not_or]
        exact ⟨fun h0 => hm h0.symm, h⟩
      · unfold set_inode
        have hne : b ≠ (malloc E s).2 := by rw [hv]; omega
        simp only [hne, if_false]
        exact ⟨rfl, rfl⟩

/-- The handle that `inode_open` returns when memory is available: it is not null and its
inode number is the sector asked for. -/
theorem inode_open_spec (E : Env) (s : FS) (sector : Nat) (hm : E.malloc_ok s.mallocs = true)
    (h0 : 0 ∉ s.open_inodes) :
    (inode_open E s sector).2 ≠ 0 ∧
    inode_get_inumber (inode_open E s sector).1 (inode_open E s sector).2 = sector := by
  unfold inode_open inode_get_inumber
  cases hfind : s.open_inodes.find? (fun a => decide ((s.heap a).sector = sector)) with
  | some a =>
    simp only []
    obtain ⟨_, _, _, _, a5, a6⟩ := inode_reopen_frame s a
    have hmem := List.mem_of_find?_eq_some hfind
    have hp := List.find?_some hfind
    simp only [decide_eq_true_eq] at hp
    rw [a5, (a6 a).2.2]
    exact ⟨fun h => h0 (h ▸ hmem), hp⟩
  | none =>
    simp only []
    have hv : (malloc E s).2 = s.mallocs + 1 := by
      unfold malloc
      simp only []
      rw [if_pos hm]
    rw [if_neg (by rw [hv]; omega)]
    refine ⟨by rw [hv]; omega, ?_⟩
    unfold set_inode
    simp only [if_true]

/-- What `inode_close` leaves alone: the count of allocations and, in every `struct inode`,
the on-disk record and the count of write denials. -/
theorem inode_close_frame (E : Env) (s : FS) (a : Nat) :
    (inode_close E s a).mallocs = s.mallocs ∧
    (0 ∉ s.open_inodes → 0 ∉ (inode_close E s a).open_inodes) ∧
    ∀ b, ((inode_close E s a).heap b).data = (s.heap b).data ∧
      ((inode_close E s a).heap b).deny_write_cnt = (s.heap b).deny_write_cnt := by
  unfold inode_close
  by_cases ha : a = 0
  · rw [if_pos ha]
    exact ⟨rfl, fun h => h, fun b => ⟨rfl, rfl⟩⟩
  · rw [if_neg ha]
    have hheap : ∀ b,
        ((set_inode s a { s.heap a with open_cnt := (s.heap a).open_cnt - 1 }).heap b).data
          = (s.heap b).data ∧
        ((set_inode s a { s.heap a with open_cnt := (s.heap a).open_cnt - 1 }).heap
          b).deny_write_cnt = (s.heap b).deny_write_cnt := by
      intro b
      unfold set_inode
      by_cases hb : b = a
      · subst hb
        simp
      · simp [hb]
    by_cases hc :
        ((set_inode s a { s.heap a with open_cnt := (s.heap a).open_cnt - 1 }).heap a).open_cnt
          = 0
    · simp only [hc, if_true]
      refine ⟨rfl, fun h hmem => h ?_, hheap⟩
      exact List.mem_of_mem_erase hmem
    · simp only [hc, if_false]
      exact ⟨rfl, fun h => h, hheap⟩

/-- A record inside the length of a directory is covered by its chain after a write to it. -/
theorem dir_cover_inside (E : Env) (hp : pick_sound E) (ip : Nat) (L : Nat) (s0 s : FS)
    (e : Nat → Nat) (k : Nat) (hrel : scan_rel E ip L s0 s) (hwf : dir_wf E s0 ip L)
    (hm : mem_ok E s0) (hd : (s0.heap ip).deny_write_cnt = 0) (hk : k < dir_count s0 ip) :
    ∀ L', chain_wf E (inode_write_at E s ip e 20 (20 * (k : Int))).1.fat
      (chain_start E s0 ip) L' → 20 * (k : Int) + 20 ≤ 512 * L' := by
  intro L' hwf'
  have hl0 := hwf.2.1
  have hl1 := hwf.2.2
  have hst := scan_rel_start E ip L s0 s hrel
  have hd' : (s.heap ip).deny_write_cnt = 0 := by rw [hrel.1]; exact hd
  obtain ⟨_, _, _, hmal, L1, wf1, hL1, _⟩ := hrel
  have W := inode_write_at_spec E hp s ip e 20 (20 * (k : Int))
    L1 hd' (by omega) (by omega) (hm _ hmal) (by rw [hst]; exact wf1)
  obtain ⟨_, ⟨L2, wf2, hL2, _⟩, _⟩ := W
  rw [hst] at wf2
  have := chain_wf_unique E _ _ _ _ wf2 hwf'
  have := ((dir_count_lt s0 ip k hl0).1).1 hk
  omega

theorem inode_remove_view (s : FS) (a ip : Nat) :
    (inode_remove s a).disk = s.disk ∧ (inode_remove s a).fat = s.fat ∧
    (inode_remove s a).mallocs = s.mallocs ∧ (inode_remove s a).open_inodes = s.open_inodes ∧
    ((inode_remove s a).heap ip).data = (s.heap ip).data ∧
    ((inode_remove s a).heap ip).deny_write_cnt = (s.heap ip).deny_write_cnt := by
  unfold inode_remove set_inode
  refine ⟨rfl, rfl, rfl, rfl, ?_⟩
  by_cases hb : ip = a
  · subst hb
    simp
  · simp [hb]

theorem in_use_cleared (e b : Nat → Nat) (h : ∀ i, i < 20 → b i = set_in_use e false i) :
    e_in_use b = false := by
  unfold e_in_use
  rw [h 19 (by omega)]
  unfold set_in_use
  simp

/-- The state that `dir_remove` reaches before it closes the inode: either no record has
changed, or the first record in use with the name has been marked as not in use. -/
theorem dir_remove_body_spec (E : Env) (hp : pick_sound E)
    (hinj : Function.Injective E.cluster_to_sector) (ip : Nat) (pos : Int) (name : List Nat)
    (L : Nat) (s : FS) (hwf : dir_wf E s ip L) (hm : mem_ok E s) (halloc : ip ≤ s.mallocs) :
    ∀ b, b = dir_remove_body E s { inode := ip, pos := pos } name →
    (∃ Lb, dir_wf E b.1 ip Lb ∧ L ≤ Lb) ∧
    dir_count b.1 ip = dir_count s ip ∧ s.mallocs ≤ b.1.mallocs ∧
    (b.1.heap ip).deny_write_cnt = (s.heap ip).deny_write_cnt ∧
    (0 ∉ s.open_inodes → 0 ∉ b.1.open_inodes) ∧
    ((b.2.1 = false ∧ ∀ j, j < dir_count s ip → dir_entry_at E b.1 ip j = dir_entry_at E s ip j) ∨
     (b.2.1 = true ∧ (s.heap ip).deny_write_cnt = 0 ∧
      ∃ k, k < dir_count s ip ∧
        (∀ j, j < k → ¬ entry_match name (dir_entry_at E s ip j)) ∧
        entry_match name (dir_entry_at E s ip k) ∧
        e_in_use (dir_entry_at E b.1 ip k) = false ∧
        ∀ j, j < dir_count s ip → j ≠ k →
          dir_entry_at E b.1 ip j = dir_entry_at E s ip j)) := by
  intro b hb
  obtain ⟨lrel, lalt⟩ := lookup_spec E hp ip pos name L s hwf hm
  unfold dir_remove_body at hb
  simp only [DIR_ENTRY_SIZE] at hb
  revert lrel lalt hb
  generalize lookup E s { inode := ip, pos := pos } name = l
  intro lrel lalt hb
  obtain ⟨L1, wf1, hL1⟩ := scan_rel_wf E ip L s l.1 lrel hwf
  have ent1 := scan_rel_entry E ip L s l.1 lrel hwf
  have len1 := scan_rel_length E ip L s l.1 lrel
  have cnt1 : dir_count l.1 ip = dir_count s ip := by unfold dir_count; rw [len1]
  have hml := lrel.2.2.2.1
  have hhl := lrel.1
  have hol := lrel.2.2.1
  rcases lalt with ⟨k, hk, hfirst, hmatch, hfound, he, hofs⟩ | ⟨hnone, hnf⟩
  · rw [if_neg (by rw [hfound]; simp), he, hofs] at hb
    obtain ⟨od, of, om, o0, oh⟩ := inode_open_frame E l.1 (e_inode_sector (dir_entry_at E s ip k))
    have ohip := oh ip (le_trans halloc hml)
    obtain ⟨_, _, v3, v4, v5⟩ := dir_view_eq E l.1
      (inode_open E l.1 (e_inode_sector (dir_entry_at E s ip k))).1 ip od of ohip.1
    revert om o0 ohip v3 v4 v5 hb
    clear od of oh
    generalize inode_open E l.1 (e_inode_sector (dir_entry_at E s ip k)) = o
    intro hb om o0 ohip v3 v4 v5
    have wf_o : dir_wf E o.1 ip L1 := v5 L1 wf1
    have hdo : (o.1.heap ip).deny_write_cnt = (s.heap ip).deny_write_cnt := by
      rw [ohip.2, hhl]
    have hunch : (∃ Lb, dir_wf E o.1 ip Lb ∧ L ≤ Lb) ∧
        dir_count o.1 ip = dir_count s ip ∧ s.mallocs ≤ o.1.mallocs ∧
        (o.1.heap ip).deny_write_cnt = (s.heap ip).deny_write_cnt ∧
        (0 ∉ s.open_inodes → 0 ∉ o.1.open_inodes) ∧
        ∀ j, j < dir_count s ip → dir_entry_at E o.1 ip j = dir_entry_at E s ip j :=
      ⟨⟨L1, wf_o, hL1⟩, by rw [v3, cnt1], le_trans hml om, hdo,
        fun h => o0 (by rw [hol]; exact h), fun j hj => by rw [v4 j, ent1 j hj]⟩
    by_cases ho : o.2 = 0
    · rw [if_pos ho] at hb
      rw [hb]
      exact ⟨hunch.1, hunch.2.1, hunch.2.2.1, hunch.2.2.2.1, hunch.2.2.2.2.1,
        Or.inl ⟨rfl, hunch.2.2.2.2.2⟩⟩
    · rw [if_neg ho] at hb
      by_cases hd : (s.heap ip).deny_write_cnt = 0
      · have hm_o : mem_ok E o.1 := mem_ok_mono E s o.1 hm (le_trans hml om)
        have hd_o : (o.1.heap ip).deny_write_cnt = 0 := by rw [hdo]; exact hd
        have hk_o : k < dir_count o.1 ip := by rw [v3, cnt1]; exact hk
        have hrefl := scan_rel_refl E ip L1 o.1 wf_o.1
        have D := dir_write_entry E hp hinj ip L1 o.1 o.1
          (set_in_use (dir_entry_at E s ip k) false) k hrefl wf_o hm_o hd_o (le_of_lt hk_o)
          (dir_cover_inside E hp ip L1 o.1 o.1 _ k hrefl wf_o hm_o hd_o hk_o)
        obtain ⟨_, fb, fc, fd⟩ := inode_write_at_frame E o.1 ip
          (set_in_use (dir_entry_at E s ip k) false) 20 (20 * (k : Int))
        revert D fb fc fd hb
        generalize inode_write_at E o.1 ip
          (set_in_use (dir_entry_at E s ip k) false) 20 (20 * (k : Int)) = w
        intro hb D fb fc fd
        obtain ⟨d1, ⟨L2, d2, hL2⟩, d3, d4, d5⟩ := D
        rw [if_neg (by rw [d1]; simp)] at hb
        obtain ⟨r1, r2, r3, r4, r5, r6⟩ := inode_remove_view w.1 o.2 ip
        obtain ⟨_, _, u3, u4, u5⟩ := dir_view_eq E w.1 (inode_remove w.1 o.2) ip r1 r2 r5
        have hdw : (w.1.heap ip).deny_write_cnt = (o.1.heap ip).deny_write_cnt := by
          rw [fb]
        have hcnt : dir_count w.1 ip = dir_count s ip := by
          rw [d3, v3, cnt1]
          omega
        rw [hb]
        refine ⟨⟨L2, u5 L2 d2, le_trans hL1 hL2⟩, by rw [u3, hcnt],
          by rw [r3]; exact le_trans (le_trans hml om) fd,
          by rw [r6, hdw, hdo], fun h => by rw [r4, fc]; exact hunch.2.2.2.2.1 h,
          Or.inr ⟨rfl, hd, k, hk, hfirst, hmatch, ?_, fun j hj hjk => ?_⟩⟩
        · show e_in_use (dir_entry_at E (inode_remove w.1 o.2) ip k) = false
          rw [u4 k]
          exact in_use_cleared _ _ d4
        · show dir_entry_at E (inode_remove w.1 o.2) ip j = dir_entry_at E s ip j
          rw [u4 j, d5 j (by rw [v3, cnt1]; exact hj) hjk]
          exact hunch.2.2.2.2.2 j hj
      · have hw : inode_write_at E o.1 ip (set_in_use (dir_entry_at E s ip k) false) 20
            (20 * (k : Int)) = (o.1, 0) := by
          unfold inode_write_at
          rw [if_pos (by rw [hdo]; exact hd)]
        rw [hw, if_pos (by simp)] at hb
        rw [hb]
        exact ⟨hunch.1, hunch.2.1, hunch.2.2.1, hunch.2.2.2.1, hunch.2.2.2.2.1,
          Or.inl ⟨rfl, hunch.2.2.2.2.2⟩⟩
  · rw [if_pos hnf] at hb
    rw [hb]
    exact ⟨⟨L1, wf1, hL1⟩, cnt1, hml, by rw [hhl], fun h => by rw [hol]; exact h,
      Or.inl ⟨rfl, ent1⟩⟩

theorem dir_entry_ext (E : Env) (s s' : FS) (ip j : Nat)
    (h : ∀ i, i < 20 → dir_entry_at E s' ip j i = dir_entry_at E s ip j i) :
    dir_entry_at E s' ip j = dir_entry_at E s ip j := by
  funext i
  by_cases hi : i < 20
  · exact h i hi
  · rw [dir_entry_at_zero E s' ip j i (by omega), dir_entry_at_zero E s ip j i (by omega)]

/-- The state after `dir_remove`, when its closing `inode_close` leaves the records of the
directory as they were: either no record has changed, or the first record in use with the
name has been marked as not in use. -/
theorem dir_remove_spec (E : Env) (hp : pick_sound E)
    (hinj : Function.Injective E.cluster_to_sector) (ip : Nat) (pos : Int) (name : List Nat)
    (L : Nat) (s : FS) (hwf : dir_wf E s ip L) (hm : mem_ok E s) (halloc : ip ≤ s.mallocs)
    (hq : close_quiet E s { inode := ip, pos := pos } name) :
    dir_count (dir_remove E s { inode := ip, pos := pos } name).1 ip = dir_count s ip ∧
    s.mallocs ≤ (dir_remove E s { inode := ip, pos := pos } name).1.mallocs ∧
    ((dir_remove E s { inode := ip, pos := pos } name).1.heap ip).deny_write_cnt
      = (s.heap ip).deny_write_cnt ∧
    (0 ∉ s.open_inodes →
      0 ∉ (dir_remove E s { inode := ip, pos := pos } name).1.open_inodes) ∧
    (((dir_remove E s { inode := ip, pos := pos } name).2 = false ∧
      ∀ j, j < dir_count s ip →
        dir_entry_at E (dir_remove E s { inode := ip, pos := pos } name).1 ip j
          = dir_entry_at E s ip j) ∨
     ((dir_remove E s { inode := ip, pos := pos } name).2 = true ∧
      (s.heap ip).deny_write_cnt = 0 ∧
      ∃ k, k < dir_count s ip ∧
        (∀ j, j < k → ¬ entry_match name (dir_entry_at E s ip j)) ∧
        entry_match name (dir_entry_at E s ip k) ∧
        e_in_use (dir_entry_at E (dir_remove E s { inode := ip, pos := pos } name).1 ip k)
          = false ∧
        ∀ j, j < dir_count s ip → j ≠ k →
          dir_entry_at E (dir_remove E s { inode := ip, pos := pos } name).1 ip j
            = dir_entry_at E s ip j)) := by
  have B := dir_remove_body_spec E hp hinj ip pos name L s hwf hm halloc _ rfl
  have hq' : ∀ j, j < dir_count s ip →
      dir_entry_at E (dir_remove E s { inode := ip, pos := pos } name).1 ip j
        = dir_entry_at E (dir_remove_body E s { inode := ip, pos := pos } name).1 ip j :=
    fun j hj => dir_entry_ext E _ _ ip j (hq j hj)
  have hdef : dir_remove E s { inode := ip, pos := pos } name =
      (inode_close E (dir_remove_body E s { inode := ip, pos := pos } name).1
        (dir_remove_body E s { inode := ip, pos := pos } name).2.2,
       (dir_remove_body E s { inode := ip, pos := pos } name).2.1) := rfl
  rw [hdef] at hq' ⊢
  revert B hq'
  generalize dir_remove_body E s { inode := ip, pos := pos } name = b
  intro B hq'
  obtain ⟨_, b2, b3, b4, b5, b6⟩ := B
  obtain ⟨c1, c2, c3⟩ := inode_close_frame E b.1 b.2.2
  have hcnt : dir_count (inode_close E b.1 b.2.2) ip = dir_count s ip := by
    rw [← b2]
    unfold dir_count inode_length
    rw [(c3 ip).1]
  refine ⟨hcnt, by rw [c1]; exact b3, by rw [(c3 ip).2]; exact b4, fun h => c2 (b5 h), ?_⟩
  rcases b6 with ⟨e1, e2⟩ | ⟨e1, e2, k, e3, e4, e5, e6, e7⟩
  · exact Or.inl ⟨e1, fun j hj => by rw [hq' j hj]; exact e2 j hj⟩
  · refine Or.inr ⟨e1, e2, k, e3, e4, e5, ?_, fun j hj hjk => ?_⟩
    · show e_in_use (dir_entry_at E (inode_close E b.1 b.2.2) ip k) = false
      rw [hq' k e3]; exact e6
    · show dir_entry_at E (inode_close E b.1 b.2.2) ip j = dir_entry_at E s ip j
      rw [hq' j hj]; exact e7 j hj hjk

/-- C5 (amended): after a successful `dir_remove`.  On a consistent directory whose handle's
inode was allocated, with every staging buffer allocated, for a valid name that at most one
record in use carries: when `dir_remove` returns true, leaves the directory inode consistent
and its closing `inode_close` leaves the records as they were, `dir_lookup` of the name
returns false with the null pointer for `*inode`, and `dir_add` of the name for any 32-bit
sector returns true. -/
theorem dir_remove_then (E : Env) (s : FS) (d : dir) (name : List Nat) (other : Nat)
    (e0 : Nat → Nat) (L L' : Nat)
    (hp : pick_sound E) (hinj : Function.Injective E.cluster_to_sector)
    (hwf : dir_wf E s d.inode L) (hm : mem_ok E s) (halloc : d.inode ≤ s.mallocs)
    (hne : name ≠ []) (hlen : name.length ≤ NAME_MAX) (hother : other < 4294967296)
    (huniq : ∀ i, i < dir_count s d.inode → ∀ j, j < dir_count s d.inode →
      entry_match name (dir_entry_at E s d.inode i) →
      entry_match name (dir_entry_at E s d.inode j) → i = j)
    (hsucc : (dir_remove E s d name).2 = true)
    (hafter : dir_wf E (dir_remove E s d name).1 d.inode L')
    (hq : close_quiet E s d name) :
    (dir_lookup E (dir_remove E s d name).1 d name).2 = (false, 0) ∧
    (dir_add E (dir_remove E s d name).1 d name other e0).2 = true := by
  obtain ⟨r1, r2, r3, _, r5⟩ :=
    dir_remove_spec E hp hinj d.inode d.pos name L s hwf hm halloc hq
  have hd : d = { inode := d.inode, pos := d.pos } := rfl
  rw [← hd] at r1 r2 r3 r5
  rcases r5 with ⟨e1, _⟩ | ⟨_, e2, k, e3, e4, e5, e6, e7⟩
  · rw [hsucc] at e1; exact absurd e1 (by simp)
  have hm' : mem_ok E (dir_remove E s d name).1 := mem_ok_mono E s _ hm r2
  have hnew : ∀ j, j < dir_count (dir_remove E s d name).1 d.inode →
      ¬ entry_match name (dir_entry_at E (dir_remove E s d name).1 d.inode j) := by
    intro j hj hmatch
    rw [r1] at hj
    by_cases hjk : j = k
    · rw [hjk] at hmatch
      have := hmatch.1
      rw [e6] at this
      exact absurd this (by simp)
    · rw [e7 j hj hjk] at hmatch
      exact hjk (huniq j hj k e3 hmatch e5)
  revert hafter hm' hnew r1 r3 e6
  generalize (dir_remove E s d name).1 = f
  intro hafter r1 r3 e6 hm' hnew
  constructor
  · obtain ⟨_, lalt⟩ := lookup_spec E hp d.inode d.pos name L' f hafter hm'
    rw [← hd] at lalt
    have hfalse : (lookup E f d name).2.1 = false := by
      rcases lalt with ⟨k', a2, _, a4, _⟩ | ⟨_, a2⟩
      · exact absurd a4 (hnew k' a2)
      · exact a2
    unfold dir_lookup
    simp only [hfalse, Bool.false_eq_true, if_false]
  · have hcov : (∀ j, j < dir_count f d.inode →
          e_in_use (dir_entry_at E f d.inode j) = true) →
        ∀ L1, chain_wf E (dir_add E f { inode := d.inode, pos := d.pos } name other e0).1.fat
          (chain_start E f d.inode) L1 → 20 * (dir_count f d.inode : Int) + 20 ≤ 512 * L1 := by
      intro hall
      have := hall k (by rw [r1]; exact e3)
      rw [e6] at this
      exact absurd this (by simp)
    exact (dir_add_spec E hp hinj d.inode d.pos name other e0 L' f hafter hm'
      (by rw [r3]; exact e2) hne hlen hother hnew hcov).1

/-- C5 (amended), at a concrete input: `dir_remove` of `"a"` from the directory that holds
`"a"` and `"b"`, then `dir_lookup` of `"a"` and `dir_add` of `"a"` for sector 13. -/
theorem dir_remove_then_witness :
    (dir_remove demo_env demo_fs4_ab demo_dir4 [97]).2 = true ∧
    (dir_lookup demo_env (dir_remove demo_env demo_fs4_ab demo_dir4 [97]).1 demo_dir4 [97]).2
      = (false, 0) ∧
    (dir_add demo_env (dir_remove demo_env demo_fs4_ab demo_dir4 [97]).1 demo_dir4 [97] 13
      (fun _ => 0)).2 = true :=
  ⟨by decide,
    dir_remove_then demo_env demo_fs4_ab demo_dir4 [97] 13 (fun _ => 0) 1 1 demo_pick_sound
      demo_sectors_injective (by unfold dir_wf chain_wf; decide) (demo_mem_ok _) (by decide)
      (by decide) (by decide) (by decide) (by unfold entry_match; decide) (by decide)
      (by unfold dir_wf chain_wf; decide) (by unfold close_quiet; decide)⟩

/-- C5 as stated fails: when the allocations that follow a successful `dir_remove` of `"a"`
fail, the `dir_add` of `"a"` that follows returns false. -/
theorem dir_remove_then_counterexample :
    (dir_remove (demo_env_until demo_fs4_b.mallocs) demo_fs4_ab demo_dir4 [97]).2 = true ∧
    (dir_add (demo_env_until demo_fs4_b.mallocs)
      (dir_remove (demo_env_until demo_fs4_b.mallocs) demo_fs4_ab demo_dir4 [97]).1
      demo_dir4 [97] 13 (fun _ => 0)).2 = false := by
  decide

/-- What `dir_add` does to the records of a consistent directory that it leaves consistent:
each record is as before, or was not in use and now carries the name, which no record in use
carried. -/
theorem dir_add_effect (E : Env) (hp : pick_sound E)
    (hinj : Function.Injective E.cluster_to_sector) (ip : Nat) (pos : Int) (n : List Nat)
    (sector : Nat) (e0 : Nat → Nat) (L L' : Nat) (s : FS)
    (hwf : dir_wf E s ip L) (hm : mem_ok E s) (hsec : sector < 4294967296)
    (hafter : dir_wf E (dir_add E s { inode := ip, pos := pos } n sector e0).1 ip L') :
    (dir_add E s { inode := ip, pos := pos } n sector e0).1.open_inodes = s.open_inodes ∧
    s.mallocs ≤ (dir_add E s { inode := ip, pos := pos } n sector e0).1.mallocs ∧
    dir_count s ip ≤ dir_count (dir_add E s { inode := ip, pos := pos } n sector e0).1 ip ∧
    ∀ j, j < dir_count s ip →
      dir_entry_at E (dir_add E s { inode := ip, pos := pos } n sector e0).1 ip j
        = dir_entry_at E s ip j ∨
      (e_in_use (dir_entry_at E s ip j) = false ∧
        entry_match n
          (dir_entry_at E (dir_add E s { inode := ip, pos := pos } n sector e0).1 ip j) ∧
        ∀ i, i < dir_count s ip → ¬ entry_match n (dir_entry_at E s ip i)) := by
  have hscan : ∀ s', scan_rel E ip L s s' →
      s'.open_inodes = s.open_inodes ∧ s.mallocs ≤ s'.mallocs ∧
      dir_count s ip ≤ dir_count s' ip ∧
      ∀ j, j < dir_count s ip →
        dir_entry_at E s' ip j = dir_entry_at E s ip j ∨
        (e_in_use (dir_entry_at E s ip j) = false ∧
          entry_match n (dir_entry_at E s' ip j) ∧
          ∀ i, i < dir_count s ip → ¬ entry_match n (dir_entry_at E s ip i)) := by
    intro s' h
    have hlen := scan_rel_length E ip L s s' h
    refine ⟨h.2.2.1, h.2.2.2.1, ?_, fun j hj => Or.inl (scan_rel_entry E ip L s s' h hwf j hj)⟩
    unfold dir_count; rw [hlen]
  by_cases hv : n = [] ∨ n.length > NAME_MAX
  · rw [dir_add_invalid E s _ n sector e0 hv]
    exact hscan s (scan_rel_refl E ip L s hwf.1)
  obtain ⟨lrel, lalt⟩ := lookup_spec E hp ip pos n L s hwf hm
  rcases lalt with ⟨_, _, _, _, hfound, _⟩ | ⟨hnew, _⟩
  · rw [dir_add_present E s _ n sector e0 hv hfound]
    exact hscan _ lrel
  by_cases hd : (s.heap ip).deny_write_cnt = 0
  · have hcov := dir_add_cover E hp ip pos n sector e0 L s hwf hm hv hnew hd L' hafter
    have hv' := hv
    simp only [not_or, not_lt] at hv'
    obtain ⟨_, k, h1, _, h3, _, h5, h6, _, h8, _, _, h11, h12⟩ :=
      dir_add_spec E hp hinj ip pos n sector e0 L s hwf hm hd hv'.1 hv'.2 hsec hnew hcov
    refine ⟨h11, h12, by rw [h5]; exact le_max_left _ _, fun j hj => ?_⟩
    by_cases hjk : j = k
    · rw [hjk]
      exact Or.inr ⟨h3 (by rw [← hjk]; exact hj), h6, hnew⟩
    · exact Or.inl (h8 j hj hjk)
  · obtain ⟨sc, k, srel, _, _, _, heq⟩ :=
      dir_add_scan E hp ip pos n sector e0 L s hwf hm hv hnew
    have hd' : (sc.1.heap ip).deny_write_cnt ≠ 0 := by rw [srel.1]; exact hd
    have hw : inode_write_at E sc.1 ip
        (set_inode_sector (set_name (set_in_use sc.2.1 true) n) sector) 20
        (20 * (k : Int)) = (sc.1, 0) := by
      unfold inode_write_at
      rw [if_pos hd']
    rw [heq, hw]
    exact hscan _ srel

/-- A record in use carries one string only. -/
theorem entry_match_inj (n1 n2 : List Nat) (e : Nat → Nat) (h1 : ∀ c, c ∈ n1 → c ≠ 0)
    (h2 : ∀ c, c ∈ n2 → c ≠ 0) (m1 : entry_match n1 e) (m2 : entry_match n2 e) : n1 = n2 :=
  str_eq_inj n1 n2 e 4 h1 h2 m1.2 m2.2

/-- A call of `dir_add` keeps what the directory maps a name to. -/
theorem dir_add_keeps (E : Env) (hp : pick_sound E)
    (hinj : Function.Injective E.cluster_to_sector) (s : FS) (d : dir) (name : List Nat)
    (sector : Nat) (n : List Nat) (sec : Nat) (e0 : Nat → Nat)
    (hr : dir_ready E s d.inode) (hmap : dir_maps E s d.inode name sector)
    (hnz : ∀ c, c ∈ name → c ≠ 0) (hn : ∀ c, c ∈ n → c ≠ 0) (hsec : sec < 4294967296)
    (hafter : ∃ L, dir_wf E (dir_add E s d n sec e0).1 d.inode L) :
    dir_ready E (dir_add E s d n sec e0).1 d.inode ∧
    dir_maps E (dir_add E s d n sec e0).1 d.inode name sector := by
  obtain ⟨⟨L, hwf⟩, hm, h0, halloc⟩ := hr
  obtain ⟨L', hwf'⟩ := hafter
  obtain ⟨a1, a2, a3, a4⟩ :=
    dir_add_effect E hp hinj d.inode d.pos n sec e0 L L' s hwf hm hsec hwf'
  have hd : d = { inode := d.inode, pos := d.pos } := rfl
  rw [← hd] at a1 a2 a3 a4
  refine ⟨⟨⟨L', hwf'⟩, mem_ok_mono E s _ hm a2, by rw [a1]; exact h0, le_trans halloc a2⟩, ?_⟩
  obtain ⟨k, k1, k2, k3, k4⟩ := hmap
  have hk : dir_entry_at E (dir_add E s d n sec e0).1 d.inode k = dir_entry_at E s d.inode k := by
    rcases a4 k k1 with h | ⟨h, _⟩
    · exact h
    · have := k3.1
      rw [h] at this
      exact absurd this (by simp)
  refine ⟨k, lt_of_lt_of_le k1 a3, fun j hj hmatch => ?_, by rw [hk]; exact k3,
    by rw [hk]; exact k4⟩
  rcases a4 j (lt_trans hj k1) with h | ⟨_, h2, h3⟩
  · rw [h] at hmatch
    exact k2 j hj hmatch
  · have := entry_match_inj name n _ hnz hn hmatch h2
    rw [← this] at h3
    exact h3 k k1 k3

/-- A call of `dir_remove` of another name keeps what the directory maps a name to. -/
theorem dir_remove_keeps (E : Env) (hp : pick_sound E)
    (hinj : Function.Injective E.cluster_to_sector) (s : FS) (d : dir) (name : List Nat)
    (sector : Nat) (n : List Nat)
    (hr : dir_ready E s d.inode) (hmap : dir_maps E s d.inode name sector)
    (hnz : ∀ c, c ∈ name → c ≠ 0) (hn : ∀ c, c ∈ n → c ≠ 0) (hne : n ≠ name)
    (hq : close_quiet E s d n)
    (hafter : ∃ L, dir_wf E (dir_remove E s d n).1 d.inode L) :
    dir_ready E (dir_remove E s d n).1 d.inode ∧
    dir_maps E (dir_remove E s d n).1 d.inode name sector := by
  obtain ⟨⟨L, hwf⟩, hm, h0, halloc⟩ := hr
  obtain ⟨r1, r2, _, r4, r5⟩ := dir_remove_spec E hp hinj d.inode d.pos n L s hwf hm halloc hq
  have hd : d = { inode := d.inode, pos := d.pos } := rfl
  rw [← hd] at r1 r2 r4 r5
  refine ⟨⟨hafter, mem_ok_mono E s _ hm r2, r4 h0, le_trans halloc r2⟩, ?_⟩
  obtain ⟨k, k1, k2, k3, k4⟩ := hmap
  have hall : ∀ j, j < dir_count s d.inode →
      dir_entry_at E (dir_remove E s d n).1 d.inode j = dir_entry_at E s d.inode j ∨
      (entry_match n (dir_entry_at E s d.inode j) ∧
        e_in_use (dir_entry_at E (dir_remove E s d n).1 d.inode j) = false) := by
    intro j hj
    rcases r5 with ⟨_, e2⟩ | ⟨_, _, k', _, _, e5, e6, e7⟩
    · exact Or.inl (e2 j hj)
    · by_cases hjk : j = k'
      · rw [hjk]; exact Or.inr ⟨e5, e6⟩
      · exact Or.inl (e7 j hj hjk)
  have hk : dir_entry_at E (dir_remove E s d n).1 d.inode k = dir_entry_at E s d.inode k := by
    rcases hall k k1 with h | ⟨h, _⟩
    · exact h
    · exact absurd (entry_match_inj n name _ hn hnz h k3) hne
  refine ⟨k, by rw [r1]; exact k1, fun j hj hmatch => ?_, by rw [hk]; exact k3,
    by rw [hk]; exact k4⟩
  rcases hall j (lt_trans hj k1) with h | ⟨_, h2⟩
  · rw [h] at hmatch
    exact k2 j hj hmatch
  · have := hmatch.1
    rw [h2] at this
    exact absurd this (by simp)

/-- A run of calls that do not remove the name keeps what the directory maps it to. -/
theorem dir_run_keeps (E : Env) (hp : pick_sound E)
    (hinj : Function.Injective E.cluster_to_sector) (d : dir) (name : List Nat)
    (sector : Nat) (hnz : ∀ c, c ∈ name → c ≠ 0) :
    ∀ (ops : List dir_op) (s : FS), dir_ready E s d.inode →
      dir_maps E s d.inode name sector → run_ok E d name s ops →
      dir_ready E (dir_run E d s ops) d.inode ∧
      dir_maps E (dir_run E d s ops) d.inode name sector := by
  intro ops
  induction ops with
  | nil =>
    intro s hr hmap _
    exact ⟨hr, hmap⟩
  | cons op ops ih =>
    intro s hr hmap hrun
    obtain ⟨h1, h2, h3, h4⟩ := hrun
    rw [dir_run]
    cases op with
    | add n sec e0 =>
      obtain ⟨g1, g2⟩ := dir_add_keeps E hp hinj s d name sector n sec e0 hr hmap hnz
        h1.1 h1.2 h3
      exact ih _ g1 g2 h4
    | remove n =>
      obtain ⟨g1, g2⟩ := dir_remove_keeps E hp hinj s d name sector n hr hmap hnz
        h1 h2.1 h2.2 h3
      exact ih _ g1 g2 h4

/-- The result of `dir_lookup` of a name that the directory maps to a sector: true, with a
handle whose inode number is the sector. -/
theorem dir_lookup_maps (E : Env) (hp : pick_sound E) (s : FS) (d : dir) (name : List Nat)
    (sector : Nat) (hr : dir_ready E s d.inode) (hmap : dir_maps E s d.inode name sector) :
    (dir_lookup E s d name).2.1 = true ∧
    inode_get_inumber (dir_lookup E s d name).1 (dir_lookup E s d name).2.2 = sector := by
  obtain ⟨⟨L, hwf⟩, hm, h0, _⟩ := hr
  obtain ⟨k, k1, k2, k3, k4⟩ := hmap
  obtain ⟨lrel, lalt⟩ := lookup_spec E hp d.inode d.pos name L s hwf hm
  have hd : d = { inode := d.inode, pos := d.pos } := rfl
  rw [← hd] at lrel lalt
  rcases lalt with ⟨k', a1, a2, a3, a4, a5, _⟩ | ⟨a1, _⟩
  · have hkk : k' = k := by
      rcases Nat.lt_trichotomy k' k with h | h | h
      · exact absurd a3 (k2 k' h)
      · exact h
      · exact absurd k3 (a2 k h)
    rw [hkk] at a5
    obtain ⟨o1, o2⟩ := inode_open_spec E (lookup E s d name).1 sector
      (hm _ lrel.2.2.2.1) (by rw [lrel.2.2.1]; exact h0)
    unfold dir_lookup
    simp only [a4, if_true, a5, k4]
    exact ⟨by simp [o1], o2⟩
  · exact absurd k3 (a1 k k1)

/-- C2 (amended): `dir_add` then `dir_lookup`.  On a consistent directory whose handle's inode
was allocated, with no null pointer among the open inodes and every allocation succeeding, for
a name without character 0 and a 32-bit sector: when `dir_add` returns true and leaves the
directory consistent, then after any further calls of `dir_add` and of `dir_remove` of other
names, each of which leaves the directory consistent and its records intact at its close,
`dir_lookup` of the name returns true with a handle whose inode number is the sector. -/
theorem dir_add_then_lookup (E : Env) (s : FS) (d : dir) (name : List Nat) (sector : Nat)
    (e0 : Nat → Nat) (ops : List dir_op) (L : Nat)
    (hp : pick_sound E) (hinj : Function.Injective E.cluster_to_sector)
    (hwf : dir_wf E s d.inode L) (hm : mem_ok E s) (h0 : 0 ∉ s.open_inodes)
    (halloc : d.inode ≤ s.mallocs) (hnz : ∀ c, c ∈ name → c ≠ 0)
    (hsec : sector < 4294967296)
    (hsucc : (dir_add E s d name sector e0).2 = true)
    (hafter : ∃ L', dir_wf E (dir_add E s d name sector e0).1 d.inode L')
    (hrun : run_ok E d name (dir_add E s d name sector e0).1 ops) :
    (dir_lookup E (dir_run E d (dir_add E s d name sector e0).1 ops) d name).2.1 = true ∧
    inode_get_inumber
      (dir_lookup E (dir_run E d (dir_add E s d name sector e0).1 ops) d name).1
      (dir_lookup E (dir_run E d (dir_add E s d name sector e0).1 ops) d name).2.2
        = sector := by
  obtain ⟨hne, hlen, hnew, hd⟩ :=
    dir_add_true E hp d.inode d.pos name sector e0 L s hwf hm hsucc
  obtain ⟨L', hwf'⟩ := hafter
  have hcov := dir_add_cover E hp d.inode d.pos name sector e0 L s hwf hm
    (by simp only [not_or, not_lt]; exact ⟨hne, hlen⟩) hnew hd L' hwf'
  obtain ⟨_, k, h1, _, _, _, h5, h6, h7, h8, _, _, h11, h12⟩ :=
    dir_add_spec E hp hinj d.inode d.pos name sector e0 L s hwf hm hd hne hlen hsec hnew hcov
  have hdd : d = { inode := d.inode, pos := d.pos } := rfl
  rw [← hdd] at h5 h6 h7 h8 h11 h12
  have hr : dir_ready E (dir_add E s d name sector e0).1 d.inode :=
    ⟨⟨L', hwf'⟩, mem_ok_mono E s _ hm h12, by rw [h11]; exact h0, le_trans halloc h12⟩
  have hmap : dir_maps E (dir_add E s d name sector e0).1 d.inode name sector := by
    refine ⟨k, by rw [h5]; exact lt_of_lt_of_le (Nat.lt_succ_self k) (le_max_right _ _),
      fun j hj hmatch => ?_, h6, h7⟩
    have hjK : j < dir_count s d.inode := lt_of_lt_of_le hj h1
    rw [h8 j hjK (by omega)] at hmatch
    exact hnew j hjK hmatch
  obtain ⟨g1, g2⟩ := dir_run_keeps E hp hinj d name sector hnz ops _ hr hmap hrun
  exact dir_lookup_maps E hp _ d name sector g1 g2

/-- C2 (amended), at a concrete input: after `dir_add` of `"a"` for sector 10 to the directory
of capacity 4, and after the further calls `dir_add` of `"b"`, `dir_remove` of `"b"` and
`dir_add` of `"c"`, `dir_lookup` of `"a"` returns true with inode number 10. -/
theorem dir_add_then_lookup_witness :
    (dir_lookup demo_env
      (dir_run demo_env demo_dir4 (dir_add demo_env demo_fs4 demo_dir4 [97] 10 (fun _ => 0)).1
        [dir_op.add [98] 11 (fun _ => 0), dir_op.remove [98], dir_op.add [99] 12 (fun _ => 0)])
      demo_dir4 [97]).2.1 = true ∧
    inode_get_inumber
      (dir_lookup demo_env
        (dir_run demo_env demo_dir4
          (dir_add demo_env demo_fs4 demo_dir4 [97] 10 (fun _ => 0)).1
          [dir_op.add [98] 11 (fun _ => 0), dir_op.remove [98],
            dir_op.add [99] 12 (fun _ => 0)])
        demo_dir4 [97]).1
      (dir_lookup demo_env
        (dir_run demo_env demo_dir4
          (dir_add demo_env demo_fs4 demo_dir4 [97] 10 (fun _ => 0)).1
          [dir_op.add [98] 11 (fun _ => 0), dir_op.remove [98],
            dir_op.add [99] 12 (fun _ => 0)])
        demo_dir4 [97]).2.2 = 10 :=
  dir_add_then_lookup demo_env demo_fs4 demo_dir4 [97] 10 (fun _ => 0)
    [dir_op.add [98] 11 (fun _ => 0), dir_op.remove [98], dir_op.add [99] 12 (fun _ => 0)] 1
    demo_pick_sound demo_sectors_injective (by unfold dir_wf chain_wf; decide) (demo_mem_ok _)
    (by decide) (by decide) (by decide) (by decide) (by decide)
    ⟨1, by unfold dir_wf chain_wf; decide⟩
    ⟨by unfold op_args_ok; decide, trivial, ⟨1, by unfold dir_wf chain_wf; decide⟩,
      by unfold op_args_ok; decide,
      ⟨by decide, by unfold close_quiet; decide⟩,
      ⟨1, by unfold dir_wf chain_wf; decide⟩,
      by unfold op_args_ok; decide, trivial, ⟨1, by unfold dir_wf chain_wf; decide⟩, trivial⟩

/-- C2 as stated fails: when the allocations that follow a successful `dir_add` of `"a"` fail,
the `dir_lookup` of `"a"` that follows returns false with the null pointer. -/
theorem dir_add_then_lookup_counterexample :
    (dir_add (demo_env_until demo_fs4_a.mallocs) demo_fs4 demo_dir4 [97] 10 (fun _ => 0)).2
      = true ∧
    (dir_lookup (demo_env_until demo_fs4_a.mallocs)
      (dir_add (demo_env_until demo_fs4_a.mallocs) demo_fs4 demo_dir4 [97] 10 (fun _ => 0)).1
      demo_dir4 [97]).2 = (false, 0) := by
  decide

/-! ## Theorems: close and open of an inode -/

/-- The state after the `inode_close` that is the last close of a handle. -/
theorem inode_close_last (E : Env) (s : FS) (ip : Nat) (hip : ip ≠ 0)
    (hcnt : (s.heap ip).open_cnt = 1) :
    (inode_close E s ip).disk
      = disk_write s.disk (s.heap ip).sector (bytes_of_inode_disk (s.heap ip).data) 0 ∧
    (inode_close E s ip).fat
      = (if (s.heap ip).removed = true then
          E.remove_chain (E.remove_chain s.fat (E.sector_to_cluster (s.heap ip).sector) 0)
            (E.sector_to_cluster (s.heap ip).data.start) 0
        else s.fat) ∧
    (inode_close E s ip).open_inodes = s.open_inodes.erase ip ∧
    (inode_close E s ip).mallocs = s.mallocs ∧
    (inode_close E s ip).heap
      = fun a => if a = ip then { s.heap ip with open_cnt := 0 } else s.heap a := by
  have h0 : (set_inode s ip { s.heap ip with open_cnt := (s.heap ip).open_cnt - 1 }).heap ip
      = { s.heap ip with open_cnt := (s.heap ip).open_cnt - 1 } := by
    unfold set_inode
    simp
  have hz : ((set_inode s ip { s.heap ip with open_cnt := (s.heap ip).open_cnt - 1 }).heap
      ip).open_cnt = 0 := by
    rw [h0]
    show (s.heap ip).open_cnt - 1 = 0
    omega
  unfold inode_close
  rw [if_neg hip]
  simp only [hz, if_true]
  rw [h0]
  refine ⟨rfl, ?_, rfl, rfl, ?_⟩
  · by_cases hr : (s.heap ip).removed = true
    · simp [hr, set_inode]
    · simp [hr, set_inode]
  · unfold set_inode
    funext a
    by_cases ha : a = ip
    · simp [ha, hcnt]
    · simp [ha]

/-- The state after an `inode_close` that is not the last close of a handle. -/
theorem inode_close_not_last (E : Env) (s : FS) (ip : Nat)
    (hcnt : (s.heap ip).open_cnt ≠ 1) :
    inode_close E s ip
      = if ip = 0 then s
        else set_inode s ip { s.heap ip with open_cnt := (s.heap ip).open_cnt - 1 } := by
  unfold inode_close
  by_cases hip : ip = 0
  · rw [if_pos hip, if_pos hip]
  · rw [if_neg hip, if_neg hip]
    have h0 : (set_inode s ip { s.heap ip with open_cnt := (s.heap ip).open_cnt - 1 }).heap ip
        = { s.heap ip with open_cnt := (s.heap ip).open_cnt - 1 } := by
      unfold set_inode
      simp
    have hz : ¬ ((set_inode s ip { s.heap ip with open_cnt := (s.heap ip).open_cnt - 1 }).heap
        ip).open_cnt = 0 := by
      rw [h0]
      show ¬ (s.heap ip).open_cnt - 1 = 0
      omega
    simp only [hz, if_false]

theorem disk_write_other (disk : Nat → Nat → Nat) (sec : Nat) (src : Nat → Nat) (so t : Nat)
    (h : t ≠ sec) : disk_write disk sec src so t = disk t := by
  unfold disk_write
  rw [if_neg h]

theorem disk_write_same (disk : Nat → Nat → Nat) (sec : Nat) (src : Nat → Nat) (so i : Nat)
    (h : i < 512) : disk_write disk sec src so sec i = src (so + i) := by
  unfold disk_write
  rw [if_pos rfl, if_pos h]

/-- C11 (amended): the last close of a removed inode writes the cached record back.  When
`inode_close` brings `open_cnt` to 0 on a handle with `removed` true, the call writes one
device sector, the handle's own, which receives the bytes of the cached record; every other
sector of the device is the same after the call as before. -/
theorem inode_close_removed (E : Env) (s : FS) (ip : Nat) (hip : ip ≠ 0)
    (hcnt : (s.heap ip).open_cnt = 1) (hrem : (s.heap ip).removed = true) :
    (inode_close E s ip).disk
      = disk_write s.disk (s.heap ip).sector (bytes_of_inode_disk (s.heap ip).data) 0 ∧
    (∀ t, t ≠ (s.heap ip).sector → (inode_close E s ip).disk t = s.disk t) ∧
    (∀ i, i < 512 →
      (inode_close E s ip).disk (s.heap ip).sector i
        = bytes_of_inode_disk (s.heap ip).data i) ∧
    (inode_close E s ip).fat
      = E.remove_chain (E.remove_chain s.fat (E.sector_to_cluster (s.heap ip).sector) 0)
          (E.sector_to_cluster (s.heap ip).data.start) 0 := by
  obtain ⟨a, b, _, _, _⟩ := inode_close_last E s ip hip hcnt
  rw [a, b, if_pos hrem]
  refine ⟨rfl, fun t ht => disk_write_other _ _ _ _ t ht, fun i hi => ?_, rfl⟩
  rw [disk_write_same _ _ _ _ i hi, Nat.zero_add]

/-- C11 (amended), at a concrete input: the last close of the example inode, at sector 107,
after `inode_remove`. -/
theorem inode_close_removed_witness :
    (inode_close demo_env demo_fs_removed 1).disk
      = disk_write demo_fs_removed.disk (demo_fs_removed.heap 1).sector
          (bytes_of_inode_disk (demo_fs_removed.heap 1).data) 0 ∧
    (∀ t, t ≠ (demo_fs_removed.heap 1).sector →
      (inode_close demo_env demo_fs_removed 1).disk t = demo_fs_removed.disk t) ∧
    (∀ i, i < 512 →
      (inode_close demo_env demo_fs_removed 1).disk (demo_fs_removed.heap 1).sector i
        = bytes_of_inode_disk (demo_fs_removed.heap 1).data i) ∧
    (inode_close demo_env demo_fs_removed 1).fat
      = demo_env.remove_chain
          (demo_env.remove_chain demo_fs_removed.fat
            (demo_env.sector_to_cluster (demo_fs_removed.heap 1).sector) 0)
          (demo_env.sector_to_cluster (demo_fs_removed.heap 1).data.start) 0 :=
  inode_close_removed demo_env demo_fs_removed 1 (by decide) (by decide) (by decide)

/-- C11 as stated fails: the last close of the removed example inode changes the device: byte
0 of sector 107, the handle's sector, was 0 and holds 101, the first byte of the cached
record, after the call. -/
theorem inode_close_removed_counterexample :
    (demo_fs_removed.heap 1).open_cnt = 1 ∧ (demo_fs_removed.heap 1).removed = true ∧
    (demo_fs_removed.heap 1).sector = 107 ∧
    demo_fs_removed.disk 107 0 = 0 ∧
    (inode_close demo_env demo_fs_removed 1).disk 107 0 = 101 ∧
    (inode_close demo_env demo_fs_removed 1).disk ≠ demo_fs_removed.disk := by
  refine ⟨by decide, by decide, by decide, by decide, by decide, fun h => ?_⟩
  have h1 : (inode_close demo_env demo_fs_removed 1).disk 107 0 = demo_fs_removed.disk 107 0 := by
    rw [h]
  revert h1
  decide

/-- C12: deferred deletion.  `inode_close` releases storage exactly when it is the last close
of a removed inode: the chain table after the call is the one after the allocator's release,
with keep count 0, of the chain anchored at the cluster of the handle's sector and then of the
chain anchored at the cluster of `data.start`, when `open_cnt` reaches 0 and `removed` is
true, and it is unchanged in every other case; with `open_cnt > 1` the call only decrements
`open_cnt`: the handle stays registered, and the device, the other fields of the handle and
the other handles are as before. -/
theorem inode_close_release (E : Env) (s : FS) (ip : Nat) :
    (inode_close E s ip).fat
      = (if ip ≠ 0 ∧ (s.heap ip).open_cnt = 1 ∧ (s.heap ip).removed = true then
          E.remove_chain (E.remove_chain s.fat (E.sector_to_cluster (s.heap ip).sector) 0)
            (E.sector_to_cluster (s.heap ip).data.start) 0
        else s.fat) ∧
    (1 < (s.heap ip).open_cnt →
      (inode_close E s ip).open_inodes = s.open_inodes ∧
      (inode_close E s ip).disk = s.disk ∧
      (inode_close E s ip).fat = s.fat ∧
      (ip ≠ 0 → (inode_close E s ip).heap ip
        = { s.heap ip with open_cnt := (s.heap ip).open_cnt - 1 }) ∧
      (∀ a, a ≠ ip → (inode_close E s ip).heap a = s.heap a)) := by
  constructor
  · by_cases hip : ip = 0
    · rw [if_neg (by simp [hip])]
      unfold inode_close
      rw [if_pos hip]
    · by_cases hcnt : (s.heap ip).open_cnt = 1
      · rw [(inode_close_last E s ip hip hcnt).2.1]
        by_cases hr : (s.heap ip).removed = true
        · rw [if_pos hr, if_pos ⟨hip, hcnt, hr⟩]
        · rw [if_neg hr, if_neg (fun h => hr h.2.2)]
      · rw [inode_close_not_last E s ip hcnt, if_neg hip, if_neg (fun h => hcnt h.2.1)]
        rfl
  · intro h
    rw [inode_close_not_last E s ip (by omega)]
    by_cases hip : ip = 0
    · rw [if_pos hip]
      exact ⟨rfl, rfl, rfl, fun h' => absurd hip h', fun _ _ => rfl⟩
    · rw [if_neg hip]
      refine ⟨rfl, rfl, rfl, fun _ => ?_, fun a ha => ?_⟩
      · unfold set_inode
        simp
      · unfold set_inode
        simp [ha]

/-- C12, at concrete inputs: the last close of the removed example inode releases its chain
(cluster 1 is free afterwards), and the close of a handle opened twice releases nothing and
leaves it registered with `open_cnt` 1. -/
theorem inode_close_release_witness :
    ((inode_close demo_env demo_fs_removed 1).fat
      = (if 1 ≠ 0 ∧ (demo_fs_removed.heap 1).open_cnt = 1 ∧
            (demo_fs_removed.heap 1).removed = true then
          demo_env.remove_chain
            (demo_env.remove_chain demo_fs_removed.fat
              (demo_env.sector_to_cluster (demo_fs_removed.heap 1).sector) 0)
            (demo_env.sector_to_cluster (demo_fs_removed.heap 1).data.start) 0
        else demo_fs_removed.fat) ∧
      (1 < (demo_fs_removed.heap 1).open_cnt →
        (inode_close demo_env demo_fs_removed 1).open_inodes = demo_fs_removed.open_inodes ∧
        (inode_close demo_env demo_fs_removed 1).disk = demo_fs_removed.disk ∧
        (inode_close demo_env demo_fs_removed 1).fat = demo_fs_removed.fat ∧
        (1 ≠ 0 → (inode_close demo_env demo_fs_removed 1).heap 1
          = { demo_fs_removed.heap 1 with
              open_cnt := (demo_fs_removed.heap 1).open_cnt - 1 }) ∧
        (∀ a, a ≠ 1 → (inode_close demo_env demo_fs_removed 1).heap a
          = demo_fs_removed.heap a))) ∧
    demo_fs_removed.fat 1 = 268435455 ∧
    (inode_close demo_env demo_fs_removed 1).fat 1 = 0 ∧
    (inode_close demo_env (inode_reopen demo_fs_removed 1).1 1).fat 1 = 268435455 ∧
    (inode_close demo_env (inode_reopen demo_fs_removed 1).1 1).open_inodes = [1] ∧
    ((inode_close demo_env (inode_reopen demo_fs_removed 1).1 1).heap 1).open_cnt = 1 :=
  ⟨inode_close_release demo_env demo_fs_removed 1, by decide, by decide, by decide, by decide,
    by decide⟩

theorem le32_at (e : Nat → Nat) (v o : Nat) (h : ∀ i, i < 4 → e (o + i) = le_byte v i) :
    le32 e o = v % 4294967296 := by
  unfold le32
  have h0 := h 0 (by omega)
  rw [Nat.add_zero] at h0
  rw [h0, h 1 (by omega), h 2 (by omega), h 3 (by omega)]
  unfold le_byte
  norm_num
  omega

theorem to_signed_of_int (len : Int) (h0 : -2147483648 ≤ len) (h1 : len < 2147483648) :
    to_signed ((len % 4294967296).toNat % 4294967296) = len := by
  unfold to_signed
  have hlt : (len % 4294967296).toNat < 4294967296 := by omega
  rw [Nat.mod_eq_of_lt hlt]
  by_cases hn : 0 ≤ len
  · have : (len % 4294967296).toNat < 2147483648 := by omega
    rw [if_pos this]
    omega
  · have : ¬ (len % 4294967296).toNat < 2147483648 := by omega
    rw [if_neg this]
    omega

/-- The length that the bytes of a cached record hold. -/
theorem inode_disk_length_roundtrip (d : inode_disk) (b : Nat → Nat)
    (hb : ∀ i, i < 512 → b i = bytes_of_inode_disk d i)
    (h0 : -2147483648 ≤ d.length) (h1 : d.length < 2147483648) :
    (inode_disk_of_bytes b).length = d.length := by
  unfold inode_disk_of_bytes
  show to_signed (le32 b 4) = d.length
  rw [le32_at b (d.length % 4294967296).toNat 4 (fun i hi => by
    rw [hb (4 + i) (by omega)]
    unfold bytes_of_inode_disk
    rw [if_neg (by omega), if_pos (by omega)]
    congr 1
    omega)]
  exact to_signed_of_int d.length h0 h1

/-- The result of `inode_open` when no registered handle has the sector: a fresh handle when
`malloc` succeeds, the null pointer otherwise. -/
theorem inode_open_fresh (E : Env) (s : FS) (sector : Nat)
    (hnone : ∀ a, a ∈ s.open_inodes → (s.heap a).sector ≠ sector) :
    inode_open E s sector
      = if E.malloc_ok s.mallocs = true then
          (set_inode
            { s with mallocs := s.mallocs + 1, open_inodes := (s.mallocs + 1) :: s.open_inodes }
            (s.mallocs + 1)
            { sector := sector, open_cnt := 1, deny_write_cnt := 0, removed := false,
              data := inode_disk_of_bytes (s.disk sector) },
           s.mallocs + 1)
        else ({ s with mallocs := s.mallocs + 1 }, 0) := by
  have hfind : s.open_inodes.find? (fun a => decide ((s.heap a).sector = sector)) = none := by
    rw [List.find?_eq_none]
    intro a ha
    simp only [decide_eq_true_eq]
    exact hnone a ha
  unfold inode_open
  rw [hfind]
  simp only []
  unfold malloc
  simp only []
  by_cases hm : E.malloc_ok s.mallocs = true
  · rw [if_pos hm, if_pos hm, if_neg (by omega)]
  · rw [if_neg hm, if_neg hm, if_pos rfl]

/-- The result of `inode_open` when a registered handle has the sector: the first such handle
of the list, reopened. -/
theorem inode_open_found (E : Env) (s : FS) (sector : Nat)
    (hsome : ∃ a, a ∈ s.open_inodes ∧ (s.heap a).sector = sector) :
    ∃ a, a ∈ s.open_inodes ∧ (s.heap a).sector = sector ∧
      inode_open E s sector = inode_reopen s a := by
  cases hfind : s.open_inodes.find? (fun a => decide ((s.heap a).sector = sector)) with
  | none =>
    rw [List.find?_eq_none] at hfind
    obtain ⟨a, ha, hs⟩ := hsome
    have := hfind a ha
    simp only [decide_eq_true_eq] at this
    exact absurd hs this
  | some a =>
    have hmem := List.mem_of_find?_eq_some hfind
    have hp := List.find?_some hfind
    simp only [decide_eq_true_eq] at hp
    refine ⟨a, hmem, hp, ?_⟩
    unfold inode_open
    rw [hfind]

/-- C13: persistence across close and open.  When `inode_close` brings `open_cnt` to 0 on a
handle with `removed` false, whose length is an `off_t` value, the bytes of the cached record
are in the handle's sector afterwards; a following `inode_open` of that sector, for which no
other handle is registered, returns a handle when its `malloc` succeeds, and the handle it
returns has the inode number and the `inode_length` that the closed handle had. -/
theorem inode_close_then_open (E : Env) (s : FS) (ip : Nat) (hip : ip ≠ 0)
    (hcnt : (s.heap ip).open_cnt = 1) (hrem : (s.heap ip).removed = false)
    (h0 : -2147483648 ≤ inode_length s ip) (h1 : inode_length s ip < 2147483648)
    (huniq : ∀ a, a ∈ s.open_inodes.erase ip → (s.heap a).sector ≠ (s.heap ip).sector) :
    (∀ i, i < 512 →
      (inode_close E s ip).disk (s.heap ip).sector i
        = bytes_of_inode_disk (s.heap ip).data i) ∧
    (inode_close E s ip).fat = s.fat ∧
    (E.malloc_ok s.mallocs = true →
      (inode_open E (inode_close E s ip) (s.heap ip).sector).2 ≠ 0) ∧
    ((inode_open E (inode_close E s ip) (s.heap ip).sector).2 ≠ 0 →
      inode_length (inode_open E (inode_close E s ip) (s.heap ip).sector).1
        (inode_open E (inode_close E s ip) (s.heap ip).sector).2 = inode_length s ip ∧
      inode_get_inumber (inode_open E (inode_close E s ip) (s.heap ip).sector).1
        (inode_open E (inode_close E s ip) (s.heap ip).sector).2 = (s.heap ip).sector) := by
  obtain ⟨c1, c2, c3, c4, c5⟩ := inode_close_last E s ip hip hcnt
  have hdisk : ∀ i, i < 512 →
      (inode_close E s ip).disk (s.heap ip).sector i
        = bytes_of_inode_disk (s.heap ip).data i := by
    intro i hi
    rw [c1, disk_write_same _ _ _ _ i hi, Nat.zero_add]
  have hsec : ∀ a, ((inode_close E s ip).heap a).sector = (s.heap a).sector := by
    intro a
    rw [c5]
    by_cases ha : a = ip
    · simp [ha]
    · simp [ha]
  have hnone : ∀ a, a ∈ (inode_close E s ip).open_inodes →
      ((inode_close E s ip).heap a).sector ≠ (s.heap ip).sector := by
    intro a ha
    rw [hsec a]
    exact huniq a (by rw [← c3]; exact ha)
  have hopen := inode_open_fresh E (inode_close E s ip) (s.heap ip).sector hnone
  rw [c4] at hopen
  refine ⟨hdisk, by rw [c2, if_neg (by simp [hrem])], fun hm => ?_, fun hne => ?_⟩
  · rw [hopen, if_pos hm]
    exact Nat.succ_ne_zero _
  · by_cases hm : E.malloc_ok s.mallocs = true
    · rw [hopen, if_pos hm]
      unfold inode_length inode_get_inumber set_inode
      simp only [if_true]
      exact ⟨inode_disk_length_roundtrip (s.heap ip).data _ hdisk h0 h1, trivial⟩
    · rw [hopen, if_neg hm] at hne
      exact absurd rfl hne

/-- C13, at a concrete input: the example inode after a write that grew its length from 0 to
603 is closed and opened again at its sector 107. -/
theorem inode_close_then_open_witness :
    inode_length demo_fs_grown 1 = 603 ∧
    ((∀ i, i < 512 →
      (inode_close demo_env demo_fs_grown 1).disk (demo_fs_grown.heap 1).sector i
        = bytes_of_inode_disk (demo_fs_grown.heap 1).data i) ∧
    (inode_close demo_env demo_fs_grown 1).fat = demo_fs_grown.fat ∧
    (demo_env.malloc_ok demo_fs_grown.mallocs = true →
      (inode_open demo_env (inode_close demo_env demo_fs_grown 1)
        (demo_fs_grown.heap 1).sector).2 ≠ 0) ∧
    ((inode_open demo_env (inode_close demo_env demo_fs_grown 1)
        (demo_fs_grown.heap 1).sector).2 ≠ 0 →
      inode_length
        (inode_open demo_env (inode_close demo_env demo_fs_grown 1)
          (demo_fs_grown.heap 1).sector).1
        (inode_open demo_env (inode_close demo_env demo_fs_grown 1)
          (demo_fs_grown.heap 1).sector).2 = inode_length demo_fs_grown 1 ∧
      inode_get_inumber
        (inode_open demo_env (inode_close demo_env demo_fs_grown 1)
          (demo_fs_grown.heap 1).sector).1
        (inode_open demo_env (inode_close demo_env demo_fs_grown 1)
          (demo_fs_grown.heap 1).sector).2 = (demo_fs_grown.heap 1).sector)) :=
  ⟨by decide,
    inode_close_then_open demo_env demo_fs_grown 1 (by decide) (by decide) (by decide)
      (by decide) (by decide) (by decide)⟩

/-! ## Theorems: the registry of open inodes -/

theorem registry_ok_nil (s : FS) (h : s.open_inodes = []) : registry_ok s := by
  unfold registry_ok
  rw [h]
  exact ⟨fun a ha => absurd ha (List.not_mem_nil a), List.nodup_nil,
    fun a ha => absurd ha (List.not_mem_nil a)⟩

/-- The registry stays in order when the list and the sectors are kept and the counts of
openers stay positive. -/
theorem registry_ok_keep (s s' : FS) (h : registry_ok s) (hl : s'.open_inodes = s.open_inodes)
    (hm : s.mallocs ≤ s'.mallocs)
    (hh : ∀ a, a ∈ s.open_inodes →
      (s'.heap a).sector = (s.heap a).sector ∧ 1 ≤ (s'.heap a).open_cnt) :
    registry_ok s' := by
  obtain ⟨h1, h2, h3⟩ := h
  unfold registry_ok
  rw [hl]
  refine ⟨fun a ha => ⟨(h1 a ha).1, le_trans (h1 a ha).2.1 hm, (hh a ha).2⟩, h2,
    fun a ha b hb hs => ?_⟩
  rw [(hh a ha).1, (hh b hb).1] at hs
  exact h3 a ha b hb hs

theorem registry_ok_reopen (s : FS) (a : Nat) (h : registry_ok s) :
    registry_ok (inode_reopen s a).1 := by
  unfold inode_reopen
  by_cases ha : a ≠ 0
  · rw [if_pos ha]
    refine registry_ok_keep s _ h rfl (le_refl _) (fun b hb => ?_)
    unfold set_inode
    by_cases hba : b = a
    · subst hba
      simp only [if_true]
      have := (h.1 b hb).2.2
      exact ⟨trivial, by omega⟩
    · simp only [hba, if_false]
      exact ⟨trivial, (h.1 b hb).2.2⟩
  · rw [if_neg ha]
    exact h

theorem registry_ok_open (E : Env) (s : FS) (sector : Nat) (h : registry_ok s) :
    registry_ok (inode_open E s sector).1 := by
  by_cases hsome : ∃ a, a ∈ s.open_inodes ∧ (s.heap a).sector = sector
  · obtain ⟨a, _, _, heq⟩ := inode_open_found E s sector hsome
    rw [heq]
    exact registry_ok_reopen s a h
  · have hnone : ∀ a, a ∈ s.open_inodes → (s.heap a).sector ≠ sector :=
      fun a ha hs => hsome ⟨a, ha, hs⟩
    rw [inode_open_fresh E s sector hnone]
    by_cases hm : E.malloc_ok s.mallocs = true
    · rw [if_pos hm]
      obtain ⟨h1, h2, h3⟩ := h
      have hfresh : ∀ b, b ∈ s.open_inodes → b ≠ s.mallocs + 1 := by
        intro b hb
        have := (h1 b hb).2.1
        omega
      have hheap : ∀ b, b ∈ s.open_inodes →
          (set_inode
            { s with mallocs := s.mallocs + 1, open_inodes := (s.mallocs + 1) :: s.open_inodes }
            (s.mallocs + 1)
            { sector := sector, open_cnt := 1, deny_write_cnt := 0, removed := false,
              data := inode_disk_of_bytes (s.disk sector) }).heap b = s.heap b := by
        intro b hb
        unfold set_inode
        simp [hfresh b hb]
      have hnew : (set_inode
            { s with mallocs := s.mallocs + 1, open_inodes := (s.mallocs + 1) :: s.open_inodes }
            (s.mallocs + 1)
            { sector := sector, open_cnt := 1, deny_write_cnt := 0, removed := false,
              data := inode_disk_of_bytes (s.disk sector) }).heap (s.mallocs + 1)
          = { sector := sector, open_cnt := 1, deny_write_cnt := 0, removed := false,
              data := inode_disk_of_bytes (s.disk sector) } := by
        unfold set_inode
        simp
      unfold registry_ok
      refine ⟨?_, ?_, ?_⟩
      · intro b hb
        rcases List.mem_cons.1 hb with hb | hb
        · rw [hb, hnew]
          exact ⟨Nat.succ_ne_zero _, le_refl _, le_refl _⟩
        · rw [hheap b hb]
          exact ⟨(h1 b hb).1, Nat.le_succ_of_le (h1 b hb).2.1, (h1 b hb).2.2⟩
      · exact List.nodup_cons.2 ⟨fun hmem => hfresh _ hmem rfl, h2⟩
      · intro a ha b hb hs
        rcases List.mem_cons.1 ha with ha | ha
        · rcases List.mem_cons.1 hb with hb | hb
          · rw [ha, hb]
          · rw [ha, hnew, hheap b hb] at hs
            exact absurd hs.symm (hnone b hb)
        · rcases List.mem_cons.1 hb with hb | hb
          · rw [hb, hnew, hheap a ha] at hs
            exact absurd hs (hnone a ha)
          · rw [hheap a ha, hheap b hb] at hs
            exact h3 a ha b hb hs
    · rw [if_neg hm]
      exact registry_ok_keep s _ h rfl (Nat.le_succ _) (fun b hb => ⟨rfl, (h.1 b hb).2.2⟩)

theorem registry_ok_close (E : Env) (s : FS) (a : Nat) (h : registry_ok s) :
    registry_ok (inode_close E s a) := by
  by_cases hcnt : (s.heap a).open_cnt = 1
  · by_cases ha : a = 0
    · unfold inode_close
      rw [if_pos ha]
      exact h
    · obtain ⟨_, _, c3, c4, c5⟩ := inode_close_last E s a ha hcnt
      obtain ⟨h1, h2, h3⟩ := h
      have hmem : ∀ b, b ∈ s.open_inodes.erase a → b ∈ s.open_inodes ∧ b ≠ a := by
        intro b hb
        have := (List.Nodup.mem_erase_iff h2).1 hb
        exact ⟨this.2, this.1⟩
      have hheap : ∀ b, b ∈ s.open_inodes.erase a → (inode_close E s a).heap b = s.heap b := by
        intro b hb
        rw [c5]
        simp [(hmem b hb).2]
      unfold registry_ok
      rw [c3, c4]
      refine ⟨fun b hb => ?_, List.Nodup.erase a h2, fun b hb c hc hs => ?_⟩
      · rw [hheap b hb]
        exact h1 b (hmem b hb).1
      · rw [hheap b hb, hheap c hc] at hs
        exact h3 b (hmem b hb).1 c (hmem c hc).1 hs
  · rw [inode_close_not_last E s a hcnt]
    by_cases ha : a = 0
    · rw [if_pos ha]
      exact h
    · rw [if_neg ha]
      refine registry_ok_keep s _ h rfl (le_refl _) (fun b hb => ?_)
      unfold set_inode
      by_cases hba : b = a
      · subst hba
        simp only [if_true]
        have := (h.1 b hb).2.2
        exact ⟨trivial, by omega⟩
      · simp only [hba, if_false]
        exact ⟨trivial, (h.1 b hb).2.2⟩

/-- The registry stays in order along any sequence of `inode_open`, `inode_reopen` and
`inode_close` calls, none of which can fail an assertion. -/
theorem registry_ok_run (E : Env) :
    ∀ (ops : List inode_op) (s : FS), registry_ok s → (∀ op, op ∈ ops → op_plain op) →
      ∃ s', inode_run E s ops = some s' ∧ registry_ok s' := by
  intro ops
  induction ops with
  | nil =>
    intro s h _
    exact ⟨s, rfl, h⟩
  | cons op ops ih =>
    intro s h hops
    have hrest : ∀ o, o ∈ ops → op_plain o := fun o ho => hops o (List.mem_cons_of_mem _ ho)
    have hop := hops op (List.mem_cons_self _ _)
    cases op with
    | open_at sector => exact ih _ (registry_ok_open E s sector h) hrest
    | reopen a => exact ih _ (registry_ok_reopen s a h) hrest
    | close a => exact ih _ (registry_ok_close E s a h) hrest
    | deny a => exact absurd hop (by simp [op_plain])
    | allow a => exact absurd hop (by simp [op_plain])

/-- C14: `inode_open` aliases per sector.  In a registry in order, `inode_open (sector)`
returns a registered handle of that sector, with `open_cnt` incremented by 1 and nothing else
changed, when one is registered; otherwise, when `malloc` succeeds, it registers and returns a
fresh handle with `open_cnt = 1`, `removed = false`, `deny_write_cnt = 0` and `data` equal to
the device record at the sector, and leaves the registered handles as they are.  After any
sequence of `inode_open`, `inode_reopen` and `inode_close` calls the registry is in order
again: it holds at most one handle per sector and every registered handle has
`open_cnt >= 1`. -/
theorem inode_open_aliases (E : Env) (s : FS) (sector : Nat) (ops : List inode_op)
    (hreg : registry_ok s) (hops : ∀ op, op ∈ ops → op_plain op) :
    ((∃ a, a ∈ s.open_inodes ∧ (s.heap a).sector = sector) →
      ∃ a, a ∈ s.open_inodes ∧ (s.heap a).sector = sector ∧
        inode_open E s sector
          = (set_inode s a { s.heap a with open_cnt := (s.heap a).open_cnt + 1 }, a)) ∧
    ((∀ a, a ∈ s.open_inodes → (s.heap a).sector ≠ sector) →
      E.malloc_ok s.mallocs = true →
      (inode_open E s sector).2 ≠ 0 ∧ (inode_open E s sector).2 ∉ s.open_inodes ∧
      (inode_open E s sector).1.open_inodes = (inode_open E s sector).2 :: s.open_inodes ∧
      (inode_open E s sector).1.heap (inode_open E s sector).2
        = { sector := sector, open_cnt := 1, deny_write_cnt := 0, removed := false,
            data := inode_disk_of_bytes (s.disk sector) } ∧
      (∀ a, a ∈ s.open_inodes → (inode_open E s sector).1.heap a = s.heap a) ∧
      (inode_open E s sector).1.disk = s.disk ∧ (inode_open E s sector).1.fat = s.fat) ∧
    ∃ s', inode_run E s ops = some s' ∧ registry_ok s' ∧
      (∀ a, a ∈ s'.open_inodes → 1 ≤ (s'.heap a).open_cnt) ∧
      (∀ a, a ∈ s'.open_inodes → ∀ b, b ∈ s'.open_inodes →
        (s'.heap a).sector = (s'.heap b).sector → a = b) := by
  refine ⟨fun hsome => ?_, fun hnone hm => ?_, ?_⟩
  · obtain ⟨a, ha, hs, heq⟩ := inode_open_found E s sector hsome
    refine ⟨a, ha, hs, ?_⟩
    rw [heq]
    unfold inode_reopen
    rw [if_pos (hreg.1 a ha).1]
  · have hfresh : ∀ b, b ∈ s.open_inodes → b ≠ s.mallocs + 1 := by
      intro b hb
      have := (hreg.1 b hb).2.1
      omega
    rw [inode_open_fresh E s sector hnone, if_pos hm]
    refine ⟨Nat.succ_ne_zero _, fun hmem => hfresh _ hmem rfl, rfl, ?_, fun a ha => ?_,
      rfl, rfl⟩
    · unfold set_inode
      simp
    · unfold set_inode
      simp [hfresh a ha]
  · obtain ⟨s', h1, h2⟩ := registry_ok_run E ops s hreg hops
    exact ⟨s', h1, h2, fun a ha => (h2.1 a ha).2.2, h2.2.2⟩

/-- C14, at a concrete input: from the empty registry, `inode_open (5)` twice gives the same
handle with `open_cnt` 2, and the registry is in order after opens, a reopen and closes. -/
theorem inode_open_aliases_witness :
    (((∃ a, a ∈ demo_fs0.open_inodes ∧ (demo_fs0.heap a).sector = 5) →
      ∃ a, a ∈ demo_fs0.open_inodes ∧ (demo_fs0.heap a).sector = 5 ∧
        inode_open demo_env demo_fs0 5
          = (set_inode demo_fs0 a
              { demo_fs0.heap a with open_cnt := (demo_fs0.heap a).open_cnt + 1 }, a)) ∧
    ((∀ a, a ∈ demo_fs0.open_inodes → (demo_fs0.heap a).sector ≠ 5) →
      demo_env.malloc_ok demo_fs0.mallocs = true →
      (inode_open demo_env demo_fs0 5).2 ≠ 0 ∧
      (inode_open demo_env demo_fs0 5).2 ∉ demo_fs0.open_inodes ∧
      (inode_open demo_env demo_fs0 5).1.open_inodes
        = (inode_open demo_env demo_fs0 5).2 :: demo_fs0.open_inodes ∧
      (inode_open demo_env demo_fs0 5).1.heap (inode_open demo_env demo_fs0 5).2
        = { sector := 5, open_cnt := 1, deny_write_cnt := 0, removed := false,
            data := inode_disk_of_bytes (demo_fs0.disk 5) } ∧
      (∀ a, a ∈ demo_fs0.open_inodes →
        (inode_open demo_env demo_fs0 5).1.heap a = demo_fs0.heap a) ∧
      (inode_open demo_env demo_fs0 5).1.disk = demo_fs0.disk ∧
      (inode_open demo_env demo_fs0 5).1.fat = demo_fs0.fat) ∧
    ∃ s', inode_run demo_env demo_fs0
        [inode_op.open_at 5, inode_op.open_at 6, inode_op.open_at 5, inode_op.reopen 2,
          inode_op.close 1, inode_op.close 2] = some s' ∧ registry_ok s' ∧
      (∀ a, a ∈ s'.open_inodes → 1 ≤ (s'.heap a).open_cnt) ∧
      (∀ a, a ∈ s'.open_inodes → ∀ b, b ∈ s'.open_inodes →
        (s'.heap a).sector = (s'.heap b).sector → a = b)) ∧
    (inode_open demo_env (inode_open demo_env demo_fs0 5).1 5).2
      = (inode_open demo_env demo_fs0 5).2 ∧
    ((inode_open demo_env (inode_open demo_env demo_fs0 5).1 5).1.heap
      (inode_open demo_env demo_fs0 5).2).open_cnt = 2 ∧
    (inode_open demo_env (inode_open demo_env demo_fs0 5).1 5).1.open_inodes = [1] :=
  ⟨inode_open_aliases demo_env demo_fs0 5
      [inode_op.open_at 5, inode_op.open_at 6, inode_op.open_at 5, inode_op.reopen 2,
        inode_op.close 1, inode_op.close 2]
      (registry_ok_nil demo_fs0 rfl) (by simp [op_plain]),
    by decide, by decide, by decide⟩

/-! ## Theorems: the count of write denials -/

theorem deny_ok_keep (s s' : FS) (h : deny_ok s)
    (hl : ∀ a, a ∈ s'.open_inodes → a ∈ s.open_inodes)
    (hh : ∀ a, a ∈ s.open_inodes →
      0 ≤ (s.heap a).deny_write_cnt → (s.heap a).deny_write_cnt ≤ (s.heap a).open_cnt →
      0 ≤ (s'.heap a).deny_write_cnt ∧ (s'.heap a).deny_write_cnt ≤ (s'.heap a).open_cnt) :
    deny_ok s' :=
  fun a ha => hh a (hl a ha) (h a (hl a ha)).1 (h a (hl a ha)).2

theorem deny_ok_reopen (s : FS) (a : Nat) (h : deny_ok s) : deny_ok (inode_reopen s a).1 := by
  unfold inode_reopen
  by_cases ha : a ≠ 0
  · rw [if_pos ha]
    refine deny_ok_keep s _ h (fun b hb => hb) (fun b _ h0 h1 => ?_)
    unfold set_inode
    by_cases hba : b = a
    · subst hba
      simp only [if_true]
      exact ⟨h0, by omega⟩
    · simp only [hba, if_false]
      exact ⟨h0, h1⟩
  · rw [if_neg ha]
    exact h

theorem deny_ok_open (E : Env) (s : FS) (sector : Nat) (h : deny_ok s) :
    deny_ok (inode_open E s sector).1 := by
  by_cases hsome : ∃ a, a ∈ s.open_inodes ∧ (s.heap a).sector = sector
  · obtain ⟨a, _, _, heq⟩ := inode_open_found E s sector hsome
    rw [heq]
    exact deny_ok_reopen s a h
  · have hnone : ∀ a, a ∈ s.open_inodes → (s.heap a).sector ≠ sector :=
      fun a ha hs => hsome ⟨a, ha, hs⟩
    rw [inode_open_fresh E s sector hnone]
    by_cases hm : E.malloc_ok s.mallocs = true
    · rw [if_pos hm]
      intro b hb
      unfold set_inode
      by_cases hbm : b = s.mallocs + 1
      · simp [hbm]
      · simp only [hbm, if_false]
        have hb' : b ∈ (s.mallocs + 1) :: s.open_inodes := hb
        rcases List.mem_cons.1 hb' with hb' | hb'
        · exact absurd hb' hbm
        · exact h b hb'
    · rw [if_neg hm]
      exact h

theorem deny_ok_close (E : Env) (s : FS) (a : Nat) (h : deny_ok s)
    (hg : (s.heap a).deny_write_cnt < (s.heap a).open_cnt) : deny_ok (inode_close E s a) := by
  by_cases ha : a = 0
  · unfold inode_close
    rw [if_pos ha]
    exact h
  by_cases hcnt : (s.heap a).open_cnt = 1
  · obtain ⟨_, _, c3, _, c5⟩ := inode_close_last E s a ha hcnt
    refine deny_ok_keep s _ h (fun b hb => ?_) (fun b _ h0 h1 => ?_)
    · rw [c3] at hb
      exact List.mem_of_mem_erase hb
    · rw [c5]
      by_cases hba : b = a
      · subst hba
        simp only [if_true]
        show 0 ≤ (s.heap b).deny_write_cnt ∧ (s.heap b).deny_write_cnt ≤ 0
        omega
      · simp only [hba, if_false]
        exact ⟨h0, h1⟩
  · rw [inode_close_not_last E s a hcnt, if_neg ha]
    refine deny_ok_keep s _ h (fun b hb => hb) (fun b _ h0 h1 => ?_)
    unfold set_inode
    by_cases hba : b = a
    · subst hba
      simp only [if_true]
      show 0 ≤ (s.heap b).deny_write_cnt ∧ (s.heap b).deny_write_cnt ≤ (s.heap b).open_cnt - 1
      omega
    · simp only [hba, if_false]
      exact ⟨h0, h1⟩

theorem deny_ok_deny (s s1 : FS) (a : Nat) (h : deny_ok s)
    (hs : inode_deny_write s a = some s1) : deny_ok s1 := by
  unfold inode_deny_write at hs
  simp only [] at hs
  have hheap : (set_inode s a
      { s.heap a with deny_write_cnt := (s.heap a).deny_write_cnt + 1 }).heap a
      = { s.heap a with deny_write_cnt := (s.heap a).deny_write_cnt + 1 } := by
    unfold set_inode
    simp
  rw [hheap] at hs
  by_cases hc : (s.heap a).deny_write_cnt + 1 ≤ (s.heap a).open_cnt
  · rw [if_pos hc] at hs
    rw [← Option.some.inj hs]
    refine deny_ok_keep s _ h (fun b hb => hb) (fun b _ h0 h1 => ?_)
    unfold set_inode
    by_cases hba : b = a
    · subst hba
      simp only [if_true]
      show 0 ≤ (s.heap b).deny_write_cnt + 1 ∧
        (s.heap b).deny_write_cnt + 1 ≤ (s.heap b).open_cnt
      omega
    · simp only [hba, if_false]
      exact ⟨h0, h1⟩
  · rw [if_neg hc] at hs
    exact absurd hs (by simp)

theorem deny_ok_allow (s s1 : FS) (a : Nat) (h : deny_ok s)
    (hs : inode_allow_write s a = some s1) : deny_ok s1 := by
  unfold inode_allow_write at hs
  by_cases hc : (s.heap a).deny_write_cnt > 0 ∧
      (s.heap a).deny_write_cnt ≤ (s.heap a).open_cnt
  · rw [if_pos hc] at hs
    rw [← Option.some.inj hs]
    refine deny_ok_keep s _ h (fun b hb => hb) (fun b _ h0 h1 => ?_)
    unfold set_inode
    by_cases hba : b = a
    · subst hba
      simp only [if_true]
      show 0 ≤ (s.heap b).deny_write_cnt - 1 ∧
        (s.heap b).deny_write_cnt - 1 ≤ (s.heap b).open_cnt
      omega
    · simp only [hba, if_false]
      exact ⟨h0, h1⟩
  · rw [if_neg hc] at hs
    exact absurd hs (by simp)

theorem deny_ok_step (E : Env) (s s1 : FS) (op : inode_op) (h : deny_ok s)
    (hg : close_guard s op) (hs : inode_step E s op = some s1) : deny_ok s1 := by
  cases op with
  | open_at sector =>
    rw [← Option.some.inj hs]
    exact deny_ok_open E s sector h
  | reopen a =>
    rw [← Option.some.inj hs]
    exact deny_ok_reopen s a h
  | close a =>
    rw [← Option.some.inj hs]
    exact deny_ok_close E s a h hg
  | deny a => exact deny_ok_deny s s1 a h hs
  | allow a => exact deny_ok_allow s s1 a h hs

theorem deny_ok_run (E : Env) :
    ∀ (ops : List inode_op) (s s' : FS), deny_ok s → run_guarded E s ops →
      inode_run E s ops = some s' → deny_ok s' := by
  intro ops
  induction ops with
  | nil =>
    intro s s' h _ hrun
    rw [← Option.some.inj hrun]
    exact h
  | cons op ops ih =>
    intro s s' h hg hrun
    obtain ⟨g1, g2⟩ := hg
    rw [inode_run] at hrun
    cases hstep : inode_step E s op with
    | none =>
      rw [hstep] at hrun
      exact absurd hrun (by simp)
    | some s1 =>
      rw [hstep] at hrun g2
      exact ih s1 s' (deny_ok_step E s s1 op h g1 hstep) g2 hrun

/-- C15 (amended): the write-deny counter invariant.  From a state in which every registered
handle satisfies `0 <= deny_write_cnt <= open_cnt`, such as the empty registry, after any
sequence of `inode_open`, `inode_reopen`, `inode_close`, `inode_deny_write` and
`inode_allow_write` calls whose assertions hold and in which every `inode_close` is made on a
handle with fewer write denials than openers, every registered handle satisfies
`0 <= deny_write_cnt <= open_cnt`. -/
theorem deny_write_cnt_bounded (E : Env) (s s' : FS) (ops : List inode_op)
    (h : deny_ok s) (hg : run_guarded E s ops) (hrun : inode_run E s ops = some s') :
    ∀ a, a ∈ s'.open_inodes →
      0 ≤ (s'.heap a).deny_write_cnt ∧ (s'.heap a).deny_write_cnt ≤ (s'.heap a).open_cnt :=
  deny_ok_run E ops s s' h hg hrun

/-- C15 (amended), at a concrete input: `inode_open (5)`, `inode_reopen`, two
`inode_deny_write`, one `inode_allow_write` and then `inode_close`. -/
theorem deny_write_cnt_bounded_witness :
    inode_run demo_env demo_fs0 demo_ops_allowed = some demo_fs_allowed ∧
    demo_fs_allowed.open_inodes = [1] ∧
    ∀ a, a ∈ demo_fs_allowed.open_inodes →
      0 ≤ (demo_fs_allowed.heap a).deny_write_cnt ∧
      (demo_fs_allowed.heap a).deny_write_cnt ≤ (demo_fs_allowed.heap a).open_cnt :=
  ⟨rfl, by decide,
    deny_write_cnt_bounded demo_env demo_fs0 demo_fs_allowed demo_ops_allowed
      (fun a ha => absurd ha (List.not_mem_nil a))
      ⟨trivial, trivial, trivial, trivial, trivial, by unfold close_guard; decide, trivial⟩
      rfl⟩

/-- C15 as stated fails: after `inode_open (5)`, `inode_reopen`, two `inode_deny_write` and
one `inode_close`, whose assertions all hold, the registered handle has `deny_write_cnt` 2 and
`open_cnt` 1. -/
theorem deny_write_cnt_bounded_counterexample :
    inode_run demo_env demo_fs0 demo_ops_denied = some demo_fs_denied ∧
    1 ∈ demo_fs_denied.open_inodes ∧
    (demo_fs_denied.heap 1).deny_write_cnt = 2 ∧ (demo_fs_denied.heap 1).open_cnt = 1 ∧
    ¬ deny_ok demo_fs_denied :=
  ⟨rfl, by decide, by decide, by decide,
    fun h => absurd (h 1 (by decide)).2 (by decide)⟩

/-! ## Theorems: the code at failing inputs -/

/-- C16, the code at the failing input: the handle opened for the directory inode created at
sector 101 has `is_dir = 1` in its cached record, and `inode_is_dir` returns false for it,
because it reads sector `cluster_to_sector (101) = 201`, which holds zeros. -/
theorem inode_is_dir_wrong_sector :
    (dir_create demo_env demo_fs0 101 4).map Prod.snd = some true ∧
    demo_opened.2 ≠ 0 ∧
    (demo_opened.1.heap demo_opened.2).sector = 101 ∧
    (demo_opened.1.heap demo_opened.2).data.is_dir = 1 ∧
    (inode_disk_of_bytes (demo_opened.1.disk 101)).is_dir = 1 ∧
    demo_env.cluster_to_sector 101 = 201 ∧
    (inode_is_dir demo_env demo_opened.1 demo_opened.2).2 = false := by
  decide

/-- C17, the code at the failing input: with no free cluster left, a write of one byte at
offset 512 to an inode whose chain is the single cluster 1 (sector 101) returns 1, the size
asked for, and writes the byte to sector `cluster_to_sector (EOChain)`, outside the chain. -/
theorem inode_write_at_exhausted :
    ((demo_fs 0 0).heap 1).deny_write_cnt = 0 ∧
    (demo_fs 0 0).fat (demo_env_full.sector_to_cluster ((demo_fs 0 0).heap 1).data.start)
      = demo_env_full.EOChain ∧
    (fat_create_chain demo_env_full (demo_fs 0 0).fat 1).2 = 0 ∧
    (inode_write_at demo_env_full (demo_fs 0 0) 1 (fun _ => 9) 1 512).2 = 1 ∧
    demo_env_full.cluster_to_sector 1 = 101 ∧
    demo_env_full.cluster_to_sector demo_env_full.EOChain = 268435555 ∧
    (demo_fs 0 0).disk 268435555 0 = 0 ∧
    (inode_write_at demo_env_full (demo_fs 0 0) 1 (fun _ => 9) 1 512).1.disk 268435555 0
      = 9 := by
  decide

/-- C20, the code at the failing input: on a device whose every byte is 7,
`inode_create (50, 1024, 0)` returns true with a data chain of the two clusters 2 and 3;
sector 102 is zeroed and sector 103 still holds 7, which a read of byte 512 through a freshly
opened handle returns. -/
theorem inode_create_second_sector :
    (inode_create demo_env demo_fs_dirty 50 1024 0).map Prod.snd = some true ∧
    (inode_create demo_env demo_fs_dirty 50 1024 0).map (fun r => r.1.disk 102 0) = some 0 ∧
    (inode_create demo_env demo_fs_dirty 50 1024 0).map (fun r => r.1.disk 103 0) = some 7 ∧
    bytes_to_sectors 1024 = 2 ∧
    (inode_disk_of_bytes (demo_fs_made.disk 50)).start = 102 ∧
    demo_fs_made.fat 2 = 3 ∧
    demo_fs_made.fat 3 = demo_env.EOChain ∧
    demo_fs_made.disk 102 0 = 0 ∧
    demo_fs_made.disk 103 0 = 7 ∧
    (inode_read_at demo_env (inode_open demo_env demo_fs_made 50).1
      (inode_open demo_env demo_fs_made 50).2 (fun _ => 0) 1 512).2.2 = 1 ∧
    (inode_read_at demo_env (inode_open demo_env demo_fs_made 50).1
      (inode_open demo_env demo_fs_made 50).2 (fun _ => 0) 1 512).2.1 0 = 7 := by
  decide

/-! ## Theorems: names of a directory -/

/-- The two outcomes of `dir_add` on a consistent directory that it leaves consistent: no
record changes, or one record, not in use before or past the last one, carries the name,
which no record in use carried. -/
theorem dir_add_cases (E : Env) (hp : pick_sound E)
    (hinj : Function.Injective E.cluster_to_sector) (ip : Nat) (pos : Int) (n : List Nat)
    (sector : Nat) (e0 : Nat → Nat) (L L' : Nat) (s : FS)
    (hwf : dir_wf E s ip L) (hm : mem_ok E s) (hsec : sector < 4294967296)
    (hafter : dir_wf E (dir_add E s { inode := ip, pos := pos } n sector e0).1 ip L') :
    (dir_count (dir_add E s { inode := ip, pos := pos } n sector e0).1 ip = dir_count s ip ∧
      ∀ j, j < dir_count s ip →
        dir_entry_at E (dir_add E s { inode := ip, pos := pos } n sector e0).1 ip j
          = dir_entry_at E s ip j) ∨
    (∃ k, k ≤ dir_count s ip ∧
      dir_count (dir_add E s { inode := ip, pos := pos } n sector e0).1 ip
        = max (dir_count s ip) (k + 1) ∧
      entry_match n
        (dir_entry_at E (dir_add E s { inode := ip, pos := pos } n sector e0).1 ip k) ∧
      (∀ j, j < dir_count s ip → j ≠ k →
        dir_entry_at E (dir_add E s { inode := ip, pos := pos } n sector e0).1 ip j
          = dir_entry_at E s ip j) ∧
      ∀ i, i < dir_count s ip → ¬ entry_match n (dir_entry_at E s ip i)) := by
  have hscan : ∀ s', scan_rel E ip L s s' →
      dir_count s' ip = dir_count s ip ∧
      ∀ j, j < dir_count s ip → dir_entry_at E s' ip j = dir_entry_at E s ip j := by
    intro s' h
    have hlen := scan_rel_length E ip L s s' h
    refine ⟨?_, fun j hj => scan_rel_entry E ip L s s' h hwf j hj⟩
    unfold dir_count; rw [hlen]
  by_cases hv : n = [] ∨ n.length > NAME_MAX
  · rw [dir_add_invalid E s _ n sector e0 hv]
    exact Or.inl (hscan s (scan_rel_refl E ip L s hwf.1))
  obtain ⟨lrel, lalt⟩ := lookup_spec E hp ip pos n L s hwf hm
  rcases lalt with ⟨_, _, _, _, hfound, _⟩ | ⟨hnew, _⟩
  · rw [dir_add_present E s _ n sector e0 hv hfound]
    exact Or.inl (hscan _ lrel)
  by_cases hd : (s.heap ip).deny_write_cnt = 0
  · have hcov := dir_add_cover E hp ip pos n sector e0 L s hwf hm hv hnew hd L' hafter
    have hv' := hv
    simp only [not_or, not_lt] at hv'
    obtain ⟨_, k, h1, _, _, _, h5, h6, _, h8, _⟩ :=
      dir_add_spec E hp hinj ip pos n sector e0 L s hwf hm hd hv'.1 hv'.2 hsec hnew hcov
    exact Or.inr ⟨k, h1, h5, h6, h8, hnew⟩
  · obtain ⟨sc, k, srel, _, _, _, heq⟩ :=
      dir_add_scan E hp ip pos n sector e0 L s hwf hm hv hnew
    have hd' : (sc.1.heap ip).deny_write_cnt ≠ 0 := by rw [srel.1]; exact hd
    have hw : inode_write_at E sc.1 ip
        (set_inode_sector (set_name (set_in_use sc.2.1 true) n) sector) 20
        (20 * (k : Int)) = (sc.1, 0) := by
      unfold inode_write_at
      rw [if_pos hd']
    rw [heq, hw]
    exact Or.inl (hscan _ srel)

/-- A call of `dir_add` keeps the names of the records in use distinct. -/
theorem dir_add_unique (E : Env) (hp : pick_sound E)
    (hinj : Function.Injective E.cluster_to_sector) (s : FS) (d : dir) (n : List Nat)
    (sec : Nat) (e0 : Nat → Nat)
    (hr : dir_ready E s d.inode) (hu : names_unique E s d.inode)
    (hn : ∀ c, c ∈ n → c ≠ 0) (hsec : sec < 4294967296)
    (hafter : ∃ L, dir_wf E (dir_add E s d n sec e0).1 d.inode L) :
    dir_ready E (dir_add E s d n sec e0).1 d.inode ∧
    names_unique E (dir_add E s d n sec e0).1 d.inode := by
  obtain ⟨⟨L, hwf⟩, hm, h0, halloc⟩ := hr
  obtain ⟨L', hwf'⟩ := hafter
  obtain ⟨a1, a2, _, _⟩ :=
    dir_add_effect E hp hinj d.inode d.pos n sec e0 L L' s hwf hm hsec hwf'
  have C := dir_add_cases E hp hinj d.inode d.pos n sec e0 L L' s hwf hm hsec hwf'
  have hd : d = { inode := d.inode, pos := d.pos } := rfl
  rw [← hd] at a1 a2 C
  refine ⟨⟨⟨L', hwf'⟩, mem_ok_mono E s _ hm a2, by rw [a1]; exact h0, le_trans halloc a2⟩, ?_⟩
  revert C
  generalize (dir_add E s d n sec e0).1 = f
  intro C m hm' i hi j hj mi mj
  rcases C with ⟨c1, c2⟩ | ⟨k, k1, k2, k3, k4, k5⟩
  · rw [c1] at hi hj
    rw [c2 i hi] at mi
    rw [c2 j hj] at mj
    exact hu m hm' i hi j hj mi mj
  · rw [k2] at hi hj
    have hlt : ∀ x, x < max (dir_count s d.inode) (k + 1) → x ≠ k → x < dir_count s d.inode := by
      intro x hx hxk
      rcases Nat.lt_or_ge x (dir_count s d.inode) with h | h
      · exact h
      · have : max (dir_count s d.inode) (k + 1) = k + 1 := by
          apply max_eq_right
          omega
        omega
    by_cases hik : i = k
    · by_cases hjk : j = k
      · rw [hik, hjk]
      · have hjK := hlt j hj hjk
        rw [k4 j hjK hjk] at mj
        rw [hik] at mi
        have := entry_match_inj m n _ hm' hn mi k3
        rw [this] at mj
        exact absurd mj (k5 j hjK)
    · have hiK := hlt i hi hik
      rw [k4 i hiK hik] at mi
      by_cases hjk : j = k
      · rw [hjk] at mj
        have := entry_match_inj m n _ hm' hn mj k3
        rw [this] at mi
        exact absurd mi (k5 i hiK)
      · have hjK := hlt j hj hjk
        rw [k4 j hjK hjk] at mj
        exact hu m hm' i hiK j hjK mi mj

/-- A call of `dir_remove` keeps the names of the records in use distinct. -/
theorem dir_remove_unique (E : Env) (hp : pick_sound E)
    (hinj : Function.Injective E.cluster_to_sector) (s : FS) (d : dir) (n : List Nat)
    (hr : dir_ready E s d.inode) (hu : names_unique E s d.inode)
    (hq : close_quiet E s d n)
    (hafter : ∃ L, dir_wf E (dir_remove E s d n).1 d.inode L) :
    dir_ready E (dir_remove E s d n).1 d.inode ∧
    names_unique E (dir_remove E s d n).1 d.inode := by
  obtain ⟨⟨L, hwf⟩, hm, h0, halloc⟩ := hr
  obtain ⟨r1, r2, _, r4, r5⟩ := dir_remove_spec E hp hinj d.inode d.pos n L s hwf hm halloc hq
  have hd : d = { inode := d.inode, pos := d.pos } := rfl
  rw [← hd] at r1 r2 r4 r5
  refine ⟨⟨hafter, mem_ok_mono E s _ hm r2, r4 h0, le_trans halloc r2⟩, ?_⟩
  have hall : ∀ j, j < dir_count s d.inode →
      dir_entry_at E (dir_remove E s d n).1 d.inode j = dir_entry_at E s d.inode j ∨
      e_in_use (dir_entry_at E (dir_remove E s d n).1 d.inode j) = false := by
    intro j hj
    rcases r5 with ⟨_, e2⟩ | ⟨_, _, k', _, _, _, e6, e7⟩
    · exact Or.inl (e2 j hj)
    · by_cases hjk : j = k'
      · rw [hjk]; exact Or.inr e6
      · exact Or.inl (e7 j hj hjk)
  intro m hm' i hi j hj mi mj
  rw [r1] at hi hj
  rcases hall i hi with h | h
  · rcases hall j hj with h' | h'
    · rw [h] at mi
      rw [h'] at mj
      exact hu m hm' i hi j hj mi mj
    · have := mj.1
      rw [h'] at this
      exact absurd this (by simp)
  · have := mi.1
    rw [h] at this
    exact absurd this (by simp)

theorem dir_run_unique (E : Env) (hp : pick_sound E)
    (hinj : Function.Injective E.cluster_to_sector) (d : dir) :
    ∀ (ops : List dir_op) (s : FS), dir_ready E s d.inode → names_unique E s d.inode →
      run_sane E d s ops → names_unique E (dir_run E d s ops) d.inode := by
  intro ops
  induction ops with
  | nil =>
    intro s _ hu _
    exact hu
  | cons op ops ih =>
    intro s hr hu hrun
    obtain ⟨h1, h2, h3, h4⟩ := hrun
    rw [dir_run]
    cases op with
    | add n sec e0 =>
      obtain ⟨g1, g2⟩ := dir_add_unique E hp hinj s d n sec e0 hr hu h1.1 h1.2 h3
      exact ih _ g1 g2 h4
    | remove n =>
      obtain ⟨g1, g2⟩ := dir_remove_unique E hp hinj s d n hr hu h2 h3
      exact ih _ g1 g2 h4

/-- A directory without a record in use has distinct names. -/
theorem names_unique_free (E : Env) (s : FS) (ip : Nat)
    (h : ∀ j, j < dir_count s ip → e_in_use (dir_entry_at E s ip j) = false) :
    names_unique E s ip := by
  intro m _ i hi j _ mi _
  have := mi.1
  rw [h i hi] at this
  exact absurd this (by simp)

/-- Name uniqueness as an invariant of the calls whose allocations succeed.  On a consistent
directory whose handle's inode was allocated, with no null pointer among the open inodes and
every allocation succeeding: if no two records in use carry the same name, then the same holds
after any sequence of `dir_add` and `dir_remove` calls, whatever their results, when their
arguments are of their C types and each call leaves the directory consistent and its records
intact at its close; a directory without a record in use, such as a freshly created one, is a
case of it. -/
theorem dir_names_unique (E : Env) (s : FS) (d : dir) (ops : List dir_op)
    (hp : pick_sound E) (hinj : Function.Injective E.cluster_to_sector)
    (hr : dir_ready E s d.inode) (hrun : run_sane E d s ops) :
    (names_unique E s d.inode → names_unique E (dir_run E d s ops) d.inode) ∧
    ((∀ j, j < dir_count s d.inode → e_in_use (dir_entry_at E s d.inode j) = false) →
      names_unique E (dir_run E d s ops) d.inode) :=
  ⟨fun hu => dir_run_unique E hp hinj d ops s hr hu hrun,
    fun h => dir_run_unique E hp hinj d ops s hr (names_unique_free E s d.inode h) hrun⟩

/-- Name uniqueness at a concrete input, every allocation succeeding: from the freshly created
directory of capacity 4, after `dir_add` of `"a"`, of `"b"`, of `"a"` again, `dir_remove` of
`"a"` and `dir_add` of `"c"`, no two records in use carry the same name. -/
theorem dir_names_unique_witness :
    (∀ j, j < dir_count demo_fs4 demo_dir4.inode →
      e_in_use (dir_entry_at demo_env demo_fs4 demo_dir4.inode j) = false) ∧
    names_unique demo_env
      (dir_run demo_env demo_dir4 demo_fs4
        [dir_op.add [97] 10 (fun _ => 0), dir_op.add [98] 11 (fun _ => 0),
          dir_op.add [97] 12 (fun _ => 0), dir_op.remove [97],
          dir_op.add [99] 12 (fun _ => 0)])
      demo_dir4.inode ∧
    dir_names_from demo_env
      (dir_run demo_env demo_dir4 demo_fs4
        [dir_op.add [97] 10 (fun _ => 0), dir_op.add [98] 11 (fun _ => 0),
          dir_op.add [97] 12 (fun _ => 0), dir_op.remove [97],
          dir_op.add [99] 12 (fun _ => 0)])
      demo_dir4.inode 4 0 = [([99], 20), ([98], 40)] :=
  ⟨by decide,
    (dir_names_unique demo_env demo_fs4 demo_dir4
      [dir_op.add [97] 10 (fun _ => 0), dir_op.add [98] 11 (fun _ => 0),
        dir_op.add [97] 12 (fun _ => 0), dir_op.remove [97], dir_op.add [99] 12 (fun _ => 0)]
      demo_pick_sound demo_sectors_injective
      ⟨⟨1, by unfold dir_wf chain_wf; decide⟩, demo_mem_ok _, by decide, by decide⟩
      ⟨by unfold op_args_ok; decide, trivial, ⟨1, by unfold dir_wf chain_wf; decide⟩,
        by unfold op_args_ok; decide, trivial, ⟨1, by unfold dir_wf chain_wf; decide⟩,
        by unfold op_args_ok; decide, trivial, ⟨1, by unfold dir_wf chain_wf; decide⟩,
        by unfold op_args_ok; decide, by unfold op_quiet close_quiet; decide,
        ⟨1, by unfold dir_wf chain_wf; decide⟩,
        by unfold op_args_ok; decide, trivial, ⟨1, by unfold dir_wf chain_wf; decide⟩,
        trivial⟩).2 (by decide),
    by decide⟩

/-- C18, the code at the failing input: in the directory whose one record in use carries
`"a"`, where no two records in use carry the same name, when the staging buffer of the first
read of `lookup` cannot be allocated and the later allocations succeed, `dir_add` of `"a"`
returns true and leaves two records in use that carry `"a"`. -/
theorem dir_names_unique_counterexample :
    names_unique demo_env demo_fs_a 1 ∧
    (dir_add (demo_env_fail demo_fs_a.mallocs) demo_fs_a demo_dir [97] 12 (fun _ => 0)).2
      = true ∧
    ¬ names_unique demo_env
      (dir_add (demo_env_fail demo_fs_a.mallocs) demo_fs_a demo_dir [97] 12 (fun _ => 0)).1
      1 := by
  refine ⟨fun m _ i hi j hj _ _ => ?_, by decide, fun h => ?_⟩
  · have hc : dir_count demo_fs_a 1 = 1 := by decide
    rw [hc] at hi hj
    omega
  · have := h [97] (by decide) 0 (by decide) 1 (by decide) (by unfold entry_match; decide)
      (by unfold entry_match; decide)
    exact absurd this (by decide)

/-! ## Theorems: growth of a directory -/

/-- The length of a directory in which every record is in use, after the `dir_add` of a valid
name that is not present to a writable directory inode. -/
theorem dir_add_full_length (E : Env) (hp : pick_sound E) (ip : Nat) (pos : Int)
    (name : List Nat) (sector : Nat) (e0 : Nat → Nat) (L : Nat) (s0 : FS)
    (hwf : dir_wf E s0 ip L) (hm : mem_ok E s0)
    (hv : ¬ (name = [] ∨ name.length > NAME_MAX))
    (hnew : ∀ j, j < dir_count s0 ip → ¬ entry_match name (dir_entry_at E s0 ip j))
    (hd : (s0.heap ip).deny_write_cnt = 0)
    (hall : ∀ j, j < dir_count s0 ip → e_in_use (dir_entry_at E s0 ip j) = true) :
    inode_length (dir_add E s0 { inode := ip, pos := pos } name sector e0).1 ip
      = 20 * (dir_count s0 ip : Int) + 20 := by
  obtain ⟨sc, k, srel, hk1, _, hk4, heq⟩ :=
    dir_add_scan E hp ip pos name sector e0 L s0 hwf hm hv hnew
  have hkK : k = dir_count s0 ip := by
    by_contra hne'
    have hlt : k < dir_count s0 ip := by omega
    have := hall k hlt
    rw [hk4 hlt] at this
    exact absurd this (by simp)
  rw [heq]
  obtain ⟨_, fb, _, _⟩ := inode_write_at_frame E sc.1 ip
    (set_inode_sector (set_name (set_in_use sc.2.1 true) name) sector) 20 (20 * (k : Int))
  revert fb
  generalize inode_write_at E sc.1 ip
    (set_inode_sector (set_name (set_in_use sc.2.1 true) name) sector) 20 (20 * (k : Int)) = w
  intro fb
  have hl0 := hwf.2.1
  have hlt := (dir_count_lt s0 ip (dir_count s0 ip) hl0).1
  have hnot : ¬ (20 * (dir_count s0 ip : Int) + 20 ≤ inode_length s0 ip) := by
    intro h; have := hlt.2 h; omega
  have hheap : sc.1.heap ip = s0.heap ip := by rw [srel.1]
  have hlen0 : (s0.heap ip).data.length = inode_length s0 ip := rfl
  rw [hheap, hkK] at fb
  show inode_length w.1 ip = 20 * (dir_count s0 ip : Int) + 20
  unfold inode_length; rw [fb]
  show (if (s0.heap ip).deny_write_cnt = 0 ∧
      20 * (dir_count s0 ip : Int) + 20 > (s0.heap ip).data.length
    then 20 * (dir_count s0 ip : Int) + 20 else (s0.heap ip).data.length) = _
  rw [if_pos ⟨hd, by rw [hlen0]; omega⟩]

/-- C19 (amended): capacity is advisory.  On a consistent directory whose length is a whole
number of records, all of them in use (none when it was created with capacity 0), with the
staging buffers allocated: `dir_add` of a valid name not yet present returns true when the
directory inode is writable and the chain backs the length after the call (the allocator could
extend it); the record, in use with the name and the sector, is stored at the old length, the
records before it are unchanged, and the length grows by `sizeof (struct dir_entry)`. -/
theorem dir_add_grows (E : Env) (s : FS) (d : dir) (name : List Nat) (sector : Nat)
    (e0 : Nat → Nat) (L L' : Nat)
    (hp : pick_sound E) (hinj : Function.Injective E.cluster_to_sector)
    (hwf : dir_wf E s d.inode L) (hm : mem_ok E s) (hsec : sector < 4294967296)
    (hd : (s.heap d.inode).deny_write_cnt = 0)
    (hne : name ≠ []) (hlen : name.length ≤ NAME_MAX)
    (hnew : ∀ j, j < dir_count s d.inode → ¬ entry_match name (dir_entry_at E s d.inode j))
    (hall : ∀ j, j < dir_count s d.inode → e_in_use (dir_entry_at E s d.inode j) = true)
    (hmul : inode_length s d.inode = 20 * (dir_count s d.inode : Int))
    (hafter : dir_wf E (dir_add E s d name sector e0).1 d.inode L') :
    (dir_add E s d name sector e0).2 = true ∧
    inode_length (dir_add E s d name sector e0).1 d.inode
      = inode_length s d.inode + DIR_ENTRY_SIZE ∧
    entry_match name
      (dir_entry_at E (dir_add E s d name sector e0).1 d.inode (dir_count s d.inode)) ∧
    e_inode_sector
      (dir_entry_at E (dir_add E s d name sector e0).1 d.inode (dir_count s d.inode))
        = sector ∧
    (∀ j, j < dir_count s d.inode →
      dir_entry_at E (dir_add E s d name sector e0).1 d.inode j
        = dir_entry_at E s d.inode j) := by
  have hv : ¬ (name = [] ∨ name.length > NAME_MAX) := by
    simp only [not_or, not_lt]; exact ⟨hne, hlen⟩
  have hcov := dir_add_cover E hp d.inode d.pos name sector e0 L s hwf hm hv hnew hd L' hafter
  obtain ⟨h0, k, h1, _, h3, _, _, h6, h7, h8, _⟩ :=
    dir_add_spec E hp hinj d.inode d.pos name sector e0 L s hwf hm hd hne hlen hsec hnew hcov
  have hl := dir_add_full_length E hp d.inode d.pos name sector e0 L s hwf hm hv hnew hd hall
  have hdd : d = { inode := d.inode, pos := d.pos } := rfl
  rw [← hdd] at h0 h6 h7 h8 hl
  have hkK : k = dir_count s d.inode := by
    by_contra hne'
    have hlt : k < dir_count s d.inode := by omega
    have := hall k hlt
    rw [h3 hlt] at this
    exact absurd this (by simp)
  rw [hkK] at h6 h7 h8
  refine ⟨h0, ?_, h6, h7, fun j hj => h8 j hj (by omega)⟩
  rw [hl, hmul]

/-- C19 (amended), at a concrete input: `dir_add` of `"a"` for sector 10 to the directory
created with capacity 0, whose length grows from 0 to 20. -/
theorem dir_add_grows_witness :
    inode_length demo_fs_cap0 demo_dir4.inode = 0 ∧
    ((dir_add demo_env demo_fs_cap0 demo_dir4 [97] 10 (fun _ => 0)).2 = true ∧
    inode_length (dir_add demo_env demo_fs_cap0 demo_dir4 [97] 10 (fun _ => 0)).1
      demo_dir4.inode = inode_length demo_fs_cap0 demo_dir4.inode + DIR_ENTRY_SIZE ∧
    entry_match [97]
      (dir_entry_at demo_env (dir_add demo_env demo_fs_cap0 demo_dir4 [97] 10 (fun _ => 0)).1
        demo_dir4.inode (dir_count demo_fs_cap0 demo_dir4.inode)) ∧
    e_inode_sector
      (dir_entry_at demo_env (dir_add demo_env demo_fs_cap0 demo_dir4 [97] 10 (fun _ => 0)).1
        demo_dir4.inode (dir_count demo_fs_cap0 demo_dir4.inode)) = 10 ∧
    (∀ j, j < dir_count demo_fs_cap0 demo_dir4.inode →
      dir_entry_at demo_env (dir_add demo_env demo_fs_cap0 demo_dir4 [97] 10 (fun _ => 0)).1
          demo_dir4.inode j
        = dir_entry_at demo_env demo_fs_cap0 demo_dir4.inode j)) :=
  ⟨by decide,
    dir_add_grows demo_env demo_fs_cap0 demo_dir4 [97] 10 (fun _ => 0) 1 1 demo_pick_sound
      demo_sectors_injective (by unfold dir_wf chain_wf; decide) (demo_mem_ok _) (by decide)
      (by decide) (by decide) (by decide) (by unfold entry_match; decide) (by decide)
      (by decide) (by unfold dir_wf chain_wf; decide)⟩

/-- C19 as stated fails: in the directory whose two records, `"a"` and `"b"`, are in use, when
the staging buffer of the first read of the scan for a free record cannot be allocated,
`dir_add` of `"c"` returns true with the record stored at offset 0, not at the old length 40,
and the length stays 40. -/
theorem dir_add_grows_counterexample :
    inode_length demo_fs_ab 1 = 40 ∧
    e_in_use (dir_entry_at demo_env demo_fs_ab 1 0) = true ∧
    e_in_use (dir_entry_at demo_env demo_fs_ab 1 1) = true ∧
    (demo_fs_ab.heap 1).deny_write_cnt = 0 ∧
    (dir_add (demo_env_fail (demo_fs_ab.mallocs + 2)) demo_fs_ab demo_dir [99] 12
      (fun _ => 0)).2 = true ∧
    inode_length
      (dir_add (demo_env_fail (demo_fs_ab.mallocs + 2)) demo_fs_ab demo_dir [99] 12
        (fun _ => 0)).1 1 = 40 ∧
    str_eq [99] (dir_entry_at demo_env
      (dir_add (demo_env_fail (demo_fs_ab.mallocs + 2)) demo_fs_ab demo_dir [99] 12
        (fun _ => 0)).1 1 0) 4 = true := by
  decide

/-! ## Theorems: reads at the end of the stream -/

/-- A read of at least one byte at or past the end of the stream: `inode_read_at` returns 0
with the caller's buffer untouched, and the state is the one that `byte_to_sector` leaves for
the offset, because the translation precedes the test of the chunk size. -/
theorem inode_read_at_past_end (E : Env) (s : FS) (ip : Nat) (buffer : Nat → Nat)
    (size offset : Int) (hs : 0 < size) (h0 : 0 ≤ offset) (ho : inode_length s ip ≤ offset) :
    inode_read_at E s ip buffer size offset = ((byte_to_sector E s ip offset).1, buffer, 0) := by
  unfold inode_read_at
  have hfuel : size.toNat = (size.toNat - 1) + 1 := by omega
  rw [hfuel, inode_read_loop_succ, if_pos hs]
  have hc : chunk_of (inode_length s ip) size offset ≤ 0 := by
    rw [chunk_of_eq _ _ _ h0]
    omega
  rw [if_pos hc]

/-- C21, the code at failing inputs: a read of one byte at offset 512 of an inode of length
512 whose chain is the single cluster 1 returns 0 and links cluster 2 behind cluster 1; and
the read of a record at offset 2560 of the directory of 128 records, the read that ends a
scan of it, returns 0 and links cluster 7 behind cluster 6, the last of its five clusters. -/
theorem inode_read_at_extends_chain :
    inode_length (demo_fs 512 0) 1 = 512 ∧
    (demo_fs 512 0).fat 1 = demo_env.EOChain ∧ (demo_fs 512 0).fat 2 = 0 ∧
    (inode_read_at demo_env (demo_fs 512 0) 1 (fun _ => 0) 1 512).2.2 = 0 ∧
    (inode_read_at demo_env (demo_fs 512 0) 1 (fun _ => 0) 1 512).1.fat 1 = 2 ∧
    (inode_read_at demo_env (demo_fs 512 0) 1 (fun _ => 0) 1 512).1.fat 2
      = demo_env.EOChain ∧
    (dir_create demo_env demo_fs0 101 128).map Prod.snd = some true ∧
    inode_length demo_fs_cap128 demo_dir4.inode = 2560 ∧
    demo_fs_cap128.fat 6 = demo_env.EOChain ∧ demo_fs_cap128.fat 7 = 0 ∧
    (inode_read_at demo_env demo_fs_cap128 demo_dir4.inode (fun _ => 0) 20 2560).2.2 = 0 ∧
    (inode_read_at demo_env demo_fs_cap128 demo_dir4.inode (fun _ => 0) 20 2560).1.fat 6
      = 7 ∧
    (inode_read_at demo_env demo_fs_cap128 demo_dir4.inode (fun _ => 0) 20 2560).1.fat 7
      = demo_env.EOChain := by
  decide

end Pintos
